import Mathlib

/-!
# Ready Trader Go auto-trader

A shallow embedding of `cppready_trader_go/autotrader.cc`: the state of the
`AutoTrader` object, its message handlers as pure functions returning the new
state together with the commands sent to the exchange, and the properties of
the quoting engine proved about them.

Conventions of the embedding.

* `unsigned long` values are natural numbers; every `+`, `-` and `++` the
  source performs on them is reduced modulo `2 ^ 64` (`add64`, `sub64`).
  A sum or difference written in a statement about the code is this 64-bit
  one unless the statement says it is exact; `add64_of_lt` relates the two.
* `mPosition` is a signed 64-bit integer; `+=` and `-=` with an
  `unsigned long` operand wrap in two's complement (`toI64`).
* `mBids` and `mAsks` are maps from client order id to price, kept as
  association lists in the order the range-`for` loops visit them, taken to be
  ascending key order. No statement proved here depends on that order.
* `mCanceledIds` is a set of ids, kept as a list without regard to order.
* A handler returns the commands it sends, in the order it sends them.
* The member declarations live in `autotrader.h`, which is not part of the
  tree: the field types above are those the handlers use them at.
-/

set_option linter.unusedVariables false

namespace AutoTrader

/-! ## Machine arithmetic -/

/-- The modulus of `unsigned long` arithmetic, two to the power 64. -/
abbrev U64 : Nat := 18446744073709551616

/-- Half the modulus, two to the power 63: the bound of `signed long`. -/
abbrev I64 : Int := 9223372036854775808

/-- Unsigned 64-bit addition. -/
def add64 (a b : Nat) : Nat := (a + b) % U64

/-- Unsigned 64-bit subtraction. -/
def sub64 (a b : Nat) : Nat := (a + (U64 - b % U64)) % U64

/-- Reduction of an exact integer to the signed 64-bit range. -/
def toI64 (z : Int) : Int := (z + I64) % (2 * I64) - I64

/-! ## Constants of `autotrader.cc` -/

def LOT_SIZE : Nat := 10
def POSITION_LIMIT : Int := 70
def TICK_SIZE_IN_CENTS : Nat := 100
def MIN_PROFITABILITY : Nat := 2
def MAX_ORDERS : Nat := 2
def ORDER_VOLUME : Nat := 10
def FUTURE : Nat := 0
def ETF : Nat := 1

/-- The price bounds `MINIMUM_BID` and `MAXIMUM_ASK` come from the framework
header `ready_trader_go/types.h`; they are parameters of the embedding. -/
structure PriceBounds where
  MINIMUM_BID : Nat
  MAXIMUM_ASK : Nat

def MIN_BID_NEARST_TICK (pb : PriceBounds) : Nat :=
  (pb.MINIMUM_BID + TICK_SIZE_IN_CENTS) / TICK_SIZE_IN_CENTS * TICK_SIZE_IN_CENTS

def MAX_ASK_NEAREST_TICK (pb : PriceBounds) : Nat :=
  pb.MAXIMUM_ASK / TICK_SIZE_IN_CENTS * TICK_SIZE_IN_CENTS

/-- The value of the `double` expression `-POSITION_LIMIT * 0.6`. The product
`70 * 0.6` rounds to exactly `42.0`, and converting a `signed long` to
`double` is monotone and exact at `-42` and `-43`, so the source comparison
`mPosition < -POSITION_LIMIT * 0.6` is the integer comparison
`mPosition < -42`. -/
def SHORT_UNWIND_LEVEL : Int := -42

/-- The value of the `double` expression `POSITION_LIMIT * 0.6`; the source
comparison `mPosition > POSITION_LIMIT * 0.6` is `mPosition > 42`. -/
def LONG_UNWIND_LEVEL : Int := 42

/-! ## Data model -/

inductive Instrument where
  | FUTURE
  | ETF
  deriving DecidableEq, Repr

inductive Side where
  | SELL
  | BUY
  deriving DecidableEq, Repr

inductive Lifespan where
  | FILL_AND_KILL
  | GOOD_FOR_DAY
  deriving DecidableEq, Repr

/-- The commands the trader sends through the base class. -/
inductive Command where
  | SendInsertOrder (clientOrderId : Nat) (side : Side) (price volume : Nat)
      (lifespan : Lifespan)
  | SendCancelOrder (clientOrderId : Nat)
  | SendHedgeOrder (clientOrderId : Nat) (side : Side) (price volume : Nat)
  deriving DecidableEq, Repr

/-- One row of a last-price table: the best two levels of one instrument. -/
structure Levels where
  l0 : Nat
  l1 : Nat
  deriving DecidableEq, Repr

/-- A table `unsigned long [2][2]`, indexed by instrument and then level. -/
structure LastPrices where
  future : Levels
  etf : Levels
  deriving DecidableEq, Repr

/-- Read `t[inst][i]`. -/
def LastPrices.get (t : LastPrices) (inst i : Nat) : Nat :=
  if inst = 0 then (if i = 0 then t.future.l0 else t.future.l1)
  else (if i = 0 then t.etf.l0 else t.etf.l1)

/-- Write `t[inst][i] = v`. -/
def LastPrices.set (t : LastPrices) (inst i v : Nat) : LastPrices :=
  if inst = 0 then
    (if i = 0 then { t with future := { t.future with l0 := v } }
     else { t with future := { t.future with l1 := v } })
  else
    (if i = 0 then { t with etf := { t.etf with l0 := v } }
     else { t with etf := { t.etf with l1 := v } })

/-- An order table: client order id to resting price. -/
abbrev OrderMap := List (Nat × Nat)

/-- The keys of an order table. -/
def mapKeys (m : OrderMap) : List Nat := m.map Prod.fst

/-- The map operation `m.count(k)`: one when the key is present, else zero. -/
def mapCount (m : OrderMap) (k : Nat) : Nat := if k ∈ mapKeys m then 1 else 0

/-- The map operation `m.erase(k)`. -/
def mapErase (m : OrderMap) (k : Nat) : OrderMap := m.filter (fun e => e.1 ≠ k)

/-- The price stored under a key, if any. -/
def mapFind (m : OrderMap) (k : Nat) : Option Nat :=
  match m with
  | [] => none
  | e :: rest => if e.1 = k then some e.2 else mapFind rest k

/-- The map operation `m[k] = v`: overwrite the value of a present key, or add
the key at its place in ascending key order. -/
def mapAssign (m : OrderMap) (k v : Nat) : OrderMap :=
  match m with
  | [] => [(k, v)]
  | e :: rest =>
    if e.1 = k then (k, v) :: rest
    else if k < e.1 then (k, v) :: e :: rest
    else e :: mapAssign rest k v

/-- The fields of the `AutoTrader` object. -/
structure State where
  mLastAskPrices : LastPrices
  mLastBidPrices : LastPrices
  mBids : OrderMap
  mAsks : OrderMap
  mCanceledIds : List Nat
  mPosition : Int
  mNextMessageId : Nat
  deriving DecidableEq, Repr

/-! ## Handlers -/

/-- `OrderStatusMessageHandler`. -/
def OrderStatusMessageHandler (s : State) (clientOrderId fillVolume remainingVolume : Nat)
    (fees : Int) : State × List Command :=
  if remainingVolume ≠ 0 then (s, [])
  else if mapCount s.mBids clientOrderId ≠ 0 then
    ({ s with mBids := mapErase s.mBids clientOrderId }, [])
  else
    ({ s with mAsks := mapErase s.mAsks clientOrderId }, [])

/-- `ErrorMessageHandler`. -/
def ErrorMessageHandler (s : State) (clientOrderId : Nat) (errorMessage : String) :
    State × List Command :=
  if clientOrderId ≠ 0 ∧
      (mapCount s.mAsks clientOrderId = 1 ∨ mapCount s.mBids clientOrderId = 1) then
    OrderStatusMessageHandler s clientOrderId 0 0 0
  else (s, [])

/-- `HedgeFilledMessageHandler`: an empty body. -/
def HedgeFilledMessageHandler (s : State) (clientOrderId price volume : Nat) :
    State × List Command :=
  (s, [])

/-- `TradeTicksMessageHandler`: an empty body. -/
def TradeTicksMessageHandler (s : State) (instrument : Instrument) (sequenceNumber : Nat)
    (askPrices askVolumes bidPrices bidVolumes : Nat → Nat) : State × List Command :=
  (s, [])

/-- `OrderFilledMessageHandler`. -/
def OrderFilledMessageHandler (pb : PriceBounds) (s : State)
    (clientOrderId price volume : Nat) : State × List Command :=
  if mapCount s.mBids clientOrderId ≠ 0 then
    let hedgeId := add64 s.mNextMessageId 1
    let hedge := Command.SendHedgeOrder hedgeId Side.SELL (MIN_BID_NEARST_TICK pb) volume
    let position := toI64 (s.mPosition + (volume : Int))
    if clientOrderId ∉ s.mCanceledIds then
      ({ s with mNextMessageId := hedgeId, mPosition := position,
                mCanceledIds := s.mCanceledIds.insert clientOrderId },
        [hedge, Command.SendCancelOrder clientOrderId])
    else
      ({ s with mNextMessageId := hedgeId, mPosition := position }, [hedge])
  else if mapCount s.mAsks clientOrderId ≠ 0 then
    let hedgeId := add64 s.mNextMessageId 1
    let hedge := Command.SendHedgeOrder hedgeId Side.BUY (MAX_ASK_NEAREST_TICK pb) volume
    let position := toI64 (s.mPosition - (volume : Int))
    if clientOrderId ∉ s.mCanceledIds then
      ({ s with mNextMessageId := hedgeId, mPosition := position,
                mCanceledIds := s.mCanceledIds.insert clientOrderId },
        [hedge, Command.SendCancelOrder clientOrderId])
    else
      ({ s with mNextMessageId := hedgeId, mPosition := position }, [hedge])
  else (s, [])

/-- The first loop of `OrderBookMessageHandler`: copy the best two levels of
the instrument of the message into the last-price tables. -/
def storePrices (s : State) (instrument : Instrument) (askPrices bidPrices : Nat → Nat) :
    State :=
  let orderType : Nat := if instrument = Instrument.ETF then 1 else 0
  { s with
    mLastAskPrices :=
      (s.mLastAskPrices.set orderType 0 (askPrices 0)).set orderType 1 (askPrices 1),
    mLastBidPrices :=
      (s.mLastBidPrices.set orderType 0 (bidPrices 0)).set orderType 1 (bidPrices 1) }

/-- The loop "Cancel bid" over the entries of `mBids`, threading the set of
cancelled ids; returns that set and the cancel commands sent. -/
def cancelBids (bid : LastPrices) : OrderMap → List Nat → List Nat × List Command
  | [], canceled => (canceled, [])
  | (bidId, bidPrice) :: rest, canceled =>
    if bidId ∈ canceled then cancelBids bid rest canceled
    else if bid.get FUTURE 0 ≤ add64 bidPrice (MIN_PROFITABILITY * TICK_SIZE_IN_CENTS) then
      let r := cancelBids bid rest (canceled.insert bidId)
      (r.1, Command.SendCancelOrder bidId :: r.2)
    else if bid.get ETF 1 > bidPrice then
      let r := cancelBids bid rest (canceled.insert bidId)
      (r.1, Command.SendCancelOrder bidId :: r.2)
    else cancelBids bid rest canceled

/-- The loop "Cancel ask" over the entries of `mAsks`. -/
def cancelAsks (ask : LastPrices) : OrderMap → List Nat → List Nat × List Command
  | [], canceled => (canceled, [])
  | (askId, askPrice) :: rest, canceled =>
    if askId ∈ canceled then cancelAsks ask rest canceled
    else if ask.get FUTURE 0 ≥ sub64 askPrice (MIN_PROFITABILITY * TICK_SIZE_IN_CENTS) then
      let r := cancelAsks ask rest (canceled.insert askId)
      (r.1, Command.SendCancelOrder askId :: r.2)
    else if ask.get ETF 1 < askPrice ∧ ask.get ETF 1 ≠ 0 then
      let r := cancelAsks ask rest (canceled.insert askId)
      (r.1, Command.SendCancelOrder askId :: r.2)
    else cancelAsks ask rest canceled

/-- The "Cancel order flow" of `OrderBookMessageHandler`: both loops. -/
def cancelSweep (s : State) : State × List Command :=
  let b := cancelBids s.mLastBidPrices s.mBids s.mCanceledIds
  let a := cancelAsks s.mLastAskPrices s.mAsks b.1
  ({ s with mCanceledIds := a.1 }, b.2 ++ a.2)

/-- The bid half of the "Create order flow". -/
def createBid (s : State) : State × List Command :=
  if s.mBids.length < MAX_ORDERS ∧ s.mPosition < POSITION_LIMIT then
    if s.mLastBidPrices.get FUTURE 0 >
          add64 (s.mLastBidPrices.get ETF 0) (MIN_PROFITABILITY * TICK_SIZE_IN_CENTS)
        ∧ s.mLastBidPrices.get ETF 0 > MIN_PROFITABILITY * TICK_SIZE_IN_CENTS then
      let bidId := add64 s.mNextMessageId 1
      let bidPrice := add64 (s.mLastBidPrices.get ETF 0) TICK_SIZE_IN_CENTS
      let bidVolume := ORDER_VOLUME
      let bidPrice :=
        if bidPrice > s.mLastAskPrices.get ETF 0 ∧ s.mLastAskPrices.get ETF 0 ≠ 0 then
          s.mLastAskPrices.get ETF 0
        else bidPrice
      ({ s with mNextMessageId := bidId, mBids := mapAssign s.mBids bidId bidPrice },
        [Command.SendInsertOrder bidId Side.BUY bidPrice bidVolume Lifespan.GOOD_FOR_DAY])
    else if s.mPosition < SHORT_UNWIND_LEVEL ∧ s.mLastAskPrices.get FUTURE 0 ≠ 0 then
      let bidId := add64 s.mNextMessageId 1
      let bidPrice := add64 (s.mLastAskPrices.get FUTURE 0) TICK_SIZE_IN_CENTS
      let bidVolume := 10
      ({ s with mNextMessageId := bidId, mBids := mapAssign s.mBids bidId bidPrice },
        [Command.SendInsertOrder bidId Side.BUY bidPrice bidVolume Lifespan.GOOD_FOR_DAY])
    else (s, [])
  else (s, [])

/-- The ask half of the "Create order flow". -/
def createAsk (s : State) : State × List Command :=
  if s.mAsks.length < MAX_ORDERS ∧ s.mPosition > -POSITION_LIMIT then
    if s.mLastAskPrices.get FUTURE 0 <
          sub64 (s.mLastAskPrices.get ETF 0) (MIN_PROFITABILITY * TICK_SIZE_IN_CENTS)
        ∧ s.mLastAskPrices.get ETF 0 > MIN_PROFITABILITY * TICK_SIZE_IN_CENTS then
      let askId := add64 s.mNextMessageId 1
      let askPrice := add64 (s.mLastAskPrices.get ETF 0) TICK_SIZE_IN_CENTS
      let askVolume := ORDER_VOLUME
      let askPrice :=
        if askPrice < s.mLastBidPrices.get ETF 0 ∧ s.mLastBidPrices.get ETF 0 ≠ 0 then
          s.mLastBidPrices.get ETF 0
        else askPrice
      ({ s with mNextMessageId := askId, mAsks := mapAssign s.mAsks askId askPrice },
        [Command.SendInsertOrder askId Side.SELL askPrice askVolume Lifespan.GOOD_FOR_DAY])
    else if s.mPosition > LONG_UNWIND_LEVEL ∧ s.mLastBidPrices.get FUTURE 0 ≠ 0 then
      let askId := add64 s.mNextMessageId 1
      let askPrice := add64 (s.mLastBidPrices.get FUTURE 0) TICK_SIZE_IN_CENTS
      let askVolume := 10
      ({ s with mNextMessageId := askId, mAsks := mapAssign s.mAsks askId askPrice },
        [Command.SendInsertOrder askId Side.SELL askPrice askVolume Lifespan.GOOD_FOR_DAY])
    else (s, [])
  else (s, [])

/-- `OrderBookMessageHandler`: store the prices, sweep the resting orders,
then quote a bid and an ask. -/
def OrderBookMessageHandler (s : State) (instrument : Instrument) (sequenceNumber : Nat)
    (askPrices askVolumes bidPrices bidVolumes : Nat → Nat) : State × List Command :=
  let s1 := storePrices s instrument askPrices bidPrices
  let c := cancelSweep s1
  let b := createBid c.1
  let a := createAsk b.1
  (a.1, c.2 ++ b.2 ++ a.2)

/-! ## Events and runs -/

/-- The messages the exchange delivers to the trader. -/
inductive Event where
  | orderBook (instrument : Instrument) (sequenceNumber : Nat)
      (askPrices askVolumes bidPrices bidVolumes : Nat → Nat)
  | tradeTicks (instrument : Instrument) (sequenceNumber : Nat)
      (askPrices askVolumes bidPrices bidVolumes : Nat → Nat)
  | orderStatus (clientOrderId fillVolume remainingVolume : Nat) (fees : Int)
  | orderFilled (clientOrderId price volume : Nat)
  | hedgeFilled (clientOrderId price volume : Nat)
  | error (clientOrderId : Nat) (errorMessage : String)

/-- Dispatch one message to its handler. -/
def step (pb : PriceBounds) (s : State) : Event → State × List Command
  | .orderBook i n ap av bp bv => OrderBookMessageHandler s i n ap av bp bv
  | .tradeTicks i n ap av bp bv => TradeTicksMessageHandler s i n ap av bp bv
  | .orderStatus id f r fees => OrderStatusMessageHandler s id f r fees
  | .orderFilled id p v => OrderFilledMessageHandler pb s id p v
  | .hedgeFilled id p v => HedgeFilledMessageHandler s id p v
  | .error id msg => ErrorMessageHandler s id msg

/-- Handle a sequence of messages one at a time, collecting the commands. -/
def run (pb : PriceBounds) (s : State) : List Event → State × List Command
  | [] => (s, [])
  | e :: es =>
    let r := step pb s e
    let q := run pb r.1 es
    (q.1, r.2 ++ q.2)

/-- Modelled from the spec: the state of a freshly constructed trader, whose
member initialisers are in `autotrader.h`: empty order tables, empty
cancelled set, position zero and id counter zero. The content of the
last-price tables before the first book update is left open. -/
def initialState (asks bids : LastPrices) : State :=
  { mLastAskPrices := asks, mLastBidPrices := bids, mBids := [], mAsks := [],
    mCanceledIds := [], mPosition := 0, mNextMessageId := 0 }

/-! ## Observations on command streams -/

/-- The ids of the cancel commands of a stream, in order. -/
def cancelIds : List Command → List Nat
  | [] => []
  | Command.SendCancelOrder id :: rest => id :: cancelIds rest
  | _ :: rest => cancelIds rest

/-- The hedge orders of a stream, in order. -/
def hedges (cmds : List Command) : List Command :=
  cmds.filter (fun c => match c with
    | Command.SendHedgeOrder _ _ _ _ => true
    | _ => false)

/-- The insert orders of one side of a stream, in order. -/
def inserts (side : Side) (cmds : List Command) : List Command :=
  cmds.filter (fun c => match c with
    | Command.SendInsertOrder _ sd _ _ _ => decide (sd = side)
    | _ => false)

/-- The number of ids a stream consumed: one per insert and per hedge. -/
def idsUsed : List Command → Nat
  | [] => 0
  | Command.SendCancelOrder _ :: rest => idsUsed rest
  | _ :: rest => idsUsed rest + 1

/-- The id counter never passes `2 ^ 64 - 1` during the run. -/
def noWrap (pb : PriceBounds) (s : State) : List Event → Bool
  | [] => true
  | e :: es =>
    decide (s.mNextMessageId + idsUsed (step pb s e).2 < U64) && noWrap pb (step pb s e).1 es

/-! ## Concrete scenarios -/

/-- Price bounds used in the scenarios. -/
def demoBounds : PriceBounds := { MINIMUM_BID := 1, MAXIMUM_ASK := 2147483647 }

/-- A table with every price zero. -/
def noPrices : LastPrices := { future := { l0 := 0, l1 := 0 }, etf := { l0 := 0, l1 := 0 } }

/-- A trader resting one bid, id 1 at 9800, and one ask, id 2 at 10400. -/
def restingState : State :=
  { mLastAskPrices := noPrices, mLastBidPrices := noPrices,
    mBids := [(1, 9800)], mAsks := [(2, 10400)],
    mCanceledIds := [], mPosition := 0, mNextMessageId := 2 }

/-! ## Views named as in the specification -/

/-- The future's bid at level `i` of the snapshot, `mLastBidPrices[FUTURE][i]`. -/
def State.futureBid (s : State) (i : Nat) : Nat := s.mLastBidPrices.get FUTURE i

/-- The future's ask at level `i`, `mLastAskPrices[FUTURE][i]`. -/
def State.futureAsk (s : State) (i : Nat) : Nat := s.mLastAskPrices.get FUTURE i

/-- The ETF's bid at level `i`, `mLastBidPrices[ETF][i]`. -/
def State.etfBid (s : State) (i : Nat) : Nat := s.mLastBidPrices.get ETF i

/-- The ETF's ask at level `i`, `mLastAskPrices[ETF][i]`. -/
def State.etfAsk (s : State) (i : Nat) : Nat := s.mLastAskPrices.get ETF i

/-- The price of an arbitrage bid in the words of the specification: one tick
above the ETF best bid, capped at the ETF best ask when that ask is known. -/
def specBidPrice (etfBid0 etfAsk0 : Nat) : Nat :=
  if etfAsk0 = 0 ∨ etfBid0 + 100 ≤ etfAsk0 then etfBid0 + 100 else etfAsk0

/-- A price array holding `a` at level 0, `b` at level 1 and zero beyond. -/
def book2 (a b : Nat) : Nat → Nat := fun i => if i = 0 then a else if i = 1 then b else 0

/-- A trader with nothing resting that has seen the future bid at 10200. -/
def flatState : State :=
  { mLastAskPrices := { future := { l0 := 10300, l1 := 10400 }, etf := { l0 := 0, l1 := 0 } },
    mLastBidPrices := { future := { l0 := 10200, l1 := 10100 }, etf := { l0 := 0, l1 := 0 } },
    mBids := [], mAsks := [], mCanceledIds := [], mPosition := 0, mNextMessageId := 0 }

/-- A trader short 45 with nothing resting. -/
def shortState : State :=
  { mLastAskPrices := noPrices, mLastBidPrices := noPrices,
    mBids := [], mAsks := [], mCanceledIds := [], mPosition := -45, mNextMessageId := 7 }

/-! ## The common shape of the two cancel loops -/

/-- A cancel loop with its test abstracted: visit the entries in order, skip an
id already cancelled, and cancel an id whose price passes the test. -/
def sweepLoop (test : Nat → Bool) : OrderMap → List Nat → List Nat × List Command
  | [], canceled => (canceled, [])
  | (id, price) :: rest, canceled =>
    if id ∈ canceled then sweepLoop test rest canceled
    else if test price then
      let r := sweepLoop test rest (canceled.insert id)
      (r.1, Command.SendCancelOrder id :: r.2)
    else sweepLoop test rest canceled

/-- The test of the loop "Cancel bid" on a resting price. -/
def bidTest (bid : LastPrices) (bidPrice : Nat) : Bool :=
  decide (bid.get FUTURE 0 ≤ add64 bidPrice (MIN_PROFITABILITY * TICK_SIZE_IN_CENTS))
    || decide (bid.get ETF 1 > bidPrice)

/-- The test of the loop "Cancel ask" on a resting price. -/
def askTest (ask : LastPrices) (askPrice : Nat) : Bool :=
  decide (ask.get FUTURE 0 ≥ sub64 askPrice (MIN_PROFITABILITY * TICK_SIZE_IN_CENTS))
    || (decide (ask.get ETF 1 < askPrice) && decide (ask.get ETF 1 ≠ 0))

/-- A trader resting bid 1 at 9800 while the ETF book has moved up: ETF bids
10000 and 9900, ETF asks 10100 and 10200. -/
def risenState : State :=
  { mLastAskPrices := { future := { l0 := 0, l1 := 0 }, etf := { l0 := 10100, l1 := 10200 } },
    mLastBidPrices := { future := { l0 := 0, l1 := 0 }, etf := { l0 := 10000, l1 := 9900 } },
    mBids := [(1, 9800)], mAsks := [], mCanceledIds := [], mPosition := 0,
    mNextMessageId := 1 }

/-! ## Invariants -/

/-- Every key of either order table is at most the id counter, and no id is
a key of both tables. -/
def IdsFresh (s : State) : Prop :=
  (∀ k ∈ mapKeys s.mBids, k ≤ s.mNextMessageId)
  ∧ (∀ k ∈ mapKeys s.mAsks, k ≤ s.mNextMessageId)
  ∧ (∀ k ∈ mapKeys s.mBids, k ∉ mapKeys s.mAsks)

/-- The keys of an order table are strictly ascending, as the iteration of a
map yields them; in particular they are pairwise distinct. -/
def KeysAscending (m : OrderMap) : Prop := (mapKeys m).Pairwise (fun a b => a < b)

/-- A short session: an ETF book update that makes the trader quote a bid. -/
def demoSession : List Event :=
  [Event.orderBook Instrument.ETF 1 (book2 9950 10000) (book2 5 5) (book2 9900 9800)
    (book2 5 5)]

/-! ## Scenarios for the ask side -/

/-- A trader resting ask 2 at 10400 while the ETF book has moved down: ETF
asks 10200 and 10300, ETF bids 10100 and 10000. -/
def saggedState : State :=
  { mLastAskPrices := { future := { l0 := 0, l1 := 0 }, etf := { l0 := 10200, l1 := 10300 } },
    mLastBidPrices := { future := { l0 := 0, l1 := 0 }, etf := { l0 := 10100, l1 := 10000 } },
    mBids := [], mAsks := [(2, 10400)], mCanceledIds := [], mPosition := 0,
    mNextMessageId := 2 }

/-- A trader with nothing resting that has seen the future ask at 10200 and
the future bid at 10100. -/
def richState : State :=
  { mLastAskPrices := { future := { l0 := 10200, l1 := 10300 }, etf := { l0 := 0, l1 := 0 } },
    mLastBidPrices := { future := { l0 := 10100, l1 := 10000 }, etf := { l0 := 0, l1 := 0 } },
    mBids := [], mAsks := [], mCanceledIds := [], mPosition := 0, mNextMessageId := 0 }

/-- The price of an arbitrage ask in the words of the specification, as the
mirror image of the bid: one tick below the ETF best ask, raised to the ETF
best bid when that bid is known and the price would fall below it. -/
def specAskPrice (etfAsk0 etfBid0 : Nat) : Nat :=
  if etfBid0 ≠ 0 ∧ etfAsk0 - 100 < etfBid0 then etfBid0 else etfAsk0 - 100

/-! ## More observations on command streams -/

/-- The client order ids carried by the insert orders and hedge orders of a
stream, in the order they were sent. -/
def usedIds : List Command → List Nat
  | [] => []
  | Command.SendCancelOrder _ :: rest => usedIds rest
  | Command.SendInsertOrder id _ _ _ _ :: rest => id :: usedIds rest
  | Command.SendHedgeOrder id _ _ _ :: rest => id :: usedIds rest

/-- The net volume hedged by a stream, over exact integers: the volume of its
hedge SELL orders minus the volume of its hedge BUY orders. -/
def hedgeNet : List Command → Int
  | [] => 0
  | Command.SendHedgeOrder _ Side.SELL _ v :: rest => (v : Int) + hedgeNet rest
  | Command.SendHedgeOrder _ Side.BUY _ v :: rest => hedgeNet rest - (v : Int)
  | _ :: rest => hedgeNet rest

/-- The position never leaves the signed 64-bit range during the run, when
computed over exact integers. -/
def positionFits (pb : PriceBounds) (s : State) : List Event → Bool
  | [] => true
  | e :: es =>
    decide (-I64 ≤ s.mPosition + hedgeNet (step pb s e).2)
      && decide (s.mPosition + hedgeNet (step pb s e).2 < I64)
      && positionFits pb (step pb s e).1 es

/-- The event is a terminal event for the id: an order status with zero
remaining volume, or an error, carrying that id. -/
def terminalFor (id : Nat) : Event → Prop
  | .orderStatus k _ r _ => k = id ∧ r = 0
  | .error k _ => k = id
  | _ => False

/-- The id is a key of one of the two order tables. -/
def Tracked (s : State) (id : Nat) : Prop := id ∈ mapKeys s.mBids ∨ id ∈ mapKeys s.mAsks

/-- The total volume of the hedge orders of one side in a stream. -/
def hedgeVolume (side : Side) : List Command → Nat
  | [] => 0
  | Command.SendHedgeOrder _ sd _ v :: rest =>
    (if sd = side then v else 0) + hedgeVolume side rest
  | _ :: rest => hedgeVolume side rest

/-- A session with a fill: the trader quotes a bid, the bid is filled for 10
and its terminal status arrives. -/
def fillSession : List Event :=
  [Event.orderBook Instrument.ETF 1 (book2 9950 10000) (book2 5 5) (book2 9900 9800)
    (book2 5 5),
   Event.orderFilled 1 9950 10,
   Event.orderStatus 1 10 0 0]

/-! ## Prices on the tick grid -/

/-- A price that is a multiple of the tick size 100 and at most `2 ^ 32`. -/
def goodPrice (x : Nat) : Bool := decide (x % 100 = 0) && decide (x ≤ 4294967296)

/-- Every entry of a last-price table is a good price. -/
def goodTable (t : LastPrices) : Bool :=
  goodPrice t.future.l0 && goodPrice t.future.l1 && goodPrice t.etf.l0 && goodPrice t.etf.l1

/-- The prices a book update delivers at the two levels the handler reads
are good prices; nothing is asked of the other messages. -/
def goodEvent : Event → Bool
  | .orderBook _ _ ap _ bp _ =>
    goodPrice (ap 0) && goodPrice (ap 1) && goodPrice (bp 0) && goodPrice (bp 1)
  | _ => true

/-- Every price stored in `mAsks` is at least 200 and an `unsigned long`. -/
def AskPricesOk (s : State) : Prop := ∀ e ∈ s.mAsks, 200 ≤ e.2 ∧ e.2 < U64

/-- Every id in the cancelled set is at most the id counter. -/
def CancelledOld (s : State) : Prop := ∀ x ∈ s.mCanceledIds, x ≤ s.mNextMessageId

/-- A session that places an ask: the future book, then an ETF book with its
best ask more than two ticks above the future best ask. -/
def askSession : List Event :=
  [Event.orderBook Instrument.FUTURE 1 (book2 10200 10300) (book2 5 5) (book2 10100 10000)
    (book2 5 5),
   Event.orderBook Instrument.ETF 1 (book2 10500 10600) (book2 5 5) (book2 10300 10200)
    (book2 5 5)]

/-- The future book of the entry scenario: best bid 10200, best ask 10300. -/
def futureBook : Event :=
  Event.orderBook Instrument.FUTURE 1 (book2 10300 10400) (book2 5 5) (book2 10200 10100)
    (book2 5 5)

/-- A session that wraps the id counter: the trader quotes bid 1 at 10000 in
the entry scenario (future best bid 10200, ETF best bid 9900, ETF best ask
10000), the bid is filled `2 ^ 64 - 1` times for volume zero, which sends one
hedge order each time and brings the id counter round to zero, and the
terminal status of the bid arrives. Afterwards nothing rests, the position is
0, id 1 is in the cancelled set, and the next id is 1 again. -/
def wrapSession : List Event :=
  [futureBook,
   Event.orderBook Instrument.ETF 1 (book2 10000 10100) (book2 5 5) (book2 9900 9800)
    (book2 5 5),
   Event.orderFilled 1 10000 0]
  ++ List.replicate 18446744073709551614 (Event.orderFilled 1 10000 0)
  ++ [Event.orderStatus 1 0 0 0]

/-- The state after the first three messages of `wrapSession`. -/
def wrapStart : State :=
  { mLastAskPrices := { future := { l0 := 10300, l1 := 10400 },
                        etf := { l0 := 10000, l1 := 10100 } },
    mLastBidPrices := { future := { l0 := 10200, l1 := 10100 },
                        etf := { l0 := 9900, l1 := 9800 } },
    mBids := [(1, 10000)], mAsks := [], mCanceledIds := [1], mPosition := 0,
    mNextMessageId := 2 }

/-- The state after the whole of `wrapSession`. -/
def wrapEnd : State :=
  { wrapStart with mBids := [], mNextMessageId := 0 }

/-! ## Scenarios at the edge of the 64-bit range -/

/-- The resting state with the position at the top of the signed 64-bit
range, `2 ^ 63 - 1`. -/
def fullLongState : State := { restingState with mPosition := 9223372036854775807 }

/-- A flat trader with nothing resting that has seen the future bid at 500. -/
def lowFutureState : State :=
  { mLastAskPrices := noPrices,
    mLastBidPrices := { future := { l0 := 500, l1 := 400 }, etf := { l0 := 0, l1 := 0 } },
    mBids := [], mAsks := [], mCanceledIds := [], mPosition := 0, mNextMessageId := 0 }

/-- A session that rests a bid near the top of the unsigned 64-bit range: the
future book brings a best bid of 150, then the ETF book brings a best bid of
`2 ^ 64 - 200`, and the trader quotes bid 1 at `2 ^ 64 - 100`. -/
def hugeBidSession : List Event :=
  [Event.orderBook Instrument.FUTURE 1 (book2 0 0) (book2 0 0) (book2 150 0) (book2 5 0),
   Event.orderBook Instrument.ETF 1 (book2 0 0) (book2 0 0) (book2 18446744073709551416 0)
    (book2 5 0)]

/-- The state after `hugeBidSession`. -/
def hugeBidState : State :=
  { mLastAskPrices := noPrices,
    mLastBidPrices := { future := { l0 := 150, l1 := 0 },
                        etf := { l0 := 18446744073709551416, l1 := 0 } },
    mBids := [(1, 18446744073709551516)], mAsks := [], mCanceledIds := [], mPosition := 0,
    mNextMessageId := 1 }

/-- A future book with its best bid at `2 ^ 64 - 10`. -/
def hugeFutureBook : Event :=
  Event.orderBook Instrument.FUTURE 1 (book2 0 0) (book2 0 0) (book2 18446744073709551606 0)
    (book2 5 0)

/-! ## Order tables -/

theorem mem_mapKeys_iff (m : OrderMap) (k : Nat) : k ∈ mapKeys m ↔ ∃ p, (k, p) ∈ m := by
  simp [mapKeys]

theorem mapCount_ne_zero_iff (m : OrderMap) (k : Nat) : mapCount m k ≠ 0 ↔ k ∈ mapKeys m := by
  unfold mapCount
  split <;> simp_all

theorem mapCount_eq_one_iff (m : OrderMap) (k : Nat) : mapCount m k = 1 ↔ k ∈ mapKeys m := by
  unfold mapCount
  split <;> simp_all

theorem mem_mapErase_iff (m : OrderMap) (k : Nat) (e : Nat × Nat) :
    e ∈ mapErase m k ↔ e ∈ m ∧ e.1 ≠ k := by
  simp [mapErase]

theorem mem_mapKeys_mapErase (m : OrderMap) (k j : Nat) :
    j ∈ mapKeys (mapErase m k) ↔ j ∈ mapKeys m ∧ j ≠ k := by
  simp only [mem_mapKeys_iff, mem_mapErase_iff]
  constructor
  · rintro ⟨p, hp, hne⟩
    exact ⟨⟨p, hp⟩, hne⟩
  · rintro ⟨⟨p, hp⟩, hne⟩
    exact ⟨p, hp, hne⟩

theorem mapErase_of_not_mem (m : OrderMap) (k : Nat) (h : k ∉ mapKeys m) :
    mapErase m k = m := by
  unfold mapErase
  rw [List.filter_eq_self]
  intro e he
  have : e.1 ≠ k := by
    intro hk
    apply h
    rw [mem_mapKeys_iff]
    exact ⟨e.2, by rw [← hk]; exact he⟩
  simpa using this

theorem length_mapErase_le (m : OrderMap) (k : Nat) : (mapErase m k).length ≤ m.length := by
  unfold mapErase
  exact List.length_filter_le _ _

theorem length_mapAssign_le (m : OrderMap) (k v : Nat) :
    (mapAssign m k v).length ≤ m.length + 1 := by
  induction m with
  | nil => simp [mapAssign]
  | cons e rest ih =>
    unfold mapAssign
    split
    · simp
    · split
      · simp
      · simp only [List.length_cons]
        omega

theorem mem_mapKeys_mapAssign (m : OrderMap) (k v j : Nat) :
    j ∈ mapKeys (mapAssign m k v) ↔ j = k ∨ j ∈ mapKeys m := by
  induction m with
  | nil => simp [mapAssign, mapKeys]
  | cons e rest ih =>
    unfold mapAssign
    split
    · next h =>
      simp only [mapKeys, List.map_cons, List.mem_cons]
      rw [h]
      tauto
    · split
      · simp only [mapKeys, List.map_cons, List.mem_cons]
      · simp only [mapKeys, List.map_cons, List.mem_cons] at ih ⊢
        rw [ih]
        tauto

theorem mapFind_mapAssign_self (m : OrderMap) (k v : Nat) :
    mapFind (mapAssign m k v) k = some v := by
  induction m with
  | nil => simp [mapAssign, mapFind]
  | cons e rest ih =>
    unfold mapAssign
    split
    · simp [mapFind]
    · split
      · simp [mapFind]
      · next h _ =>
        rw [mapFind, if_neg h]
        exact ih

/-! ## Machine arithmetic: agreement with exact arithmetic -/

theorem add64_of_lt (a b : Nat) (h : a + b < U64) : add64 a b = a + b := by
  unfold add64
  exact Nat.mod_eq_of_lt h

theorem toI64_of_mem (z : Int) (h1 : -I64 ≤ z) (h2 : z < I64) : toI64 z = z := by
  unfold toI64
  rw [Int.emod_eq_of_lt (by omega) (by omega)]
  omega

/-! ## Fills -/

/-- C1, amended. A fill on an id of `mBids` sends exactly one hedge order, a
SELL of the filled volume `V`, and the new position is the old position plus
`V` reduced to the signed 64-bit range; a fill on an id of `mAsks` that is not
in `mBids` sends exactly one hedge order, a BUY of `V`, and the new position
is the old position minus `V` reduced to the signed 64-bit range. In both
cases the new position is the exact sum or difference whenever that lies
between `-2 ^ 63` and `2 ^ 63 - 1`. -/
theorem fill_hedges_and_moves_position (pb : PriceBounds) (s : State) (id price V : Nat) :
    (id ∈ mapKeys s.mBids →
      hedges (OrderFilledMessageHandler pb s id price V).2 =
          [Command.SendHedgeOrder (add64 s.mNextMessageId 1) Side.SELL
            (MIN_BID_NEARST_TICK pb) V]
        ∧ (OrderFilledMessageHandler pb s id price V).1.mPosition
            = toI64 (s.mPosition + (V : Int))
        ∧ (-I64 ≤ s.mPosition + (V : Int) → s.mPosition + (V : Int) < I64 →
            (OrderFilledMessageHandler pb s id price V).1.mPosition
              = s.mPosition + (V : Int)))
    ∧ (id ∈ mapKeys s.mAsks → id ∉ mapKeys s.mBids →
      hedges (OrderFilledMessageHandler pb s id price V).2 =
          [Command.SendHedgeOrder (add64 s.mNextMessageId 1) Side.BUY
            (MAX_ASK_NEAREST_TICK pb) V]
        ∧ (OrderFilledMessageHandler pb s id price V).1.mPosition
            = toI64 (s.mPosition - (V : Int))
        ∧ (-I64 ≤ s.mPosition - (V : Int) → s.mPosition - (V : Int) < I64 →
            (OrderFilledMessageHandler pb s id price V).1.mPosition
              = s.mPosition - (V : Int))) := by
  constructor
  · intro hb
    have hc : mapCount s.mBids id ≠ 0 := (mapCount_ne_zero_iff _ _).2 hb
    have hpos : (OrderFilledMessageHandler pb s id price V).1.mPosition
        = toI64 (s.mPosition + (V : Int)) := by
      unfold OrderFilledMessageHandler
      rw [if_pos hc]
      by_cases hk : id ∉ s.mCanceledIds
      · simp only [if_pos hk]
      · simp only [if_neg hk]
    refine ⟨?_, hpos, ?_⟩
    · unfold OrderFilledMessageHandler
      rw [if_pos hc]
      by_cases hk : id ∉ s.mCanceledIds
      · simp only [if_pos hk, hedges, List.filter]
      · simp only [if_neg hk, hedges, List.filter]
    · intro h1 h2
      rw [hpos, toI64_of_mem _ h1 h2]
  · intro ha hnb
    have hc : ¬ mapCount s.mBids id ≠ 0 := fun h => hnb ((mapCount_ne_zero_iff _ _).1 h)
    have hc2 : mapCount s.mAsks id ≠ 0 := (mapCount_ne_zero_iff _ _).2 ha
    have hpos : (OrderFilledMessageHandler pb s id price V).1.mPosition
        = toI64 (s.mPosition - (V : Int)) := by
      unfold OrderFilledMessageHandler
      rw [if_neg hc, if_pos hc2]
      by_cases hk : id ∉ s.mCanceledIds
      · simp only [if_pos hk]
      · simp only [if_neg hk]
    refine ⟨?_, hpos, ?_⟩
    · unfold OrderFilledMessageHandler
      rw [if_neg hc, if_pos hc2]
      by_cases hk : id ∉ s.mCanceledIds
      · simp only [if_pos hk, hedges, List.filter]
      · simp only [if_neg hk, hedges, List.filter]
    · intro h1 h2
      rw [hpos, toI64_of_mem _ h1 h2]

/-- C1 amended, at a concrete input: a fill of 10 on the resting bid 1 hedges with one
SELL of 10 and moves the position from 0 to 10; a fill of 10 on the resting
ask 2 hedges with one BUY of 10 and moves the position from 0 to -10. -/
theorem fill_hedges_and_moves_position_witness :
    (hedges (OrderFilledMessageHandler demoBounds restingState 1 9800 10).2 =
        [Command.SendHedgeOrder 3 Side.SELL 100 10]
      ∧ (OrderFilledMessageHandler demoBounds restingState 1 9800 10).1.mPosition = 10)
    ∧ (hedges (OrderFilledMessageHandler demoBounds restingState 2 10400 10).2 =
        [Command.SendHedgeOrder 3 Side.BUY 2147483600 10]
      ∧ (OrderFilledMessageHandler demoBounds restingState 2 10400 10).1.mPosition = -10) := by
  have h := fill_hedges_and_moves_position demoBounds restingState
  have hb := (h 1 9800 10).1 (by decide)
  have ha := (h 2 10400 10).2 (by decide) (by decide)
  refine ⟨⟨?_, ?_⟩, ?_, ?_⟩
  · rw [hb.1]; decide
  · rw [hb.2.2 (by decide) (by decide)]; decide
  · rw [ha.1]; decide
  · rw [ha.2.2 (by decide) (by decide)]; decide

/-! ## Order status and errors -/

theorem orderStatus_cmds (s : State) (id fv rv : Nat) (fees : Int) :
    (OrderStatusMessageHandler s id fv rv fees).2 = [] := by
  unfold OrderStatusMessageHandler
  split
  · rfl
  · split <;> rfl

theorem orderStatus_live (s : State) (id fv rv : Nat) (fees : Int) (h : rv ≠ 0) :
    OrderStatusMessageHandler s id fv rv fees = (s, []) := by
  unfold OrderStatusMessageHandler
  rw [if_pos h]

theorem orderStatus_absent (s : State) (id fv : Nat) (fees : Int)
    (hb : id ∉ mapKeys s.mBids) (ha : id ∉ mapKeys s.mAsks) :
    OrderStatusMessageHandler s id fv 0 fees = (s, []) := by
  unfold OrderStatusMessageHandler
  have hc : ¬ mapCount s.mBids id ≠ 0 := fun h => hb ((mapCount_ne_zero_iff _ _).1 h)
  rw [if_neg (by simp), if_neg hc, mapErase_of_not_mem _ _ ha]

theorem orderStatus_terminal_tables (s : State) (id fv : Nat) (fees : Int)
    (h : ¬ (id ∈ mapKeys s.mBids ∧ id ∈ mapKeys s.mAsks)) :
    id ∉ mapKeys (OrderStatusMessageHandler s id fv 0 fees).1.mBids
      ∧ id ∉ mapKeys (OrderStatusMessageHandler s id fv 0 fees).1.mAsks := by
  unfold OrderStatusMessageHandler
  rw [if_neg (by simp)]
  by_cases hc : mapCount s.mBids id ≠ 0
  · rw [if_pos hc]
    have hb := (mapCount_ne_zero_iff _ _).1 hc
    refine ⟨?_, ?_⟩
    · simp [mem_mapKeys_mapErase]
    · exact fun ha => h ⟨hb, ha⟩
  · rw [if_neg hc]
    refine ⟨?_, ?_⟩
    · exact fun hb => hc ((mapCount_ne_zero_iff _ _).2 hb)
    · simp [mem_mapKeys_mapErase]

/-- C5. In a state where `id` is in at most one order table, an order status
with zero remaining volume leaves `id` in neither table, keeps every entry
under another id in both tables, keeps the cancelled set, the position, the
id counter and both last-price tables, and handling the same message again
changes nothing; an order status with nonzero remaining volume changes
nothing. No command is sent in any case. -/
theorem orderStatus_contract (s : State) (id fv rv : Nat) (fees : Int)
    (h : ¬ (id ∈ mapKeys s.mBids ∧ id ∈ mapKeys s.mAsks)) :
    (id ∉ mapKeys (OrderStatusMessageHandler s id fv 0 fees).1.mBids
      ∧ id ∉ mapKeys (OrderStatusMessageHandler s id fv 0 fees).1.mAsks
      ∧ (∀ k p, k ≠ id →
          ((k, p) ∈ (OrderStatusMessageHandler s id fv 0 fees).1.mBids ↔ (k, p) ∈ s.mBids)
          ∧ ((k, p) ∈ (OrderStatusMessageHandler s id fv 0 fees).1.mAsks ↔ (k, p) ∈ s.mAsks))
      ∧ (OrderStatusMessageHandler s id fv 0 fees).1.mCanceledIds = s.mCanceledIds
      ∧ (OrderStatusMessageHandler s id fv 0 fees).1.mPosition = s.mPosition
      ∧ (OrderStatusMessageHandler s id fv 0 fees).1.mNextMessageId = s.mNextMessageId
      ∧ (OrderStatusMessageHandler s id fv 0 fees).1.mLastAskPrices = s.mLastAskPrices
      ∧ (OrderStatusMessageHandler s id fv 0 fees).1.mLastBidPrices = s.mLastBidPrices)
    ∧ OrderStatusMessageHandler (OrderStatusMessageHandler s id fv 0 fees).1 id fv 0 fees
        = ((OrderStatusMessageHandler s id fv 0 fees).1, [])
    ∧ (rv ≠ 0 → OrderStatusMessageHandler s id fv rv fees = (s, []))
    ∧ (OrderStatusMessageHandler s id fv rv fees).2 = [] := by
  have ht := orderStatus_terminal_tables s id fv fees h
  refine ⟨⟨ht.1, ht.2, ?_, ?_, ?_, ?_, ?_, ?_⟩, ?_, ?_, ?_⟩
  · intro k p hk
    unfold OrderStatusMessageHandler
    rw [if_neg (by simp)]
    by_cases hc : mapCount s.mBids id ≠ 0
    · rw [if_pos hc]
      simp [mem_mapErase_iff, hk]
    · rw [if_neg hc]
      simp [mem_mapErase_iff, hk]
  all_goals first
    | exact orderStatus_absent _ id fv fees ht.1 ht.2
    | exact orderStatus_live s id fv rv fees
    | exact orderStatus_cmds s id fv rv fees
    | (unfold OrderStatusMessageHandler
       rw [if_neg (by simp)]
       by_cases hc : mapCount s.mBids id ≠ 0
       · rw [if_pos hc]
       · rw [if_neg hc])

/-- C5, at a concrete input: a terminal status for the resting bid 1 removes
it, keeps the resting ask 2, and sends nothing. -/
theorem orderStatus_contract_witness :
    OrderStatusMessageHandler restingState 1 10 0 0
        = ({ restingState with mBids := [] }, [])
      ∧ 1 ∉ mapKeys (OrderStatusMessageHandler restingState 1 10 0 0).1.mBids
      ∧ (2, 10400) ∈ (OrderStatusMessageHandler restingState 1 10 0 0).1.mAsks
      ∧ OrderStatusMessageHandler restingState 1 10 5 0 = (restingState, []) := by
  have h := orderStatus_contract restingState 1 10 5 0 (by decide)
  refine ⟨by decide, h.1.1, ?_, h.2.2.1 (by decide)⟩
  exact ((h.1.2.2.1 2 10400 (by decide)).2).2 (by decide)

theorem error_cmds (s : State) (id : Nat) (msg : String) :
    (ErrorMessageHandler s id msg).2 = [] := by
  unfold ErrorMessageHandler
  split
  · exact orderStatus_cmds s id 0 0 0
  · rfl

/-- C6. An error for a nonzero id that is a key of `mBids` or `mAsks` yields
exactly what a terminal order status (zero fill, zero remaining, zero fees)
for that id yields, so an id that was in only one table is in neither
afterwards; an error for id zero or for an untracked id changes nothing. An
error never sends a command. -/
theorem error_contract (s : State) (id : Nat) (msg : String) :
    (id ≠ 0 → (id ∈ mapKeys s.mBids ∨ id ∈ mapKeys s.mAsks) →
        ErrorMessageHandler s id msg = OrderStatusMessageHandler s id 0 0 0
        ∧ (¬ (id ∈ mapKeys s.mBids ∧ id ∈ mapKeys s.mAsks) →
            id ∉ mapKeys (ErrorMessageHandler s id msg).1.mBids
            ∧ id ∉ mapKeys (ErrorMessageHandler s id msg).1.mAsks))
    ∧ ((id = 0 ∨ (id ∉ mapKeys s.mBids ∧ id ∉ mapKeys s.mAsks)) →
        ErrorMessageHandler s id msg = (s, []))
    ∧ (ErrorMessageHandler s id msg).2 = [] := by
  refine ⟨?_, ?_, ?_⟩
  · intro h0 ht
    have hc : id ≠ 0 ∧ (mapCount s.mAsks id = 1 ∨ mapCount s.mBids id = 1) := by
      refine ⟨h0, ?_⟩
      rw [mapCount_eq_one_iff, mapCount_eq_one_iff]
      exact ht.symm
    have he : ErrorMessageHandler s id msg = OrderStatusMessageHandler s id 0 0 0 := by
      unfold ErrorMessageHandler
      rw [if_pos hc]
    refine ⟨he, ?_⟩
    intro h1
    rw [he]
    exact orderStatus_terminal_tables s id 0 0 h1
  · intro h
    unfold ErrorMessageHandler
    rw [if_neg]
    rintro ⟨h0, hc⟩
    rw [mapCount_eq_one_iff, mapCount_eq_one_iff] at hc
    rcases h with h | h
    · exact h0 h
    · rcases hc with hc | hc
      · exact h.2 hc
      · exact h.1 hc
  · exact error_cmds s id msg

/-- C6, at a concrete input: an error for the resting ask 2 removes it as a
terminal status does; an error for id 0 changes nothing. -/
theorem error_contract_witness :
    (ErrorMessageHandler restingState 2 "rejected"
        = OrderStatusMessageHandler restingState 2 0 0 0
      ∧ 2 ∉ mapKeys (ErrorMessageHandler restingState 2 "rejected").1.mAsks)
    ∧ ErrorMessageHandler restingState 0 "rejected" = (restingState, []) := by
  have h := error_contract restingState 2 "rejected"
  have h1 := h.1 (by decide) (by decide)
  exact ⟨⟨h1.1, (h1.2 (by decide)).2⟩,
    (error_contract restingState 0 "rejected").2.1 (Or.inl rfl)⟩

/-! ## Book updates: the parts of the handler -/

theorem cancelBids_cmds (bid : LastPrices) (m : OrderMap) (c : List Nat) :
    (cancelBids bid m c).2 = (cancelIds (cancelBids bid m c).2).map Command.SendCancelOrder := by
  induction m generalizing c with
  | nil => simp [cancelBids, cancelIds]
  | cons e rest ih =>
    obtain ⟨k, q⟩ := e
    unfold cancelBids
    split
    · exact ih c
    · split
      · simp only [cancelIds, List.map_cons]
        rw [← ih]
      · split
        · simp only [cancelIds, List.map_cons]
          rw [← ih]
        · exact ih c

theorem cancelAsks_cmds (ask : LastPrices) (m : OrderMap) (c : List Nat) :
    (cancelAsks ask m c).2 = (cancelIds (cancelAsks ask m c).2).map Command.SendCancelOrder := by
  induction m generalizing c with
  | nil => simp [cancelAsks, cancelIds]
  | cons e rest ih =>
    obtain ⟨k, q⟩ := e
    unfold cancelAsks
    split
    · exact ih c
    · split
      · simp only [cancelIds, List.map_cons]
        rw [← ih]
      · split
        · simp only [cancelIds, List.map_cons]
          rw [← ih]
        · exact ih c

theorem cancelIds_append (x y : List Command) :
    cancelIds (x ++ y) = cancelIds x ++ cancelIds y := by
  induction x with
  | nil => rfl
  | cons c rest ih =>
    cases c <;> simp [cancelIds, ih]

theorem cancelIds_map_cancel (l : List Nat) :
    cancelIds (l.map Command.SendCancelOrder) = l := by
  induction l with
  | nil => rfl
  | cons a rest ih => simp [cancelIds, ih]

theorem inserts_map_cancel (sd : Side) (l : List Nat) :
    inserts sd (l.map Command.SendCancelOrder) = [] := by
  induction l with
  | nil => rfl
  | cons a rest ih =>
    simp only [inserts, List.map_cons, List.filter] at ih ⊢
    exact ih

theorem inserts_append (sd : Side) (x y : List Command) :
    inserts sd (x ++ y) = inserts sd x ++ inserts sd y := by
  simp [inserts]

theorem cancelSweep_cmds (s : State) :
    (cancelSweep s).2 = (cancelIds (cancelSweep s).2).map Command.SendCancelOrder := by
  unfold cancelSweep
  simp only [cancelIds_append, List.map_append]
  rw [← cancelBids_cmds, ← cancelAsks_cmds]

theorem inserts_cancelSweep (sd : Side) (s : State) : inserts sd (cancelSweep s).2 = [] := by
  rw [cancelSweep_cmds, inserts_map_cancel]

theorem createAsk_mBids (s : State) : (createAsk s).1.mBids = s.mBids := by
  unfold createAsk
  split
  · split
    · rfl
    · split <;> rfl
  · rfl

theorem inserts_buy_createAsk (s : State) : inserts Side.BUY (createAsk s).2 = [] := by
  unfold createAsk
  split
  · split
    · simp [inserts]
    · split <;> simp [inserts]
  · rfl

theorem inserts_buy_book (s : State) (inst : Instrument) (seq : Nat)
    (ap av bp bv : Nat → Nat) :
    inserts Side.BUY (OrderBookMessageHandler s inst seq ap av bp bv).2
      = inserts Side.BUY (createBid (cancelSweep (storePrices s inst ap bp)).1).2 := by
  unfold OrderBookMessageHandler
  simp only [inserts_append, inserts_cancelSweep, inserts_buy_createAsk, List.nil_append,
    List.append_nil]

theorem book_mBids (s : State) (inst : Instrument) (seq : Nat) (ap av bp bv : Nat → Nat) :
    (OrderBookMessageHandler s inst seq ap av bp bv).1.mBids
      = (createBid (cancelSweep (storePrices s inst ap bp)).1).1.mBids := by
  unfold OrderBookMessageHandler
  simp only [createAsk_mBids]

/-- The state the bid quoting decision reads: the tables, position and id
counter of the state before the message, with the snapshot after it. -/
theorem createBid_sweep_eq (s : State) (inst : Instrument) (ap bp : Nat → Nat) :
    (createBid (cancelSweep (storePrices s inst ap bp)).1).2
        = (createBid (storePrices s inst ap bp)).2
      ∧ (createBid (cancelSweep (storePrices s inst ap bp)).1).1.mBids
        = (createBid (storePrices s inst ap bp)).1.mBids := by
  unfold createBid cancelSweep
  simp only
  constructor
  · split
    · split
      · rfl
      · split <;> rfl
    · rfl
  · split
    · split
      · rfl
      · split <;> rfl
    · rfl

/-! ## Quoting a bid -/

/-- C7. When a book update finds fewer than two bids resting and the position
below 70, and the snapshot it leaves has the future best bid more than 200
above the ETF best bid and the ETF best bid above 200, the update sends
exactly one BUY insert: good for day, volume 10, priced one tick above the ETF
best bid when the ETF best ask is zero or not below that price, and at the ETF
best ask otherwise, so never above a known ETF best ask. The new id is
recorded in `mBids` with that price. -/
theorem bid_arbitrage_entry (s : State) (inst : Instrument) (seq : Nat)
    (ap av bp bv : Nat → Nat)
    (hsize : s.mBids.length < 2) (hpos : s.mPosition < 70)
    (hty : (storePrices s inst ap bp).futureBid 0 < U64)
    (htrig : (storePrices s inst ap bp).futureBid 0
        > (storePrices s inst ap bp).etfBid 0 + 200)
    (hfloor : (storePrices s inst ap bp).etfBid 0 > 200) :
    inserts Side.BUY (OrderBookMessageHandler s inst seq ap av bp bv).2
        = [Command.SendInsertOrder (add64 s.mNextMessageId 1) Side.BUY
            (specBidPrice ((storePrices s inst ap bp).etfBid 0)
              ((storePrices s inst ap bp).etfAsk 0))
            10 Lifespan.GOOD_FOR_DAY]
      ∧ mapFind (OrderBookMessageHandler s inst seq ap av bp bv).1.mBids
          (add64 s.mNextMessageId 1)
        = some (specBidPrice ((storePrices s inst ap bp).etfBid 0)
            ((storePrices s inst ap bp).etfAsk 0))
      ∧ ((storePrices s inst ap bp).etfAsk 0 ≠ 0 →
          specBidPrice ((storePrices s inst ap bp).etfBid 0)
            ((storePrices s inst ap bp).etfAsk 0) ≤ (storePrices s inst ap bp).etfAsk 0) := by
  rw [inserts_buy_book, book_mBids, (createBid_sweep_eq s inst ap bp).1,
    (createBid_sweep_eq s inst ap bp).2]
  generalize hs1 : storePrices s inst ap bp = s1 at *
  have hB : s1.mBids = s.mBids := by rw [← hs1]; rfl
  have hP : s1.mPosition = s.mPosition := by rw [← hs1]; rfl
  have hN : s1.mNextMessageId = s.mNextMessageId := by rw [← hs1]; rfl
  simp only [State.futureBid, State.etfBid, State.etfAsk] at *
  have hsum : add64 (s1.mLastBidPrices.get ETF 0) 100 = s1.mLastBidPrices.get ETF 0 + 100 :=
    add64_of_lt _ _ (by omega)
  have hsum2 : add64 (s1.mLastBidPrices.get ETF 0) 200 = s1.mLastBidPrices.get ETF 0 + 200 :=
    add64_of_lt _ _ (by omega)
  have hprice :
      (if s1.mLastBidPrices.get ETF 0 + 100 > s1.mLastAskPrices.get ETF 0
          ∧ s1.mLastAskPrices.get ETF 0 ≠ 0 then s1.mLastAskPrices.get ETF 0
        else s1.mLastBidPrices.get ETF 0 + 100)
      = specBidPrice (s1.mLastBidPrices.get ETF 0) (s1.mLastAskPrices.get ETF 0) := by
    unfold specBidPrice
    split <;> split <;> omega
  have hc1 : s1.mBids.length < MAX_ORDERS ∧ s1.mPosition < POSITION_LIMIT := by
    rw [hB, hP]
    exact ⟨hsize, hpos⟩
  have hc2 : s1.mLastBidPrices.get FUTURE 0
        > add64 (s1.mLastBidPrices.get ETF 0) (MIN_PROFITABILITY * TICK_SIZE_IN_CENTS)
      ∧ s1.mLastBidPrices.get ETF 0 > MIN_PROFITABILITY * TICK_SIZE_IN_CENTS := by
    simp only [MIN_PROFITABILITY, TICK_SIZE_IN_CENTS]
    rw [hsum2]
    exact ⟨htrig, hfloor⟩
  refine ⟨?_, ?_, ?_⟩
  · unfold createBid
    rw [if_pos hc1, if_pos hc2]
    simp only [TICK_SIZE_IN_CENTS, ORDER_VOLUME, hsum, hprice, hN, inserts, List.filter,
      decide_True]
  · unfold createBid
    rw [if_pos hc1, if_pos hc2]
    simp only [TICK_SIZE_IN_CENTS, hsum, hprice, hN]
    exact mapFind_mapAssign_self _ _ _
  · intro h0
    unfold specBidPrice
    split <;> omega

/-- C7, at the input of the specification: future best bid 10200, ETF best
bid 9900 and ETF best ask 9950 give one BUY insert at 9950. -/
theorem bid_arbitrage_entry_witness :
    inserts Side.BUY (OrderBookMessageHandler flatState Instrument.ETF 1
        (book2 9950 10000) (book2 5 5) (book2 9900 9800) (book2 5 5)).2
      = [Command.SendInsertOrder 1 Side.BUY 9950 10 Lifespan.GOOD_FOR_DAY]
    ∧ mapFind (OrderBookMessageHandler flatState Instrument.ETF 1
        (book2 9950 10000) (book2 5 5) (book2 9900 9800) (book2 5 5)).1.mBids 1
      = some 9950 := by
  have h := bid_arbitrage_entry flatState Instrument.ETF 1
    (book2 9950 10000) (book2 5 5) (book2 9900 9800) (book2 5 5)
    (by decide) (by decide) (by decide) (by decide) (by decide)
  exact ⟨h.1, h.2.1⟩

/-- C8, amended. Take the arbitrage entry condition as the source evaluates
it on the snapshot the update leaves: the future best bid is above the
unsigned 64-bit sum of the ETF best bid and 200, and the ETF best bid is above
200. When a book update finds fewer than two bids resting, that condition
does not hold, the position is below -42 and the future best ask is nonzero,
the update sends exactly one BUY insert, good for day, with volume 10 and
priced at the unsigned 64-bit sum of the future best ask and 100, and records
the new id in `mBids` with that price. When that condition does not hold and
the position is at least -42, no BUY insert is sent. -/
theorem bid_inventory_unwind (s : State) (inst : Instrument) (seq : Nat)
    (ap av bp bv : Nat → Nat)
    (hno : ¬ ((storePrices s inst ap bp).futureBid 0
          > add64 ((storePrices s inst ap bp).etfBid 0) 200
        ∧ (storePrices s inst ap bp).etfBid 0 > 200)) :
    (s.mBids.length < 2 → s.mPosition < -42 → (storePrices s inst ap bp).futureAsk 0 ≠ 0 →
      inserts Side.BUY (OrderBookMessageHandler s inst seq ap av bp bv).2
          = [Command.SendInsertOrder (add64 s.mNextMessageId 1) Side.BUY
              (add64 ((storePrices s inst ap bp).futureAsk 0) 100) 10 Lifespan.GOOD_FOR_DAY]
        ∧ mapFind (OrderBookMessageHandler s inst seq ap av bp bv).1.mBids
            (add64 s.mNextMessageId 1)
          = some (add64 ((storePrices s inst ap bp).futureAsk 0) 100))
    ∧ (s.mPosition ≥ -42 →
      inserts Side.BUY (OrderBookMessageHandler s inst seq ap av bp bv).2 = []) := by
  rw [inserts_buy_book, book_mBids, (createBid_sweep_eq s inst ap bp).1,
    (createBid_sweep_eq s inst ap bp).2]
  generalize hs1 : storePrices s inst ap bp = s1 at *
  have hB : s1.mBids = s.mBids := by rw [← hs1]; rfl
  have hP : s1.mPosition = s.mPosition := by rw [← hs1]; rfl
  have hN : s1.mNextMessageId = s.mNextMessageId := by rw [← hs1]; rfl
  simp only [State.futureBid, State.etfBid, State.futureAsk] at *
  have hc2 : ¬ (s1.mLastBidPrices.get FUTURE 0
        > add64 (s1.mLastBidPrices.get ETF 0) (MIN_PROFITABILITY * TICK_SIZE_IN_CENTS)
      ∧ s1.mLastBidPrices.get ETF 0 > MIN_PROFITABILITY * TICK_SIZE_IN_CENTS) := by
    simp only [MIN_PROFITABILITY, TICK_SIZE_IN_CENTS]
    exact hno
  constructor
  · intro hsize hpos hask
    have hc1 : s1.mBids.length < MAX_ORDERS ∧ s1.mPosition < POSITION_LIMIT := by
      rw [hB, hP]
      refine ⟨hsize, ?_⟩
      simp only [POSITION_LIMIT]
      omega
    have hc3 : s1.mPosition < SHORT_UNWIND_LEVEL ∧ s1.mLastAskPrices.get FUTURE 0 ≠ 0 := by
      rw [hP]
      exact ⟨hpos, hask⟩
    constructor
    · unfold createBid
      rw [if_pos hc1, if_neg hc2, if_pos hc3]
      simp only [TICK_SIZE_IN_CENTS, hN, inserts, List.filter, decide_True]
    · unfold createBid
      rw [if_pos hc1, if_neg hc2, if_pos hc3]
      simp only [TICK_SIZE_IN_CENTS, hN]
      exact mapFind_mapAssign_self _ _ _
  · intro hpos
    have hc3 : ¬ (s1.mPosition < SHORT_UNWIND_LEVEL ∧ s1.mLastAskPrices.get FUTURE 0 ≠ 0) := by
      rw [hP]
      simp only [SHORT_UNWIND_LEVEL]
      intro h
      omega
    unfold createBid
    by_cases hc1 : s1.mBids.length < MAX_ORDERS ∧ s1.mPosition < POSITION_LIMIT
    · rw [if_pos hc1, if_neg hc2, if_neg hc3]
      rfl
    · rw [if_neg hc1]
      rfl

/-- C8 amended, at the input of the specification: position -45 and future best ask
10300 give one BUY insert at 10400 for volume 10. -/
theorem bid_inventory_unwind_witness :
    inserts Side.BUY (OrderBookMessageHandler shortState Instrument.FUTURE 1
        (book2 10300 10400) (book2 5 5) (book2 0 0) (book2 0 0)).2
      = [Command.SendInsertOrder 8 Side.BUY 10400 10 Lifespan.GOOD_FOR_DAY]
    ∧ mapFind (OrderBookMessageHandler shortState Instrument.FUTURE 1
        (book2 10300 10400) (book2 5 5) (book2 0 0) (book2 0 0)).1.mBids 8
      = some 10400 := by
  exact (bid_inventory_unwind shortState Instrument.FUTURE 1
    (book2 10300 10400) (book2 5 5) (book2 0 0) (book2 0 0) (by decide)).1
    (by decide) (by decide) (by decide)

/-! ## The cancel loops -/

theorem cancelBids_eq_sweepLoop (bid : LastPrices) (m : OrderMap) (c : List Nat) :
    cancelBids bid m c = sweepLoop (bidTest bid) m c := by
  induction m generalizing c with
  | nil => rfl
  | cons e rest ih =>
    obtain ⟨k, q⟩ := e
    unfold cancelBids sweepLoop
    by_cases hk : k ∈ c
    · rw [if_pos hk, if_pos hk]
      exact ih c
    · rw [if_neg hk, if_neg hk]
      by_cases h1 : bid.get FUTURE 0 ≤ add64 q (MIN_PROFITABILITY * TICK_SIZE_IN_CENTS)
      · have ht : bidTest bid q = true := by simp [bidTest, h1]
        rw [if_pos h1, if_pos ht, ih]
      · rw [if_neg h1]
        by_cases h2 : bid.get ETF 1 > q
        · have ht : bidTest bid q = true := by simp [bidTest, h2]
          rw [if_pos h2, if_pos ht, ih]
        · have ht : ¬ bidTest bid q = true := by simp [bidTest, h1, h2]
          rw [if_neg h2, if_neg ht]
          exact ih c

theorem cancelAsks_eq_sweepLoop (ask : LastPrices) (m : OrderMap) (c : List Nat) :
    cancelAsks ask m c = sweepLoop (askTest ask) m c := by
  induction m generalizing c with
  | nil => rfl
  | cons e rest ih =>
    obtain ⟨k, q⟩ := e
    unfold cancelAsks sweepLoop
    by_cases hk : k ∈ c
    · rw [if_pos hk, if_pos hk]
      exact ih c
    · rw [if_neg hk, if_neg hk]
      by_cases h1 : ask.get FUTURE 0 ≥ sub64 q (MIN_PROFITABILITY * TICK_SIZE_IN_CENTS)
      · have ht : askTest ask q = true := by simp [askTest, h1]
        rw [if_pos h1, if_pos ht, ih]
      · rw [if_neg h1]
        by_cases h2 : ask.get ETF 1 < q ∧ ask.get ETF 1 ≠ 0
        · have ht : askTest ask q = true := by
            simp only [askTest, Bool.or_eq_true, Bool.and_eq_true, decide_eq_true_eq]
            exact Or.inr h2
          rw [if_pos h2, if_pos ht, ih]
        · have ht : ¬ askTest ask q = true := by
            simp only [askTest, Bool.or_eq_true, Bool.and_eq_true, decide_eq_true_eq]
            rintro (h | h)
            · exact h1 h
            · exact h2 h
          rw [if_neg h2, if_neg ht]
          exact ih c

theorem sweepLoop_subset (test : Nat → Bool) (m : OrderMap) (c : List Nat) (x : Nat)
    (hx : x ∈ c) : x ∈ (sweepLoop test m c).1 := by
  induction m generalizing c with
  | nil => exact hx
  | cons e rest ih =>
    obtain ⟨k, q⟩ := e
    unfold sweepLoop
    split
    · exact ih c hx
    · split
      · exact ih _ (List.mem_insert_iff.2 (Or.inr hx))
      · exact ih c hx

/-- Every id a cancel loop cancels was not cancelled before, is cancelled
after, and is the key of an entry whose price passes the test. -/
theorem sweepLoop_out (test : Nat → Bool) (m : OrderMap) (c : List Nat) (x : Nat)
    (hx : x ∈ cancelIds (sweepLoop test m c).2) :
    x ∉ c ∧ x ∈ (sweepLoop test m c).1 ∧ ∃ p, (x, p) ∈ m ∧ test p = true := by
  induction m generalizing c with
  | nil => simp [sweepLoop, cancelIds] at hx
  | cons e rest ih =>
    obtain ⟨k, q⟩ := e
    unfold sweepLoop at hx ⊢
    by_cases hk : k ∈ c
    · rw [if_pos hk] at hx ⊢
      obtain ⟨h1, h2, p, hp, ht⟩ := ih c hx
      exact ⟨h1, h2, p, List.mem_cons_of_mem _ hp, ht⟩
    · rw [if_neg hk] at hx ⊢
      by_cases ht : test q = true
      · rw [if_pos ht] at hx ⊢
        simp only [cancelIds, List.mem_cons] at hx
        rcases hx with hx | hx
        · subst hx
          refine ⟨hk, ?_, q, List.mem_cons_self _ _, ht⟩
          exact sweepLoop_subset test rest _ x (List.mem_insert_iff.2 (Or.inl rfl))
        · obtain ⟨h1, h2, p, hp, htp⟩ := ih _ hx
          refine ⟨?_, h2, p, List.mem_cons_of_mem _ hp, htp⟩
          exact fun h => h1 (List.mem_insert_iff.2 (Or.inr h))
      · rw [if_neg ht] at hx ⊢
        obtain ⟨h1, h2, p, hp, htp⟩ := ih c hx
        exact ⟨h1, h2, p, List.mem_cons_of_mem _ hp, htp⟩

theorem sweepLoop_nodup (test : Nat → Bool) (m : OrderMap) (c : List Nat) :
    (cancelIds (sweepLoop test m c).2).Nodup := by
  induction m generalizing c with
  | nil => simp [sweepLoop, cancelIds]
  | cons e rest ih =>
    obtain ⟨k, q⟩ := e
    unfold sweepLoop
    split
    · exact ih c
    · split
      · simp only [cancelIds, List.nodup_cons]
        refine ⟨?_, ih _⟩
        intro h
        exact (sweepLoop_out test rest _ k h).1 (List.mem_insert_iff.2 (Or.inl rfl))
      · exact ih c

/-- An id is cancelled after a cancel loop only if it was cancelled before or
the loop cancelled it. -/
theorem sweepLoop_result (test : Nat → Bool) (m : OrderMap) (c : List Nat) (x : Nat)
    (hx : x ∈ (sweepLoop test m c).1) :
    x ∈ c ∨ x ∈ cancelIds (sweepLoop test m c).2 := by
  induction m generalizing c with
  | nil => exact Or.inl hx
  | cons e rest ih =>
    obtain ⟨k, q⟩ := e
    unfold sweepLoop at hx ⊢
    by_cases hk : k ∈ c
    · rw [if_pos hk] at hx ⊢
      exact ih c hx
    · rw [if_neg hk] at hx ⊢
      by_cases ht : test q = true
      · rw [if_pos ht] at hx ⊢
        simp only [cancelIds, List.mem_cons]
        rcases ih _ hx with h | h
        · rcases List.mem_insert_iff.1 h with h | h
          · exact Or.inr (Or.inl h)
          · exact Or.inl h
        · exact Or.inr (Or.inr h)
      · rw [if_neg ht] at hx ⊢
        exact ih c hx

/-- A cancel loop cancels every id not yet cancelled that has an entry whose
price passes the test. -/
theorem sweepLoop_hit (test : Nat → Bool) (m : OrderMap) (c : List Nat) (x p : Nat)
    (hm : (x, p) ∈ m) (ht : test p = true) (hx : x ∉ c) :
    x ∈ cancelIds (sweepLoop test m c).2 := by
  induction m generalizing c with
  | nil => simp at hm
  | cons e rest ih =>
    obtain ⟨k, q⟩ := e
    unfold sweepLoop
    by_cases hk : k ∈ c
    · rw [if_pos hk]
      have hne : k ≠ x := fun h => hx (h ▸ hk)
      rcases List.mem_cons.1 hm with h | h
      · exact absurd (congrArg Prod.fst h).symm hne
      · exact ih c h hx
    · rw [if_neg hk]
      by_cases htq : test q = true
      · rw [if_pos htq]
        simp only [cancelIds, List.mem_cons]
        by_cases hkx : x = k
        · exact Or.inl hkx
        · right
          rcases List.mem_cons.1 hm with h | h
          · exact absurd (congrArg Prod.fst h) hkx
          · apply ih _ h
            intro hin
            rcases List.mem_insert_iff.1 hin with h' | h'
            · exact hkx h'
            · exact hx h'
      · rw [if_neg htq]
        rcases List.mem_cons.1 hm with h | h
        · have hq : p = q := congrArg Prod.snd h
          rw [hq] at ht
          exact absurd ht htq
        · exact ih c h hx

/-! ## The cancel sweep of a book update -/

theorem cancelIds_cancelSweep (s : State) :
    cancelIds (cancelSweep s).2
      = cancelIds (sweepLoop (bidTest s.mLastBidPrices) s.mBids s.mCanceledIds).2
        ++ cancelIds (sweepLoop (askTest s.mLastAskPrices) s.mAsks
            (sweepLoop (bidTest s.mLastBidPrices) s.mBids s.mCanceledIds).1).2 := by
  unfold cancelSweep
  simp only [cancelIds_append, cancelBids_eq_sweepLoop, cancelAsks_eq_sweepLoop]

theorem cancelSweep_mCanceledIds (s : State) :
    (cancelSweep s).1.mCanceledIds
      = (sweepLoop (askTest s.mLastAskPrices) s.mAsks
          (sweepLoop (bidTest s.mLastBidPrices) s.mBids s.mCanceledIds).1).1 := by
  unfold cancelSweep
  simp only [cancelBids_eq_sweepLoop, cancelAsks_eq_sweepLoop]

theorem cancelSweep_nodup (s : State) : (cancelIds (cancelSweep s).2).Nodup := by
  rw [cancelIds_cancelSweep, List.nodup_append]
  refine ⟨sweepLoop_nodup _ _ _, sweepLoop_nodup _ _ _, ?_⟩
  intro x hb ha
  exact (sweepLoop_out _ _ _ x ha).1 (sweepLoop_out _ _ _ x hb).2.1

theorem cancelSweep_subset (s : State) (x : Nat) (hx : x ∈ s.mCanceledIds) :
    x ∈ (cancelSweep s).1.mCanceledIds := by
  rw [cancelSweep_mCanceledIds]
  exact sweepLoop_subset _ _ _ x (sweepLoop_subset _ _ _ x hx)

theorem cancelSweep_out (s : State) (x : Nat) (hx : x ∈ cancelIds (cancelSweep s).2) :
    x ∉ s.mCanceledIds ∧ x ∈ (cancelSweep s).1.mCanceledIds
      ∧ (x ∈ mapKeys s.mBids ∨ x ∈ mapKeys s.mAsks) := by
  rw [cancelIds_cancelSweep, List.mem_append] at hx
  rw [cancelSweep_mCanceledIds]
  rcases hx with hx | hx
  · obtain ⟨h1, h2, p, hp, _⟩ := sweepLoop_out _ _ _ x hx
    exact ⟨h1, sweepLoop_subset _ _ _ x h2, Or.inl ((mem_mapKeys_iff _ _).2 ⟨p, hp⟩)⟩
  · obtain ⟨h1, h2, p, hp, _⟩ := sweepLoop_out _ _ _ x hx
    refine ⟨?_, h2, Or.inr ((mem_mapKeys_iff _ _).2 ⟨p, hp⟩)⟩
    exact fun h => h1 (sweepLoop_subset _ _ _ x h)

/-! ## The quoting decisions of a book update -/

/-- The two outcomes of the bid quoting decision: nothing, or one BUY insert
of volume 10 under the next id, recorded in `mBids`, which requires fewer
than two resting bids and a position below the limit. -/
theorem createBid_cases (s : State) :
    createBid s = (s, [])
    ∨ ∃ price, s.mBids.length < 2 ∧ s.mPosition < 70
        ∧ createBid s
          = ({ s with mNextMessageId := add64 s.mNextMessageId 1,
                      mBids := mapAssign s.mBids (add64 s.mNextMessageId 1) price },
             [Command.SendInsertOrder (add64 s.mNextMessageId 1) Side.BUY price 10
               Lifespan.GOOD_FOR_DAY]) := by
  unfold createBid
  by_cases hc1 : s.mBids.length < MAX_ORDERS ∧ s.mPosition < POSITION_LIMIT
  · rw [if_pos hc1]
    split
    · exact Or.inr ⟨_, hc1.1, hc1.2, rfl⟩
    · split
      · exact Or.inr ⟨_, hc1.1, hc1.2, rfl⟩
      · exact Or.inl rfl
  · rw [if_neg hc1]
    exact Or.inl rfl

/-- The two outcomes of the ask quoting decision: nothing, or one SELL insert
of volume 10 under the next id, recorded in `mAsks`, which requires fewer
than two resting asks and a position above minus the limit. -/
theorem createAsk_cases (s : State) :
    createAsk s = (s, [])
    ∨ ∃ price, s.mAsks.length < 2 ∧ s.mPosition > -70
        ∧ createAsk s
          = ({ s with mNextMessageId := add64 s.mNextMessageId 1,
                      mAsks := mapAssign s.mAsks (add64 s.mNextMessageId 1) price },
             [Command.SendInsertOrder (add64 s.mNextMessageId 1) Side.SELL price 10
               Lifespan.GOOD_FOR_DAY]) := by
  unfold createAsk
  by_cases hc1 : s.mAsks.length < MAX_ORDERS ∧ s.mPosition > -POSITION_LIMIT
  · rw [if_pos hc1]
    split
    · exact Or.inr ⟨_, hc1.1, hc1.2, rfl⟩
    · split
      · exact Or.inr ⟨_, hc1.1, hc1.2, rfl⟩
      · exact Or.inl rfl
  · rw [if_neg hc1]
    exact Or.inl rfl

theorem createBid_cancel (s : State) :
    cancelIds (createBid s).2 = [] ∧ (createBid s).1.mCanceledIds = s.mCanceledIds := by
  rcases createBid_cases s with h | ⟨p, _, _, h⟩ <;> rw [h] <;> exact ⟨rfl, rfl⟩

theorem createAsk_cancel (s : State) :
    cancelIds (createAsk s).2 = [] ∧ (createAsk s).1.mCanceledIds = s.mCanceledIds := by
  rcases createAsk_cases s with h | ⟨p, _, _, h⟩ <;> rw [h] <;> exact ⟨rfl, rfl⟩

theorem book_cancel (s : State) (inst : Instrument) (seq : Nat) (ap av bp bv : Nat → Nat) :
    cancelIds (OrderBookMessageHandler s inst seq ap av bp bv).2
        = cancelIds (cancelSweep (storePrices s inst ap bp)).2
      ∧ (OrderBookMessageHandler s inst seq ap av bp bv).1.mCanceledIds
        = (cancelSweep (storePrices s inst ap bp)).1.mCanceledIds := by
  unfold OrderBookMessageHandler
  simp only [cancelIds_append, (createBid_cancel _).1, (createAsk_cancel _).1,
    (createBid_cancel _).2, (createAsk_cancel _).2, List.append_nil, and_self]

/-! ## Cancelling a resting bid -/

/-- C9, amended. A book update cancels a resting bid that is not yet
cancelled and whose price `p` has the future best bid of the new snapshot at
or below the unsigned 64-bit sum of `p` and 200, which is `p + 200` unless
that reaches `2 ^ 64`: the update sends exactly one cancel command for its id,
and the id is in the cancelled set afterwards. -/
theorem bid_cancel_on_lost_margin (s : State) (inst : Instrument) (seq : Nat)
    (ap av bp bv : Nat → Nat) (id p : Nat)
    (hm : (id, p) ∈ s.mBids) (hc : id ∉ s.mCanceledIds)
    (hp : (storePrices s inst ap bp).futureBid 0 ≤ add64 p 200) :
    (cancelIds (OrderBookMessageHandler s inst seq ap av bp bv).2).count id = 1
      ∧ id ∈ (OrderBookMessageHandler s inst seq ap av bp bv).1.mCanceledIds := by
  rw [(book_cancel s inst seq ap av bp bv).1, (book_cancel s inst seq ap av bp bv).2]
  generalize hs1 : storePrices s inst ap bp = s1 at *
  have hB : s1.mBids = s.mBids := by rw [← hs1]; rfl
  have hC : s1.mCanceledIds = s.mCanceledIds := by rw [← hs1]; rfl
  have ht : bidTest s1.mLastBidPrices p = true := by
    simp only [bidTest, MIN_PROFITABILITY, TICK_SIZE_IN_CENTS, Bool.or_eq_true,
      decide_eq_true_eq]
    exact Or.inl hp
  have hin : id ∈ cancelIds (sweepLoop (bidTest s1.mLastBidPrices) s1.mBids s1.mCanceledIds).2 :=
    sweepLoop_hit _ _ _ id p (hB ▸ hm) ht (hC ▸ hc)
  have hall : id ∈ cancelIds (cancelSweep s1).2 := by
    rw [cancelIds_cancelSweep]
    exact List.mem_append_left _ hin
  exact ⟨List.count_eq_one_of_mem (cancelSweep_nodup s1) hall, (cancelSweep_out s1 id hall).2.1⟩

/-- C9 amended, at the input of the specification: a bid resting at 9800 and a future
best bid of 9850 give one cancel for the bid. -/
theorem bid_cancel_on_lost_margin_witness :
    (cancelIds (OrderBookMessageHandler restingState Instrument.FUTURE 1
        (book2 9900 10000) (book2 5 5) (book2 9850 9800) (book2 5 5)).2).count 1 = 1
    ∧ 1 ∈ (OrderBookMessageHandler restingState Instrument.FUTURE 1
        (book2 9900 10000) (book2 5 5) (book2 9850 9800) (book2 5 5)).1.mCanceledIds :=
  bid_cancel_on_lost_margin restingState Instrument.FUTURE 1
    (book2 9900 10000) (book2 5 5) (book2 9850 9800) (book2 5 5) 1 9800
    (by decide) (by decide) (by decide)

/-- C10, refuted as stated. A bid rests at 9800, the future best bid of the
new snapshot is 10300, above 9800 + 200, and the ETF second-best ask is
10200, not below 9800; the update still cancels the bid, because the ETF
second-best bid, 9900, is above 9800. -/
theorem bid_cancel_second_ask_counterexample :
    (1, 9800) ∈ risenState.mBids ∧ 1 ∉ risenState.mCanceledIds
    ∧ (storePrices risenState Instrument.FUTURE (book2 10400 10500) (book2 10300 10200)).futureBid 0
        > 9800 + 200
    ∧ ¬ (1 ∈ cancelIds (OrderBookMessageHandler risenState Instrument.FUTURE 1
            (book2 10400 10500) (book2 5 5) (book2 10300 10200) (book2 5 5)).2
          ↔ (storePrices risenState Instrument.FUTURE (book2 10400 10500)
              (book2 10300 10200)).etfAsk 1 < 9800) := by
  decide

/-- C10, amended. For a resting bid that is not yet cancelled, whose price `p`
is not caught by the profitability rule (the future best bid of the new
snapshot is above the unsigned 64-bit sum `p + 200`), the loop over the bids
sends a cancel for its id exactly when the ETF second-best bid is above `p`;
and when the id is not also a key of `mAsks`, the whole book update sends a
cancel for it exactly then. -/
theorem bid_cancel_on_second_bid (s : State) (inst : Instrument) (seq : Nat)
    (ap av bp bv : Nat → Nat) (id p : Nat)
    (hm : (id, p) ∈ s.mBids) (huniq : ∀ q, (id, q) ∈ s.mBids → q = p)
    (hc : id ∉ s.mCanceledIds)
    (hp : (storePrices s inst ap bp).futureBid 0 > add64 p 200) :
    (id ∈ cancelIds (cancelBids (storePrices s inst ap bp).mLastBidPrices s.mBids
          s.mCanceledIds).2
        ↔ (storePrices s inst ap bp).etfBid 1 > p)
    ∧ (id ∉ mapKeys s.mAsks →
        (id ∈ cancelIds (OrderBookMessageHandler s inst seq ap av bp bv).2
          ↔ (storePrices s inst ap bp).etfBid 1 > p)) := by
  have hB : (storePrices s inst ap bp).mBids = s.mBids := rfl
  have hA : (storePrices s inst ap bp).mAsks = s.mAsks := rfl
  have hC : (storePrices s inst ap bp).mCanceledIds = s.mCanceledIds := rfl
  generalize hs1 : storePrices s inst ap bp = s1 at *
  have htest : bidTest s1.mLastBidPrices p = true ↔ s1.etfBid 1 > p := by
    simp only [bidTest, MIN_PROFITABILITY, TICK_SIZE_IN_CENTS, Bool.or_eq_true,
      decide_eq_true_eq, State.etfBid, State.futureBid, Nat.reduceMul] at hp ⊢
    constructor
    · rintro (h | h)
      · omega
      · exact h
    · exact fun h => Or.inr h
  have hloop : id ∈ cancelIds (sweepLoop (bidTest s1.mLastBidPrices) s.mBids s.mCanceledIds).2
      ↔ s1.etfBid 1 > p := by
    constructor
    · intro h
      obtain ⟨_, _, q, hq, ht⟩ := sweepLoop_out _ _ _ id h
      rw [huniq q hq] at ht
      exact htest.1 ht
    · intro h
      exact sweepLoop_hit _ _ _ id p hm (htest.2 h) hc
  constructor
  · rw [cancelBids_eq_sweepLoop]
    exact hloop
  · intro hna
    rw [(book_cancel s inst seq ap av bp bv).1, hs1, cancelIds_cancelSweep, List.mem_append,
      hB, hA, hC]
    constructor
    · rintro (h | h)
      · exact hloop.1 h
      · obtain ⟨_, _, q, hq, _⟩ := sweepLoop_out _ _ _ id h
        exact absurd ((mem_mapKeys_iff _ _).2 ⟨q, hq⟩) hna
    · exact fun h => Or.inl (hloop.2 h)

/-- C10 amended, at a concrete input: the bid resting at 9800 is cancelled
when the ETF second-best bid is 9900 and the future best bid is 10300. -/
theorem bid_cancel_on_second_bid_witness :
    1 ∈ cancelIds (OrderBookMessageHandler risenState Instrument.FUTURE 1
        (book2 10400 10500) (book2 5 5) (book2 10300 10200) (book2 5 5)).2 :=
  ((bid_cancel_on_second_bid risenState Instrument.FUTURE 1
    (book2 10400 10500) (book2 5 5) (book2 10300 10200) (book2 5 5) 1 9800
    (by decide) (by intro q hq; simpa [risenState] using hq) (by decide)
    (by decide)).2 (by decide)).2 (by decide)

/-! ## One message: cancels -/

theorem orderStatus_mCanceledIds (s : State) (id fv rv : Nat) (fees : Int) :
    (OrderStatusMessageHandler s id fv rv fees).1.mCanceledIds = s.mCanceledIds := by
  unfold OrderStatusMessageHandler
  split
  · rfl
  · split <;> rfl

theorem error_mCanceledIds (s : State) (id : Nat) (msg : String) :
    (ErrorMessageHandler s id msg).1.mCanceledIds = s.mCanceledIds := by
  unfold ErrorMessageHandler
  split
  · exact orderStatus_mCanceledIds s id 0 0 0
  · rfl

/-- What one fill does to the cancel stream and the cancelled set. -/
theorem fill_cancel (pb : PriceBounds) (s : State) (id price V : Nat) :
    (cancelIds (OrderFilledMessageHandler pb s id price V).2 = []
        ∧ (OrderFilledMessageHandler pb s id price V).1.mCanceledIds = s.mCanceledIds)
    ∨ (cancelIds (OrderFilledMessageHandler pb s id price V).2 = [id]
        ∧ (OrderFilledMessageHandler pb s id price V).1.mCanceledIds = s.mCanceledIds.insert id
        ∧ id ∉ s.mCanceledIds
        ∧ (id ∈ mapKeys s.mBids ∨ id ∈ mapKeys s.mAsks)) := by
  unfold OrderFilledMessageHandler
  by_cases hb : mapCount s.mBids id ≠ 0
  · rw [if_pos hb]
    dsimp only
    by_cases hk : id ∉ s.mCanceledIds
    · rw [if_pos hk]
      exact Or.inr ⟨rfl, rfl, hk, Or.inl ((mapCount_ne_zero_iff _ _).1 hb)⟩
    · rw [if_neg hk]
      exact Or.inl ⟨rfl, rfl⟩
  · rw [if_neg hb]
    by_cases ha : mapCount s.mAsks id ≠ 0
    · rw [if_pos ha]
      dsimp only
      by_cases hk : id ∉ s.mCanceledIds
      · rw [if_pos hk]
        exact Or.inr ⟨rfl, rfl, hk, Or.inr ((mapCount_ne_zero_iff _ _).1 ha)⟩
      · rw [if_neg hk]
        exact Or.inl ⟨rfl, rfl⟩
    · rw [if_neg ha]
      exact Or.inl ⟨rfl, rfl⟩

/-- One message: the cancels it sends are pairwise distinct, each is for an id
that was not in the cancelled set and is in it afterwards, and the cancelled
set only grows. -/
theorem step_cancel (pb : PriceBounds) (s : State) (e : Event) :
    (cancelIds (step pb s e).2).Nodup
      ∧ (∀ x ∈ cancelIds (step pb s e).2,
          x ∉ s.mCanceledIds ∧ x ∈ (step pb s e).1.mCanceledIds)
      ∧ (∀ x ∈ s.mCanceledIds, x ∈ (step pb s e).1.mCanceledIds) := by
  cases e with
  | orderBook i n ap av bp bv =>
    simp only [step]
    rw [(book_cancel s i n ap av bp bv).1, (book_cancel s i n ap av bp bv).2]
    refine ⟨cancelSweep_nodup _, ?_, ?_⟩
    · intro x hx
      have h := cancelSweep_out _ x hx
      exact ⟨h.1, h.2.1⟩
    · intro x hx
      exact cancelSweep_subset _ x hx
  | tradeTicks i n ap av bp bv =>
    simp [step, TradeTicksMessageHandler, cancelIds]
  | orderStatus id f r fees =>
    simp only [step]
    rw [orderStatus_cmds, orderStatus_mCanceledIds]
    simp [cancelIds]
  | orderFilled id p v =>
    simp only [step]
    rcases fill_cancel pb s id p v with ⟨h1, h2⟩ | ⟨h1, h2, h3, _⟩
    · rw [h1, h2]
      simp
    · rw [h1, h2]
      refine ⟨by simp, ?_, ?_⟩
      · intro x hx
        rw [List.mem_singleton] at hx
        subst hx
        exact ⟨h3, List.mem_insert_iff.2 (Or.inl rfl)⟩
      · intro x hx
        exact List.mem_insert_iff.2 (Or.inr hx)
  | hedgeFilled id p v =>
    simp [step, HedgeFilledMessageHandler, cancelIds]
  | error id msg =>
    simp only [step]
    rw [error_cmds, error_mCanceledIds]
    simp [cancelIds]

/-! ## Runs: cancels -/

theorem run_cancel (pb : PriceBounds) (s : State) (evs : List Event) :
    (cancelIds (run pb s evs).2).Nodup
      ∧ (∀ x ∈ cancelIds (run pb s evs).2,
          x ∉ s.mCanceledIds ∧ x ∈ (run pb s evs).1.mCanceledIds)
      ∧ (∀ x ∈ s.mCanceledIds, x ∈ (run pb s evs).1.mCanceledIds) := by
  induction evs generalizing s with
  | nil => simp [run, cancelIds]
  | cons e es ih =>
    obtain ⟨hn1, ho1, hs1⟩ := step_cancel pb s e
    obtain ⟨hn2, ho2, hs2⟩ := ih (step pb s e).1
    simp only [run, cancelIds_append]
    refine ⟨?_, ?_, ?_⟩
    · rw [List.nodup_append]
      refine ⟨hn1, hn2, ?_⟩
      intro x hx1 hx2
      exact (ho2 x hx2).1 (ho1 x hx1).2
    · intro x hx
      rcases List.mem_append.1 hx with h | h
      · exact ⟨(ho1 x h).1, hs2 x (ho1 x h).2⟩
      · exact ⟨fun hc => (ho2 x h).1 (hs1 x hc), (ho2 x h).2⟩
    · intro x hx
      exact hs2 x (hs1 x hx)

/-- C2. In the command stream of any finite sequence of messages handled from
the initial state no two cancel commands carry the same client order id; and
in any state, no handler sends a cancel for an id that is already in the
cancelled set. -/
theorem no_cancel_twice (pb : PriceBounds) (asks bids : LastPrices) (evs : List Event) :
    (cancelIds (run pb (initialState asks bids) evs).2).Nodup
      ∧ ∀ (s : State) (e : Event), ∀ id ∈ cancelIds (step pb s e).2, id ∉ s.mCanceledIds :=
  ⟨(run_cancel pb _ evs).1, fun s e id h => ((step_cancel pb s e).2.1 id h).1⟩

/-! ## Runs: sizes of the order tables -/

theorem createBid_tables (s : State) :
    (createBid s).1.mBids.length ≤ max s.mBids.length 2
      ∧ (createBid s).1.mAsks = s.mAsks := by
  rcases createBid_cases s with h | ⟨p, h1, _, h⟩
  · rw [h]
    exact ⟨le_max_left _ _, rfl⟩
  · rw [h]
    refine ⟨?_, rfl⟩
    have := length_mapAssign_le s.mBids (add64 s.mNextMessageId 1) p
    simp only
    omega

theorem createAsk_tables (s : State) :
    (createAsk s).1.mAsks.length ≤ max s.mAsks.length 2
      ∧ (createAsk s).1.mBids = s.mBids := by
  rcases createAsk_cases s with h | ⟨p, h1, _, h⟩
  · rw [h]
    exact ⟨le_max_left _ _, rfl⟩
  · rw [h]
    refine ⟨?_, rfl⟩
    have := length_mapAssign_le s.mAsks (add64 s.mNextMessageId 1) p
    simp only
    omega

theorem orderStatus_sizes (s : State) (id fv rv : Nat) (fees : Int) :
    (OrderStatusMessageHandler s id fv rv fees).1.mBids.length ≤ s.mBids.length
      ∧ (OrderStatusMessageHandler s id fv rv fees).1.mAsks.length ≤ s.mAsks.length := by
  unfold OrderStatusMessageHandler
  split
  · exact ⟨le_refl _, le_refl _⟩
  · split
    · exact ⟨length_mapErase_le _ _, le_refl _⟩
    · exact ⟨le_refl _, length_mapErase_le _ _⟩

theorem fill_tables (pb : PriceBounds) (s : State) (id price V : Nat) :
    (OrderFilledMessageHandler pb s id price V).1.mBids = s.mBids
      ∧ (OrderFilledMessageHandler pb s id price V).1.mAsks = s.mAsks := by
  unfold OrderFilledMessageHandler
  split
  · dsimp only
    split <;> exact ⟨rfl, rfl⟩
  · split
    · dsimp only
      split <;> exact ⟨rfl, rfl⟩
    · exact ⟨rfl, rfl⟩

/-- One message keeps both order tables at two entries or fewer. -/
theorem step_sizes (pb : PriceBounds) (s : State) (e : Event)
    (hb : s.mBids.length ≤ 2) (ha : s.mAsks.length ≤ 2) :
    (step pb s e).1.mBids.length ≤ 2 ∧ (step pb s e).1.mAsks.length ≤ 2 := by
  cases e with
  | orderBook i n ap av bp bv =>
    simp only [step, OrderBookMessageHandler]
    have hB := createBid_tables (cancelSweep (storePrices s i ap bp)).1
    have hA := createAsk_tables (createBid (cancelSweep (storePrices s i ap bp)).1).1
    have e1 : (cancelSweep (storePrices s i ap bp)).1.mBids = s.mBids := rfl
    have e2 : (cancelSweep (storePrices s i ap bp)).1.mAsks = s.mAsks := rfl
    rw [e1] at hB
    rw [hB.2, e2] at hA
    rw [hA.2]
    constructor
    · have := hB.1
      omega
    · have := hA.1
      omega
  | tradeTicks i n ap av bp bv => exact ⟨hb, ha⟩
  | orderStatus id f r fees =>
    have h := orderStatus_sizes s id f r fees
    simp only [step]
    omega
  | orderFilled id p v =>
    simp only [step]
    rw [(fill_tables pb s id p v).1, (fill_tables pb s id p v).2]
    exact ⟨hb, ha⟩
  | hedgeFilled id p v => exact ⟨hb, ha⟩
  | error id msg =>
    simp only [step, ErrorMessageHandler]
    split
    · have h := orderStatus_sizes s id 0 0 0
      omega
    · exact ⟨hb, ha⟩

theorem run_sizes (pb : PriceBounds) (s : State) (evs : List Event)
    (hb : s.mBids.length ≤ 2) (ha : s.mAsks.length ≤ 2) :
    (run pb s evs).1.mBids.length ≤ 2 ∧ (run pb s evs).1.mAsks.length ≤ 2 := by
  induction evs generalizing s with
  | nil => exact ⟨hb, ha⟩
  | cons e es ih =>
    have h := step_sizes pb s e hb ha
    exact ih (step pb s e).1 h.1 h.2

/-! ## Runs: the order tables are maps -/

theorem mapErase_sorted (m : OrderMap) (k : Nat) (h : KeysAscending m) :
    KeysAscending (mapErase m k) := by
  unfold KeysAscending mapKeys mapErase at *
  exact h.sublist ((List.filter_sublist m).map Prod.fst)

theorem mapAssign_sorted (m : OrderMap) (k v : Nat) (h : KeysAscending m) :
    KeysAscending (mapAssign m k v) := by
  induction m with
  | nil => simp [mapAssign, KeysAscending, mapKeys]
  | cons e rest ih =>
    have hcons : (∀ j ∈ mapKeys rest, e.1 < j) ∧ KeysAscending rest := by
      simpa [KeysAscending, mapKeys] using h
    unfold mapAssign
    split
    · next he =>
      have : KeysAscending ((k, v) :: rest) := by
        simp only [KeysAscending, mapKeys, List.map_cons, List.pairwise_cons]
        refine ⟨?_, hcons.2⟩
        intro j hj
        rw [← he]
        exact hcons.1 j hj
      exact this
    · split
      · next hlt =>
        simp only [KeysAscending, mapKeys, List.map_cons, List.pairwise_cons, List.mem_cons]
        refine ⟨?_, ?_, hcons.2⟩
        · rintro j (hj | hj)
          · rw [hj]
            exact hlt
          · exact lt_trans hlt (hcons.1 j hj)
        · exact hcons.1
      · next hne hnlt =>
        simp only [KeysAscending, mapKeys, List.map_cons, List.pairwise_cons]
        refine ⟨?_, ih hcons.2⟩
        intro j hj
        rcases (mem_mapKeys_mapAssign rest k v j).1 hj with hj | hj
        · omega
        · exact hcons.1 j hj

theorem step_sorted (pb : PriceBounds) (s : State) (e : Event)
    (hb : KeysAscending s.mBids) (ha : KeysAscending s.mAsks) :
    KeysAscending (step pb s e).1.mBids ∧ KeysAscending (step pb s e).1.mAsks := by
  cases e with
  | orderBook i n ap av bp bv =>
    simp only [step, OrderBookMessageHandler]
    have hB : KeysAscending (createBid (cancelSweep (storePrices s i ap bp)).1).1.mBids
        ∧ KeysAscending (createBid (cancelSweep (storePrices s i ap bp)).1).1.mAsks := by
      rcases createBid_cases (cancelSweep (storePrices s i ap bp)).1 with h | ⟨p, _, _, h⟩
      · rw [h]
        exact ⟨hb, ha⟩
      · rw [h]
        exact ⟨mapAssign_sorted _ _ _ hb, ha⟩
    rcases createAsk_cases (createBid (cancelSweep (storePrices s i ap bp)).1).1
      with h | ⟨p, _, _, h⟩
    · rw [h]
      exact hB
    · rw [h]
      exact ⟨hB.1, mapAssign_sorted _ _ _ hB.2⟩
  | tradeTicks i n ap av bp bv => exact ⟨hb, ha⟩
  | orderStatus id f r fees =>
    simp only [step, OrderStatusMessageHandler]
    split
    · exact ⟨hb, ha⟩
    · split
      · exact ⟨mapErase_sorted _ _ hb, ha⟩
      · exact ⟨hb, mapErase_sorted _ _ ha⟩
  | orderFilled id p v =>
    simp only [step]
    rw [(fill_tables pb s id p v).1, (fill_tables pb s id p v).2]
    exact ⟨hb, ha⟩
  | hedgeFilled id p v => exact ⟨hb, ha⟩
  | error id msg =>
    simp only [step, ErrorMessageHandler, OrderStatusMessageHandler]
    split
    · split
      · exact ⟨hb, ha⟩
      · split
        · exact ⟨mapErase_sorted _ _ hb, ha⟩
        · exact ⟨hb, mapErase_sorted _ _ ha⟩
    · exact ⟨hb, ha⟩

theorem run_sorted (pb : PriceBounds) (s : State) (evs : List Event)
    (hb : KeysAscending s.mBids) (ha : KeysAscending s.mAsks) :
    KeysAscending (run pb s evs).1.mBids ∧ KeysAscending (run pb s evs).1.mAsks := by
  induction evs generalizing s with
  | nil => exact ⟨hb, ha⟩
  | cons e es ih =>
    have h := step_sorted pb s e hb ha
    exact ih (step pb s e).1 h.1 h.2

theorem KeysAscending.nodup (m : OrderMap) (h : KeysAscending m) : (mapKeys m).Nodup := by
  unfold KeysAscending at h
  exact h.imp (fun hlt => Nat.ne_of_lt hlt)

/-- C3. In every state reached from the initial state by a finite sequence of
messages, `mBids` holds at most two ids and `mAsks` holds at most two ids:
each table has at most `MAX_ORDERS` entries, and its keys are pairwise
distinct, so the entries count ids. -/
theorem order_tables_bounded (pb : PriceBounds) (asks bids : LastPrices) (evs : List Event) :
    (run pb (initialState asks bids) evs).1.mBids.length ≤ MAX_ORDERS
      ∧ (run pb (initialState asks bids) evs).1.mAsks.length ≤ MAX_ORDERS
      ∧ (mapKeys (run pb (initialState asks bids) evs).1.mBids).Nodup
      ∧ (mapKeys (run pb (initialState asks bids) evs).1.mAsks).Nodup := by
  have h1 := run_sizes pb (initialState asks bids) evs (by simp [initialState])
    (by simp [initialState])
  have h2 := run_sorted pb (initialState asks bids) evs
    (by simp [initialState, KeysAscending, mapKeys])
    (by simp [initialState, KeysAscending, mapKeys])
  exact ⟨h1.1, h1.2, KeysAscending.nodup _ h2.1, KeysAscending.nodup _ h2.2⟩

/-! ## Runs: fresh ids -/

theorem idsUsed_append (x y : List Command) : idsUsed (x ++ y) = idsUsed x + idsUsed y := by
  induction x with
  | nil => simp [idsUsed]
  | cons c rest ih =>
    cases c <;> simp [idsUsed, ih] <;> omega

theorem idsUsed_map_cancel (l : List Nat) : idsUsed (l.map Command.SendCancelOrder) = 0 := by
  induction l with
  | nil => rfl
  | cons a rest ih => simpa [idsUsed] using ih

theorem idsUsed_cancelSweep (s : State) : idsUsed (cancelSweep s).2 = 0 := by
  rw [cancelSweep_cmds, idsUsed_map_cancel]

theorem add64_one (n : Nat) (h : n + 1 < U64) : add64 n 1 = n + 1 := add64_of_lt n 1 h

/-- Shrinking the tables and advancing the counter keeps the ids fresh. -/
theorem IdsFresh.mono (s t : State) (h : IdsFresh s)
    (hb : ∀ k ∈ mapKeys t.mBids, k ∈ mapKeys s.mBids)
    (ha : ∀ k ∈ mapKeys t.mAsks, k ∈ mapKeys s.mAsks)
    (hn : s.mNextMessageId ≤ t.mNextMessageId) : IdsFresh t := by
  obtain ⟨h1, h2, h3⟩ := h
  refine ⟨?_, ?_, ?_⟩
  · intro k hk
    exact le_trans (h1 k (hb k hk)) hn
  · intro k hk
    exact le_trans (h2 k (ha k hk)) hn
  · intro k hk hk2
    exact h3 k (hb k hk) (ha k hk2)

theorem createBid_fresh (s : State) (h : IdsFresh s)
    (hw : s.mNextMessageId + idsUsed (createBid s).2 < U64) :
    IdsFresh (createBid s).1
      ∧ (createBid s).1.mNextMessageId = s.mNextMessageId + idsUsed (createBid s).2 := by
  rcases createBid_cases s with he | ⟨p, _, _, he⟩
  · rw [he]
    exact ⟨h, rfl⟩
  · rw [he] at hw ⊢
    simp only [idsUsed] at hw ⊢
    have hid : add64 s.mNextMessageId 1 = s.mNextMessageId + 1 := add64_one _ (by omega)
    rw [hid]
    obtain ⟨h1, h2, h3⟩ := h
    refine ⟨⟨?_, ?_, ?_⟩, by omega⟩
    · intro k hk
      rcases (mem_mapKeys_mapAssign _ _ _ _).1 hk with hk | hk
      · simp only
        omega
      · have := h1 k hk
        simp only
        omega
    · intro k hk
      have := h2 k hk
      simp only
      omega
    · intro k hk hk2
      rcases (mem_mapKeys_mapAssign _ _ _ _).1 hk with hk | hk
      · have := h2 k hk2
        omega
      · exact h3 k hk hk2

theorem createAsk_fresh (s : State) (h : IdsFresh s)
    (hw : s.mNextMessageId + idsUsed (createAsk s).2 < U64) :
    IdsFresh (createAsk s).1
      ∧ (createAsk s).1.mNextMessageId = s.mNextMessageId + idsUsed (createAsk s).2 := by
  rcases createAsk_cases s with he | ⟨p, _, _, he⟩
  · rw [he]
    exact ⟨h, rfl⟩
  · rw [he] at hw ⊢
    simp only [idsUsed] at hw ⊢
    have hid : add64 s.mNextMessageId 1 = s.mNextMessageId + 1 := add64_one _ (by omega)
    rw [hid]
    obtain ⟨h1, h2, h3⟩ := h
    refine ⟨⟨?_, ?_, ?_⟩, by omega⟩
    · intro k hk
      have := h1 k hk
      simp only
      omega
    · intro k hk
      rcases (mem_mapKeys_mapAssign _ _ _ _).1 hk with hk | hk
      · simp only
        omega
      · have := h2 k hk
        simp only
        omega
    · intro k hk hk2
      rcases (mem_mapKeys_mapAssign _ _ _ _).1 hk2 with hk2 | hk2
      · have := h1 k hk
        omega
      · exact h3 k hk hk2

theorem orderStatus_fresh (s : State) (id fv rv : Nat) (fees : Int) (h : IdsFresh s) :
    IdsFresh (OrderStatusMessageHandler s id fv rv fees).1
      ∧ (OrderStatusMessageHandler s id fv rv fees).1.mNextMessageId = s.mNextMessageId := by
  unfold OrderStatusMessageHandler
  split
  · exact ⟨h, rfl⟩
  · split
    · refine ⟨IdsFresh.mono s _ h ?_ (fun k hk => hk) (le_refl _), rfl⟩
      intro k hk
      exact ((mem_mapKeys_mapErase _ _ _).1 hk).1
    · refine ⟨IdsFresh.mono s _ h (fun k hk => hk) ?_ (le_refl _), rfl⟩
      intro k hk
      exact ((mem_mapKeys_mapErase _ _ _).1 hk).1

theorem fill_counter (pb : PriceBounds) (s : State) (id price V : Nat) :
    (OrderFilledMessageHandler pb s id price V).1.mNextMessageId
      = if idsUsed (OrderFilledMessageHandler pb s id price V).2 = 0 then s.mNextMessageId
        else add64 s.mNextMessageId 1 := by
  unfold OrderFilledMessageHandler
  split
  · dsimp only
    split <;> simp [idsUsed]
  · split
    · dsimp only
      split <;> simp [idsUsed]
    · simp [idsUsed]

theorem fill_idsUsed_le (pb : PriceBounds) (s : State) (id price V : Nat) :
    idsUsed (OrderFilledMessageHandler pb s id price V).2 ≤ 1 := by
  unfold OrderFilledMessageHandler
  split
  · dsimp only
    split <;> simp [idsUsed]
  · split
    · dsimp only
      split <;> simp [idsUsed]
    · simp [idsUsed]

/-- One message that does not wrap the id counter keeps the ids fresh and
advances the counter by the number of ids it used. -/
theorem step_fresh (pb : PriceBounds) (s : State) (e : Event) (h : IdsFresh s)
    (hw : s.mNextMessageId + idsUsed (step pb s e).2 < U64) :
    IdsFresh (step pb s e).1
      ∧ (step pb s e).1.mNextMessageId = s.mNextMessageId + idsUsed (step pb s e).2 := by
  cases e with
  | orderBook i n ap av bp bv =>
    simp only [step, OrderBookMessageHandler, idsUsed_append, idsUsed_cancelSweep,
      Nat.zero_add] at hw ⊢
    have h0 : IdsFresh (cancelSweep (storePrices s i ap bp)).1 := h
    have hn0 : (cancelSweep (storePrices s i ap bp)).1.mNextMessageId = s.mNextMessageId := rfl
    obtain ⟨hb, hnb⟩ := createBid_fresh _ h0 (by rw [hn0]; omega)
    obtain ⟨ha, hna⟩ := createAsk_fresh _ hb (by rw [hnb, hn0]; omega)
    refine ⟨ha, ?_⟩
    rw [hna, hnb, hn0]
    omega
  | tradeTicks i n ap av bp bv => exact ⟨h, rfl⟩
  | orderStatus id f r fees =>
    simp only [step, orderStatus_cmds, idsUsed, Nat.add_zero]
    exact orderStatus_fresh s id f r fees h
  | orderFilled id p v =>
    simp only [step] at hw ⊢
    have hc := fill_counter pb s id p v
    have hle := fill_idsUsed_le pb s id p v
    have ht := fill_tables pb s id p v
    have hn : (OrderFilledMessageHandler pb s id p v).1.mNextMessageId
        = s.mNextMessageId + idsUsed (OrderFilledMessageHandler pb s id p v).2 := by
      rw [hc]
      split
      · omega
      · rw [add64_one _ (by omega)]
        omega
    refine ⟨IdsFresh.mono s _ h ?_ ?_ (by omega), hn⟩
    · rw [ht.1]
      exact fun k hk => hk
    · rw [ht.2]
      exact fun k hk => hk
  | hedgeFilled id p v => exact ⟨h, rfl⟩
  | error id msg =>
    simp only [step, error_cmds, idsUsed, Nat.add_zero]
    unfold ErrorMessageHandler
    split
    · exact orderStatus_fresh s id 0 0 0 h
    · exact ⟨h, rfl⟩

theorem run_fresh (pb : PriceBounds) (s : State) (evs : List Event) (h : IdsFresh s)
    (hw : noWrap pb s evs = true) : IdsFresh (run pb s evs).1 := by
  induction evs generalizing s with
  | nil => exact h
  | cons e es ih =>
    simp only [noWrap, Bool.and_eq_true, decide_eq_true_eq] at hw
    exact ih (step pb s e).1 (step_fresh pb s e h hw.1).1 hw.2

/-- C4. In every state reached from the initial state by a finite sequence of
messages during which the 64-bit id counter does not wrap, no client order id
is a key of both `mBids` and `mAsks`. -/
theorem tables_disjoint (pb : PriceBounds) (asks bids : LastPrices) (evs : List Event)
    (hw : noWrap pb (initialState asks bids) evs = true) (id : Nat) :
    ¬ (id ∈ mapKeys (run pb (initialState asks bids) evs).1.mBids
        ∧ id ∈ mapKeys (run pb (initialState asks bids) evs).1.mAsks) := by
  have h0 : IdsFresh (initialState asks bids) := by
    simp [IdsFresh, initialState, mapKeys]
  have h := run_fresh pb (initialState asks bids) evs h0 hw
  exact fun hk => h.2.2 id hk.1 hk.2

/-- C4, at a concrete run: after an ETF book update that makes the trader
quote, id 1 is a key of `mBids` and not a key of `mAsks`. -/
theorem tables_disjoint_witness :
    1 ∈ mapKeys (run demoBounds (initialState flatState.mLastAskPrices
        flatState.mLastBidPrices) demoSession).1.mBids
    ∧ ¬ (1 ∈ mapKeys (run demoBounds (initialState flatState.mLastAskPrices
          flatState.mLastBidPrices) demoSession).1.mBids
        ∧ 1 ∈ mapKeys (run demoBounds (initialState flatState.mLastAskPrices
          flatState.mLastBidPrices) demoSession).1.mAsks) :=
  ⟨by decide, tables_disjoint demoBounds flatState.mLastAskPrices flatState.mLastBidPrices
    demoSession (by decide) 1⟩

/-! ## Fills: the frame and the pulled order -/

/-- C18. A fill for an id that is a key of neither order table sends no
command and leaves the whole state as it was: position, id counter,
cancelled set, both tables and both last-price tables. -/
theorem fill_untracked (pb : PriceBounds) (s : State) (id price V : Nat)
    (hb : id ∉ mapKeys s.mBids) (ha : id ∉ mapKeys s.mAsks) :
    OrderFilledMessageHandler pb s id price V = (s, []) := by
  unfold OrderFilledMessageHandler
  rw [if_neg (fun h => hb ((mapCount_ne_zero_iff _ _).1 h)),
    if_neg (fun h => ha ((mapCount_ne_zero_iff _ _).1 h))]

/-- C18, at a concrete input: a fill for id 5, which the resting state does
not track, changes nothing; the same holds once the resting bid 1 has had its
terminal status. -/
theorem fill_untracked_witness :
    OrderFilledMessageHandler demoBounds restingState 5 9800 10 = (restingState, [])
    ∧ OrderFilledMessageHandler demoBounds
        (OrderStatusMessageHandler restingState 1 10 0 0).1 1 9800 10
      = ((OrderStatusMessageHandler restingState 1 10 0 0).1, []) :=
  ⟨fill_untracked demoBounds restingState 5 9800 10 (by decide) (by decide),
   fill_untracked demoBounds _ 1 9800 10 (by decide) (by decide)⟩

/-- C14. A fill for an id that is a key of `mBids` or `mAsks`: when the id
was not in the cancelled set, the fill sends exactly one cancel command, for
that id, and the cancelled set becomes the old one with the id added; when
the id was already in the cancelled set, the fill sends no cancel command and
the cancelled set is unchanged. In both cases both order tables are unchanged,
so the id stays in its table. -/
theorem fill_pulls_order (pb : PriceBounds) (s : State) (id price V : Nat)
    (ht : id ∈ mapKeys s.mBids ∨ id ∈ mapKeys s.mAsks) :
    (id ∉ s.mCanceledIds →
        cancelIds (OrderFilledMessageHandler pb s id price V).2 = [id]
        ∧ id ∈ (OrderFilledMessageHandler pb s id price V).1.mCanceledIds
        ∧ ∀ x, x ∈ (OrderFilledMessageHandler pb s id price V).1.mCanceledIds
            ↔ x = id ∨ x ∈ s.mCanceledIds)
    ∧ (id ∈ s.mCanceledIds →
        cancelIds (OrderFilledMessageHandler pb s id price V).2 = []
        ∧ (OrderFilledMessageHandler pb s id price V).1.mCanceledIds = s.mCanceledIds)
    ∧ (OrderFilledMessageHandler pb s id price V).1.mBids = s.mBids
    ∧ (OrderFilledMessageHandler pb s id price V).1.mAsks = s.mAsks := by
  have hcase : mapCount s.mBids id ≠ 0 ∨ (¬ mapCount s.mBids id ≠ 0 ∧ mapCount s.mAsks id ≠ 0) := by
    by_cases hb : mapCount s.mBids id ≠ 0
    · exact Or.inl hb
    · right
      refine ⟨hb, ?_⟩
      rcases ht with h | h
      · exact absurd ((mapCount_ne_zero_iff _ _).2 h) hb
      · exact (mapCount_ne_zero_iff _ _).2 h
  refine ⟨?_, ?_, (fill_tables pb s id price V).1, (fill_tables pb s id price V).2⟩
  · intro hk
    have hins : ∀ x, x ∈ s.mCanceledIds.insert id ↔ x = id ∨ x ∈ s.mCanceledIds :=
      fun x => List.mem_insert_iff
    unfold OrderFilledMessageHandler
    rcases hcase with hb | ⟨hb, ha⟩
    · rw [if_pos hb]
      dsimp only
      rw [if_pos hk]
      exact ⟨rfl, (hins id).2 (Or.inl rfl), hins⟩
    · rw [if_neg hb, if_pos ha]
      dsimp only
      rw [if_pos hk]
      exact ⟨rfl, (hins id).2 (Or.inl rfl), hins⟩
  · intro hk
    have hk2 : ¬ id ∉ s.mCanceledIds := fun h => h hk
    unfold OrderFilledMessageHandler
    rcases hcase with hb | ⟨hb, ha⟩
    · rw [if_pos hb]
      dsimp only
      rw [if_neg hk2]
      exact ⟨rfl, rfl⟩
    · rw [if_neg hb, if_pos ha]
      dsimp only
      rw [if_neg hk2]
      exact ⟨rfl, rfl⟩

/-- C14, at a concrete input: a first fill on the resting bid 1 sends one
cancel for id 1; a second fill on it sends none. -/
theorem fill_pulls_order_witness :
    cancelIds (OrderFilledMessageHandler demoBounds restingState 1 9800 4).2 = [1]
    ∧ cancelIds (OrderFilledMessageHandler demoBounds
        (OrderFilledMessageHandler demoBounds restingState 1 9800 4).1 1 9800 6).2 = []
    ∧ 1 ∈ mapKeys (OrderFilledMessageHandler demoBounds
        (OrderFilledMessageHandler demoBounds restingState 1 9800 4).1 1 9800 6).1.mBids := by
  have h1 := fill_pulls_order demoBounds restingState 1 9800 4 (Or.inl (by decide))
  have h2 := fill_pulls_order demoBounds
    (OrderFilledMessageHandler demoBounds restingState 1 9800 4).1 1 9800 6
    (Or.inl (by decide))
  refine ⟨(h1.1 (by decide)).1, (h2.2.1 (by decide)).1, ?_⟩
  rw [h2.2.2.1]
  decide

/-! ## Book updates: when a quote is placed -/

theorem createBid_frame (s : State) :
    (createBid s).1.mAsks = s.mAsks ∧ (createBid s).1.mPosition = s.mPosition
      ∧ (createBid s).1.mLastAskPrices = s.mLastAskPrices
      ∧ (createBid s).1.mLastBidPrices = s.mLastBidPrices
      ∧ inserts Side.SELL (createBid s).2 = [] := by
  rcases createBid_cases s with h | ⟨p, _, _, h⟩ <;> rw [h] <;>
    exact ⟨rfl, rfl, rfl, rfl, rfl⟩

theorem createAsk_frame (s : State) :
    (createAsk s).1.mBids = s.mBids ∧ (createAsk s).1.mPosition = s.mPosition
      ∧ (createAsk s).1.mLastAskPrices = s.mLastAskPrices
      ∧ (createAsk s).1.mLastBidPrices = s.mLastBidPrices
      ∧ inserts Side.BUY (createAsk s).2 = [] := by
  rcases createAsk_cases s with h | ⟨p, _, _, h⟩ <;> rw [h] <;>
    exact ⟨rfl, rfl, rfl, rfl, rfl⟩

theorem inserts_sell_book (s : State) (inst : Instrument) (seq : Nat)
    (ap av bp bv : Nat → Nat) :
    inserts Side.SELL (OrderBookMessageHandler s inst seq ap av bp bv).2
      = inserts Side.SELL
          (createAsk (createBid (cancelSweep (storePrices s inst ap bp)).1).1).2 := by
  unfold OrderBookMessageHandler
  simp only [inserts_append, inserts_cancelSweep, (createBid_frame _).2.2.2.2, List.nil_append]

/-- C13. In a book update a BUY insert is sent only if the state before the
message has fewer than two bids resting and a position below 70, and a SELL
insert only if it has fewer than two asks resting and a position above -70. So
with a position of 70 or more no bid is placed, with a position of -70 or less
no ask is placed, and a book update sends at most one BUY insert and at most
one SELL insert. -/
theorem quotes_are_gated (s : State) (inst : Instrument) (seq : Nat)
    (ap av bp bv : Nat → Nat) :
    (inserts Side.BUY (OrderBookMessageHandler s inst seq ap av bp bv).2 ≠ [] →
        s.mBids.length < 2 ∧ s.mPosition < 70)
    ∧ (inserts Side.SELL (OrderBookMessageHandler s inst seq ap av bp bv).2 ≠ [] →
        s.mAsks.length < 2 ∧ s.mPosition > -70)
    ∧ (s.mPosition ≥ 70 →
        inserts Side.BUY (OrderBookMessageHandler s inst seq ap av bp bv).2 = [])
    ∧ (s.mPosition ≤ -70 →
        inserts Side.SELL (OrderBookMessageHandler s inst seq ap av bp bv).2 = [])
    ∧ (inserts Side.BUY (OrderBookMessageHandler s inst seq ap av bp bv).2).length ≤ 1
    ∧ (inserts Side.SELL (OrderBookMessageHandler s inst seq ap av bp bv).2).length ≤ 1 := by
  rw [inserts_buy_book, inserts_sell_book]
  have hbuy : inserts Side.BUY (createBid (cancelSweep (storePrices s inst ap bp)).1).2 = []
      ∨ ((inserts Side.BUY (createBid (cancelSweep (storePrices s inst ap bp)).1).2).length = 1
          ∧ s.mBids.length < 2 ∧ s.mPosition < 70) := by
    rcases createBid_cases (cancelSweep (storePrices s inst ap bp)).1 with h | ⟨p, h1, h2, h⟩
    · rw [h]
      exact Or.inl rfl
    · rw [h]
      exact Or.inr ⟨rfl, h1, h2⟩
  have hsell : inserts Side.SELL
        (createAsk (createBid (cancelSweep (storePrices s inst ap bp)).1).1).2 = []
      ∨ ((inserts Side.SELL
            (createAsk (createBid (cancelSweep (storePrices s inst ap bp)).1).1).2).length = 1
          ∧ s.mAsks.length < 2 ∧ s.mPosition > -70) := by
    have hf := createBid_frame (cancelSweep (storePrices s inst ap bp)).1
    have e1 : (createBid (cancelSweep (storePrices s inst ap bp)).1).1.mAsks = s.mAsks :=
      hf.1
    have e2 : (createBid (cancelSweep (storePrices s inst ap bp)).1).1.mPosition
        = s.mPosition := hf.2.1
    rcases createAsk_cases (createBid (cancelSweep (storePrices s inst ap bp)).1).1
      with h | ⟨p, h1, h2, h⟩
    · rw [h]
      exact Or.inl rfl
    · rw [h]
      rw [e1] at h1
      rw [e2] at h2
      exact Or.inr ⟨rfl, h1, h2⟩
  refine ⟨?_, ?_, ?_, ?_, ?_, ?_⟩
  · intro hne
    rcases hbuy with h | ⟨_, h1, h2⟩
    · exact absurd h hne
    · exact ⟨h1, h2⟩
  · intro hne
    rcases hsell with h | ⟨_, h1, h2⟩
    · exact absurd h hne
    · exact ⟨h1, h2⟩
  · intro hp
    rcases hbuy with h | ⟨_, _, h2⟩
    · exact h
    · omega
  · intro hp
    rcases hsell with h | ⟨_, _, h2⟩
    · exact h
    · omega
  · rcases hbuy with h | ⟨h, _, _⟩
    · rw [h]
      simp
    · omega
  · rcases hsell with h | ⟨h, _, _⟩
    · rw [h]
      simp
    · omega

/-- C13, at a concrete input: the spec scenario sends a BUY insert, and its
state has fewer than two bids resting and a position below 70. -/
theorem quotes_are_gated_witness :
    flatState.mBids.length < 2 ∧ flatState.mPosition < 70 :=
  (quotes_are_gated flatState Instrument.ETF 1
    (book2 9950 10000) (book2 5 5) (book2 9900 9800) (book2 5 5)).1 (by decide)

/-! ## Cancelling a resting ask -/

/-- C11, refuted as stated. An ask rests at 10400; after the update the future
best ask is 10000, below 10400 - 200, the ETF second-best ask is 10300 and
the ETF second-best bid is 10000, not above 10400. The rule of the claim
gives no cancel, yet the update cancels the ask, because the ETF second-best
ask is nonzero and below 10400. -/
theorem ask_cancel_second_bid_counterexample :
    (2, 10400) ∈ saggedState.mAsks ∧ 2 ∉ saggedState.mCanceledIds
    ∧ ¬ (2 ∈ cancelIds (OrderBookMessageHandler saggedState Instrument.FUTURE 1
            (book2 10000 10100) (book2 5 5) (book2 9900 9800) (book2 5 5)).2
          ↔ ((storePrices saggedState Instrument.FUTURE (book2 10000 10100)
                (book2 9900 9800)).futureAsk 0 ≥ sub64 10400 200
              ∨ ((storePrices saggedState Instrument.FUTURE (book2 10000 10100)
                    (book2 9900 9800)).etfAsk 1 ≠ 0
                  ∧ (storePrices saggedState Instrument.FUTURE (book2 10000 10100)
                    (book2 9900 9800)).etfBid 1 > 10400))) := by
  decide

/-- C11, amended. For a resting ask with price `p` whose id is not yet
cancelled, the loop over the asks sends a cancel for the id exactly when the
future best ask of the new snapshot is at or above the unsigned 64-bit
difference `p - 200`, or the ETF second-best ask is nonzero and below `p`; and
when the id is not also a key of `mBids`, the whole book update sends a cancel
for it exactly then. -/
theorem ask_cancel_rule (s : State) (inst : Instrument) (seq : Nat)
    (ap av bp bv : Nat → Nat) (id p : Nat)
    (hm : (id, p) ∈ s.mAsks) (huniq : ∀ q, (id, q) ∈ s.mAsks → q = p)
    (hc : id ∉ s.mCanceledIds) :
    (∀ c : List Nat, id ∉ c →
        (id ∈ cancelIds (cancelAsks (storePrices s inst ap bp).mLastAskPrices s.mAsks c).2
          ↔ ((storePrices s inst ap bp).futureAsk 0 ≥ sub64 p 200
              ∨ ((storePrices s inst ap bp).etfAsk 1 < p
                  ∧ (storePrices s inst ap bp).etfAsk 1 ≠ 0))))
    ∧ (id ∉ mapKeys s.mBids →
        (id ∈ cancelIds (OrderBookMessageHandler s inst seq ap av bp bv).2
          ↔ ((storePrices s inst ap bp).futureAsk 0 ≥ sub64 p 200
              ∨ ((storePrices s inst ap bp).etfAsk 1 < p
                  ∧ (storePrices s inst ap bp).etfAsk 1 ≠ 0)))) := by
  have hB : (storePrices s inst ap bp).mBids = s.mBids := rfl
  have hA : (storePrices s inst ap bp).mAsks = s.mAsks := rfl
  have hC : (storePrices s inst ap bp).mCanceledIds = s.mCanceledIds := rfl
  generalize hs1 : storePrices s inst ap bp = s1 at *
  have htest : askTest s1.mLastAskPrices p = true
      ↔ (s1.futureAsk 0 ≥ sub64 p 200 ∨ (s1.etfAsk 1 < p ∧ s1.etfAsk 1 ≠ 0)) := by
    simp only [askTest, MIN_PROFITABILITY, TICK_SIZE_IN_CENTS, Bool.or_eq_true,
      Bool.and_eq_true, decide_eq_true_eq, State.etfAsk, State.futureAsk, Nat.reduceMul]
  have hloop : ∀ c : List Nat, id ∉ c →
      (id ∈ cancelIds (sweepLoop (askTest s1.mLastAskPrices) s.mAsks c).2
        ↔ (s1.futureAsk 0 ≥ sub64 p 200 ∨ (s1.etfAsk 1 < p ∧ s1.etfAsk 1 ≠ 0))) := by
    intro c hcc
    constructor
    · intro h
      obtain ⟨_, _, q, hq, ht⟩ := sweepLoop_out _ _ _ id h
      rw [huniq q hq] at ht
      exact htest.1 ht
    · intro h
      exact sweepLoop_hit _ _ _ id p hm (htest.2 h) hcc
  constructor
  · intro c hcc
    rw [cancelAsks_eq_sweepLoop]
    exact hloop c hcc
  · intro hnb
    rw [(book_cancel s inst seq ap av bp bv).1, hs1, cancelIds_cancelSweep, List.mem_append,
      hB, hA, hC]
    have hnot : id ∉ cancelIds (sweepLoop (bidTest s1.mLastBidPrices) s.mBids
        s.mCanceledIds).2 := by
      intro h
      obtain ⟨_, _, q, hq, _⟩ := sweepLoop_out _ _ _ id h
      exact hnb ((mem_mapKeys_iff _ _).2 ⟨q, hq⟩)
    have hnc : id ∉ (sweepLoop (bidTest s1.mLastBidPrices) s.mBids s.mCanceledIds).1 := by
      intro h
      rcases sweepLoop_result _ _ _ id h with h | h
      · exact hc h
      · exact hnot h
    constructor
    · rintro (h | h)
      · exact absurd h hnot
      · exact (hloop _ hnc).1 h
    · exact fun h => Or.inr ((hloop _ hnc).2 h)

/-- C11 amended, at a concrete input: the ask resting at 10400 is cancelled
when the ETF second-best ask is 10300 and the future best ask is 10000. -/
theorem ask_cancel_rule_witness :
    2 ∈ cancelIds (OrderBookMessageHandler saggedState Instrument.FUTURE 1
        (book2 10000 10100) (book2 5 5) (book2 9900 9800) (book2 5 5)).2 :=
  ((ask_cancel_rule saggedState Instrument.FUTURE 1
    (book2 10000 10100) (book2 5 5) (book2 9900 9800) (book2 5 5) 2 10400
    (by decide) (by intro q hq; simpa [saggedState] using hq) (by decide)).2
    (by decide)).2 (by decide)

/-! ## Quoting an ask -/

/-- C12, the code at a failing input. Nothing rests, the position is 0, the
future best ask is 10200 and the ETF update brings a best ask of 10500 and a
best bid of 10300, so the conditions of the ask arbitrage entry hold. The
mirror image of the bid calls for a SELL at 10500 - 100 = 10400; the update
sends one SELL insert at 10500 + 100 = 10600 and records that price. -/
theorem ask_arbitrage_entry_price :
    richState.mAsks.length < 2 ∧ richState.mPosition > -70
    ∧ (storePrices richState Instrument.ETF (book2 10500 10600) (book2 10300 10200)).futureAsk 0
        + 200
      < (storePrices richState Instrument.ETF (book2 10500 10600) (book2 10300 10200)).etfAsk 0
    ∧ (storePrices richState Instrument.ETF (book2 10500 10600) (book2 10300 10200)).etfAsk 0
        > 200
    ∧ inserts Side.SELL (OrderBookMessageHandler richState Instrument.ETF 1
        (book2 10500 10600) (book2 5 5) (book2 10300 10200) (book2 5 5)).2
      = [Command.SendInsertOrder 1 Side.SELL 10600 10 Lifespan.GOOD_FOR_DAY]
    ∧ mapFind (OrderBookMessageHandler richState Instrument.ETF 1
        (book2 10500 10600) (book2 5 5) (book2 10300 10200) (book2 5 5)).1.mAsks 1
      = some 10600
    ∧ specAskPrice 10500 10300 = 10400 := by
  decide

/-! ## Runs: the ids of inserts and hedges -/

theorem usedIds_append (x y : List Command) : usedIds (x ++ y) = usedIds x ++ usedIds y := by
  induction x with
  | nil => rfl
  | cons c rest ih =>
    cases c <;> simp [usedIds, ih]

theorem usedIds_map_cancel (l : List Nat) : usedIds (l.map Command.SendCancelOrder) = [] := by
  induction l with
  | nil => rfl
  | cons a rest ih => simpa [usedIds] using ih

theorem usedIds_cancelSweep (s : State) : usedIds (cancelSweep s).2 = [] := by
  rw [cancelSweep_cmds, usedIds_map_cancel]

theorem createBid_ids (s : State) (hw : s.mNextMessageId + idsUsed (createBid s).2 < U64) :
    usedIds (createBid s).2 = List.range' (s.mNextMessageId + 1) (idsUsed (createBid s).2)
      ∧ (createBid s).1.mNextMessageId = s.mNextMessageId + idsUsed (createBid s).2 := by
  rcases createBid_cases s with he | ⟨p, _, _, he⟩
  · rw [he]
    exact ⟨rfl, rfl⟩
  · rw [he] at hw ⊢
    simp only [idsUsed] at hw ⊢
    rw [add64_one _ (by omega)]
    exact ⟨rfl, rfl⟩

theorem createAsk_ids (s : State) (hw : s.mNextMessageId + idsUsed (createAsk s).2 < U64) :
    usedIds (createAsk s).2 = List.range' (s.mNextMessageId + 1) (idsUsed (createAsk s).2)
      ∧ (createAsk s).1.mNextMessageId = s.mNextMessageId + idsUsed (createAsk s).2 := by
  rcases createAsk_cases s with he | ⟨p, _, _, he⟩
  · rw [he]
    exact ⟨rfl, rfl⟩
  · rw [he] at hw ⊢
    simp only [idsUsed] at hw ⊢
    rw [add64_one _ (by omega)]
    exact ⟨rfl, rfl⟩

theorem fill_ids (pb : PriceBounds) (s : State) (id price V : Nat)
    (hw : s.mNextMessageId + idsUsed (OrderFilledMessageHandler pb s id price V).2 < U64) :
    usedIds (OrderFilledMessageHandler pb s id price V).2
        = List.range' (s.mNextMessageId + 1)
            (idsUsed (OrderFilledMessageHandler pb s id price V).2)
      ∧ (OrderFilledMessageHandler pb s id price V).1.mNextMessageId
        = s.mNextMessageId + idsUsed (OrderFilledMessageHandler pb s id price V).2 := by
  unfold OrderFilledMessageHandler at hw ⊢
  by_cases hb : mapCount s.mBids id ≠ 0
  · rw [if_pos hb] at hw ⊢
    dsimp only at hw ⊢
    by_cases hk : id ∉ s.mCanceledIds
    · rw [if_pos hk] at hw ⊢
      simp only [idsUsed] at hw ⊢
      rw [add64_one _ (by omega)]
      exact ⟨rfl, rfl⟩
    · rw [if_neg hk] at hw ⊢
      simp only [idsUsed] at hw ⊢
      rw [add64_one _ (by omega)]
      exact ⟨rfl, rfl⟩
  · rw [if_neg hb] at hw ⊢
    by_cases ha : mapCount s.mAsks id ≠ 0
    · rw [if_pos ha] at hw ⊢
      dsimp only at hw ⊢
      by_cases hk : id ∉ s.mCanceledIds
      · rw [if_pos hk] at hw ⊢
        simp only [idsUsed] at hw ⊢
        rw [add64_one _ (by omega)]
        exact ⟨rfl, rfl⟩
      · rw [if_neg hk] at hw ⊢
        simp only [idsUsed] at hw ⊢
        rw [add64_one _ (by omega)]
        exact ⟨rfl, rfl⟩
    · rw [if_neg ha]
      exact ⟨rfl, rfl⟩

/-- One message that does not wrap the id counter uses the ids that follow
the counter, in order, and advances the counter past them. -/
theorem step_ids (pb : PriceBounds) (s : State) (e : Event)
    (hw : s.mNextMessageId + idsUsed (step pb s e).2 < U64) :
    usedIds (step pb s e).2 = List.range' (s.mNextMessageId + 1) (idsUsed (step pb s e).2)
      ∧ (step pb s e).1.mNextMessageId = s.mNextMessageId + idsUsed (step pb s e).2 := by
  cases e with
  | orderBook i n ap av bp bv =>
    simp only [step, OrderBookMessageHandler, idsUsed_append, idsUsed_cancelSweep,
      usedIds_append, usedIds_cancelSweep, Nat.zero_add, List.nil_append] at hw ⊢
    have hn0 : (cancelSweep (storePrices s i ap bp)).1.mNextMessageId = s.mNextMessageId := rfl
    obtain ⟨hb, hnb⟩ := createBid_ids (cancelSweep (storePrices s i ap bp)).1
      (by rw [hn0]; omega)
    obtain ⟨ha, hna⟩ := createAsk_ids (createBid (cancelSweep (storePrices s i ap bp)).1).1
      (by rw [hnb, hn0]; omega)
    rw [hn0] at hb hnb
    rw [hnb] at ha hna
    refine ⟨?_, by rw [hna]; omega⟩
    rw [hb, ha]
    have := List.range'_append_1 (s.mNextMessageId + 1)
      (idsUsed (createBid (cancelSweep (storePrices s i ap bp)).1).2)
      (idsUsed (createAsk (createBid (cancelSweep (storePrices s i ap bp)).1).1).2)
    rw [← Nat.add_comm (idsUsed (createAsk _).2), ← this]
    congr 2
    omega
  | tradeTicks i n ap av bp bv => exact ⟨rfl, rfl⟩
  | orderStatus id f r fees =>
    simp only [step, orderStatus_cmds, idsUsed, usedIds, Nat.add_zero, List.range'_zero,
      true_and]
    unfold OrderStatusMessageHandler
    split
    · rfl
    · split <;> rfl
  | orderFilled id p v => exact fill_ids pb s id p v hw
  | hedgeFilled id p v => exact ⟨rfl, rfl⟩
  | error id msg =>
    simp only [step, error_cmds, idsUsed, usedIds, Nat.add_zero, List.range'_zero, true_and]
    unfold ErrorMessageHandler OrderStatusMessageHandler
    split
    · split
      · rfl
      · split <;> rfl
    · rfl

theorem run_ids (pb : PriceBounds) (s : State) (evs : List Event)
    (hw : noWrap pb s evs = true) :
    usedIds (run pb s evs).2 = List.range' (s.mNextMessageId + 1) (idsUsed (run pb s evs).2)
      ∧ (run pb s evs).1.mNextMessageId = s.mNextMessageId + idsUsed (run pb s evs).2 := by
  induction evs generalizing s with
  | nil => exact ⟨rfl, rfl⟩
  | cons e es ih =>
    simp only [noWrap, Bool.and_eq_true, decide_eq_true_eq] at hw
    obtain ⟨h1, hn1⟩ := step_ids pb s e hw.1
    obtain ⟨h2, hn2⟩ := ih (step pb s e).1 hw.2
    simp only [run, usedIds_append, idsUsed_append]
    rw [hn1] at h2 hn2
    refine ⟨?_, by rw [hn2]; omega⟩
    rw [h1, h2]
    have := List.range'_append_1 (s.mNextMessageId + 1) (idsUsed (step pb s e).2)
      (idsUsed (run pb (step pb s e).1 es).2)
    rw [← Nat.add_comm (idsUsed (run pb (step pb s e).1 es).2), ← this]
    congr 2
    omega

/-- C15. For every finite sequence of messages handled from the initial state
during which the 64-bit id counter does not wrap, the client order ids of the
insert orders and hedge orders sent, in the order sent, are 1, 2, 3 and so
on: strictly increasing, each at least 1, and pairwise distinct. -/
theorem ids_strictly_increase (pb : PriceBounds) (asks bids : LastPrices) (evs : List Event)
    (hw : noWrap pb (initialState asks bids) evs = true) :
    (usedIds (run pb (initialState asks bids) evs).2).Pairwise (fun a b => a < b)
      ∧ (∀ x ∈ usedIds (run pb (initialState asks bids) evs).2, 1 ≤ x)
      ∧ (usedIds (run pb (initialState asks bids) evs).2).Nodup
      ∧ usedIds (run pb (initialState asks bids) evs).2
          = List.range' 1 (idsUsed (run pb (initialState asks bids) evs).2) := by
  have h := (run_ids pb (initialState asks bids) evs hw).1
  have h0 : (initialState asks bids).mNextMessageId + 1 = 1 := rfl
  rw [h0] at h
  rw [h]
  refine ⟨List.pairwise_lt_range' 1 _, ?_, List.nodup_range' 1 _, rfl⟩
  intro x hx
  exact (List.mem_range'_1.1 hx).1

/-! ## Runs: cancelled ids are tracked until their terminal event -/

theorem cancelSweep_result (s : State) (x : Nat) (hx : x ∈ (cancelSweep s).1.mCanceledIds) :
    x ∈ s.mCanceledIds ∨ x ∈ cancelIds (cancelSweep s).2 := by
  rw [cancelSweep_mCanceledIds] at hx
  rw [cancelIds_cancelSweep, List.mem_append]
  rcases sweepLoop_result _ _ _ x hx with h | h
  · rcases sweepLoop_result _ _ _ x h with h | h
    · exact Or.inl h
    · exact Or.inr (Or.inl h)
  · exact Or.inr (Or.inr h)

/-- A book update removes no key from either order table. -/
theorem book_tables_grow (s : State) (inst : Instrument) (seq : Nat)
    (ap av bp bv : Nat → Nat) (x : Nat) (h : Tracked s x) :
    Tracked (OrderBookMessageHandler s inst seq ap av bp bv).1 x := by
  unfold OrderBookMessageHandler
  simp only
  have h0 : Tracked (cancelSweep (storePrices s inst ap bp)).1 x := h
  have h1 : Tracked (createBid (cancelSweep (storePrices s inst ap bp)).1).1 x := by
    rcases createBid_cases (cancelSweep (storePrices s inst ap bp)).1 with he | ⟨p, _, _, he⟩
    · rw [he]
      exact h0
    · rw [he]
      rcases h0 with hb | ha
      · exact Or.inl ((mem_mapKeys_mapAssign _ _ _ _).2 (Or.inr hb))
      · exact Or.inr ha
  rcases createAsk_cases (createBid (cancelSweep (storePrices s inst ap bp)).1).1
    with he | ⟨p, _, _, he⟩
  · rw [he]
    exact h1
  · rw [he]
    rcases h1 with hb | ha
    · exact Or.inl hb
    · exact Or.inr ((mem_mapKeys_mapAssign _ _ _ _).2 (Or.inr ha))

theorem orderStatus_tracked (s : State) (id fv rv : Nat) (fees : Int) (x : Nat)
    (h : Tracked s x) :
    Tracked (OrderStatusMessageHandler s id fv rv fees).1 x ∨ (id = x ∧ rv = 0) := by
  unfold OrderStatusMessageHandler
  by_cases hr : rv ≠ 0
  · rw [if_pos hr]
    exact Or.inl h
  · rw [if_neg hr]
    by_cases hx : id = x
    · exact Or.inr ⟨hx, by omega⟩
    · left
      have hne : x ≠ id := fun e => hx e.symm
      split
      · rcases h with hb | ha
        · exact Or.inl ((mem_mapKeys_mapErase _ _ _).2 ⟨hb, hne⟩)
        · exact Or.inr ha
      · rcases h with hb | ha
        · exact Or.inl hb
        · exact Or.inr ((mem_mapKeys_mapErase _ _ _).2 ⟨ha, hne⟩)

/-- One message adds to the cancelled set only ids that are keys of an order
table before the message, and they still are after it. -/
theorem step_cancelled_new (pb : PriceBounds) (s : State) (e : Event) (x : Nat)
    (hx : x ∈ (step pb s e).1.mCanceledIds) (hn : x ∉ s.mCanceledIds) :
    Tracked s x ∧ Tracked (step pb s e).1 x := by
  cases e with
  | orderBook i n ap av bp bv =>
    simp only [step] at hx ⊢
    rw [(book_cancel s i n ap av bp bv).2] at hx
    have ht : Tracked s x := by
      rcases cancelSweep_result _ x hx with h | h
      · exact absurd h hn
      · exact (cancelSweep_out _ x h).2.2
    exact ⟨ht, book_tables_grow s i n ap av bp bv x ht⟩
  | tradeTicks i n ap av bp bv => exact absurd hx hn
  | orderStatus id f r fees =>
    simp only [step, orderStatus_mCanceledIds] at hx
    exact absurd hx hn
  | orderFilled id p v =>
    simp only [step] at hx ⊢
    rcases fill_cancel pb s id p v with ⟨_, h2⟩ | ⟨_, h2, _, h4⟩
    · rw [h2] at hx
      exact absurd hx hn
    · rw [h2] at hx
      rcases List.mem_insert_iff.1 hx with h | h
      · subst h
        refine ⟨h4, ?_⟩
        unfold Tracked
        rw [(fill_tables pb s x p v).1, (fill_tables pb s x p v).2]
        exact h4
      · exact absurd h hn
  | hedgeFilled id p v => exact absurd hx hn
  | error id msg =>
    simp only [step, error_mCanceledIds] at hx
    exact absurd hx hn

/-- One message removes an id from the order tables only if it is a terminal
event for that id. -/
theorem step_tracked_kept (pb : PriceBounds) (s : State) (e : Event) (x : Nat)
    (h : Tracked s x) : Tracked (step pb s e).1 x ∨ terminalFor x e := by
  cases e with
  | orderBook i n ap av bp bv => exact Or.inl (book_tables_grow s i n ap av bp bv x h)
  | tradeTicks i n ap av bp bv => exact Or.inl h
  | orderStatus id f r fees =>
    simp only [step, terminalFor]
    exact orderStatus_tracked s id f r fees x h
  | orderFilled id p v =>
    left
    simp only [step]
    unfold Tracked
    rw [(fill_tables pb s id p v).1, (fill_tables pb s id p v).2]
    exact h
  | hedgeFilled id p v => exact Or.inl h
  | error id msg =>
    simp only [step, terminalFor]
    unfold ErrorMessageHandler
    split
    · rcases orderStatus_tracked s id 0 0 0 x h with h1 | h1
      · exact Or.inl h1
      · exact Or.inr h1.1
    · exact Or.inl h

theorem run_cancelled_tracked (pb : PriceBounds) (s : State) (evs : List Event)
    (Q : Nat → Prop) (h0 : ∀ x ∈ s.mCanceledIds, Tracked s x ∨ Q x) :
    ∀ x ∈ (run pb s evs).1.mCanceledIds,
      Tracked (run pb s evs).1 x ∨ Q x ∨ ∃ e ∈ evs, terminalFor x e := by
  induction evs generalizing s Q with
  | nil =>
    intro x hx
    rcases h0 x hx with h | h
    · exact Or.inl h
    · exact Or.inr (Or.inl h)
  | cons e es ih =>
    intro x hx
    have h1 : ∀ y ∈ (step pb s e).1.mCanceledIds,
        Tracked (step pb s e).1 y ∨ (Q y ∨ terminalFor y e) := by
      intro y hy
      by_cases hys : y ∈ s.mCanceledIds
      · rcases h0 y hys with h | h
        · rcases step_tracked_kept pb s e y h with h' | h'
          · exact Or.inl h'
          · exact Or.inr (Or.inr h')
        · exact Or.inr (Or.inl h)
      · exact Or.inl (step_cancelled_new pb s e y hy hys).2
    rcases ih (step pb s e).1 (fun y => Q y ∨ terminalFor y e) h1 x hx with h | h | h
    · exact Or.inl h
    · rcases h with h | h
      · exact Or.inr (Or.inl h)
      · exact Or.inr (Or.inr ⟨e, List.mem_cons_self _ _, h⟩)
    · obtain ⟨e', he', ht⟩ := h
      exact Or.inr (Or.inr ⟨e', List.mem_cons_of_mem _ he', ht⟩)

/-- C16. After any finite sequence of messages handled from the initial
state, every id in the cancelled set is a key of `mBids` or `mAsks`, or the
sequence contains a terminal event for it: an order status with zero
remaining volume, or an error, carrying that id. And in any state, a handler
adds to the cancelled set only ids that are keys of an order table at that
moment. -/
theorem cancelled_are_tracked (pb : PriceBounds) (asks bids : LastPrices) (evs : List Event) :
    (∀ id ∈ (run pb (initialState asks bids) evs).1.mCanceledIds,
        Tracked (run pb (initialState asks bids) evs).1 id ∨ ∃ e ∈ evs, terminalFor id e)
    ∧ (∀ (s : State) (e : Event), ∀ x ∈ (step pb s e).1.mCanceledIds,
        x ∉ s.mCanceledIds → Tracked s x) := by
  constructor
  · intro id hid
    have h := run_cancelled_tracked pb (initialState asks bids) evs (fun _ => False)
      (by intro x hx; simp [initialState] at hx) id hid
    rcases h with h | h | h
    · exact Or.inl h
    · exact False.elim h
    · exact Or.inr h
  · intro s e x hx hn
    exact (step_cancelled_new pb s e x hx hn).1

/-- C15, at a concrete run: a quote followed by its fill uses ids 1 and 2. -/
theorem ids_strictly_increase_witness :
    usedIds (run demoBounds (initialState flatState.mLastAskPrices
        flatState.mLastBidPrices) fillSession).2 = [1, 2]
    ∧ (usedIds (run demoBounds (initialState flatState.mLastAskPrices
        flatState.mLastBidPrices) fillSession).2).Pairwise (fun a b => a < b) :=
  ⟨by decide, (ids_strictly_increase demoBounds flatState.mLastAskPrices
    flatState.mLastBidPrices fillSession (by decide)).1⟩

/-! ## Runs: the position is the net hedged volume -/

theorem hedgeNet_append (x y : List Command) : hedgeNet (x ++ y) = hedgeNet x + hedgeNet y := by
  induction x with
  | nil => simp [hedgeNet]
  | cons c rest ih =>
    cases c with
    | SendInsertOrder id sd p v l => simpa [hedgeNet] using ih
    | SendCancelOrder id => simpa [hedgeNet] using ih
    | SendHedgeOrder id sd p v =>
      cases sd
      · rw [List.cons_append]
        simp only [hedgeNet]
        rw [ih]
        omega
      · rw [List.cons_append]
        simp only [hedgeNet]
        rw [ih]
        omega

theorem hedgeNet_eq_volumes (x : List Command) :
    hedgeNet x = (hedgeVolume Side.SELL x : Int) - (hedgeVolume Side.BUY x : Int) := by
  induction x with
  | nil => simp [hedgeNet, hedgeVolume]
  | cons c rest ih =>
    cases c with
    | SendInsertOrder id sd p v l => simpa [hedgeNet, hedgeVolume] using ih
    | SendCancelOrder id => simpa [hedgeNet, hedgeVolume] using ih
    | SendHedgeOrder id sd p v =>
      cases sd <;> simp [hedgeNet, hedgeVolume, ih] <;> omega

theorem hedgeNet_map_cancel (l : List Nat) : hedgeNet (l.map Command.SendCancelOrder) = 0 := by
  induction l with
  | nil => rfl
  | cons a rest ih => simpa [hedgeNet] using ih

theorem book_position (s : State) (inst : Instrument) (seq : Nat) (ap av bp bv : Nat → Nat) :
    (OrderBookMessageHandler s inst seq ap av bp bv).1.mPosition = s.mPosition
      ∧ hedgeNet (OrderBookMessageHandler s inst seq ap av bp bv).2 = 0 := by
  unfold OrderBookMessageHandler
  simp only [hedgeNet_append]
  have hc : hedgeNet (cancelSweep (storePrices s inst ap bp)).2 = 0 := by
    rw [cancelSweep_cmds, hedgeNet_map_cancel]
  have hb : (createBid (cancelSweep (storePrices s inst ap bp)).1).1.mPosition = s.mPosition
      ∧ hedgeNet (createBid (cancelSweep (storePrices s inst ap bp)).1).2 = 0 := by
    rcases createBid_cases (cancelSweep (storePrices s inst ap bp)).1 with h | ⟨p, _, _, h⟩
      <;> rw [h] <;> exact ⟨rfl, rfl⟩
  have ha : (createAsk (createBid (cancelSweep (storePrices s inst ap bp)).1).1).1.mPosition
        = (createBid (cancelSweep (storePrices s inst ap bp)).1).1.mPosition
      ∧ hedgeNet (createAsk (createBid (cancelSweep (storePrices s inst ap bp)).1).1).2
        = 0 := by
    rcases createAsk_cases (createBid (cancelSweep (storePrices s inst ap bp)).1).1
      with h | ⟨p, _, _, h⟩ <;> rw [h] <;> exact ⟨rfl, rfl⟩
  rw [ha.1, hb.1, hc, hb.2, ha.2]
  exact ⟨rfl, rfl⟩

theorem orderStatus_position (s : State) (id fv rv : Nat) (fees : Int) :
    (OrderStatusMessageHandler s id fv rv fees).1.mPosition = s.mPosition := by
  unfold OrderStatusMessageHandler
  split
  · rfl
  · split <;> rfl

/-- A fill moves the position by the net volume of the hedge it sends, in
signed 64-bit arithmetic. -/
theorem fill_position (pb : PriceBounds) (s : State) (id price V : Nat) :
    (OrderFilledMessageHandler pb s id price V).1.mPosition
        = toI64 (s.mPosition + hedgeNet (OrderFilledMessageHandler pb s id price V).2)
      ∨ ((OrderFilledMessageHandler pb s id price V).1.mPosition = s.mPosition
          ∧ hedgeNet (OrderFilledMessageHandler pb s id price V).2 = 0) := by
  unfold OrderFilledMessageHandler
  by_cases hb : mapCount s.mBids id ≠ 0
  · rw [if_pos hb]
    dsimp only
    left
    split <;> simp [hedgeNet]
  · rw [if_neg hb]
    by_cases ha : mapCount s.mAsks id ≠ 0
    · rw [if_pos ha]
      dsimp only
      left
      split <;> simp [hedgeNet, sub_eq_add_neg]
    · rw [if_neg ha]
      exact Or.inr ⟨rfl, rfl⟩

/-- One message whose exact new position fits the signed 64-bit range moves
the position by exactly the net volume it hedges. -/
theorem step_position (pb : PriceBounds) (s : State) (e : Event)
    (h1 : -I64 ≤ s.mPosition + hedgeNet (step pb s e).2)
    (h2 : s.mPosition + hedgeNet (step pb s e).2 < I64) :
    (step pb s e).1.mPosition = s.mPosition + hedgeNet (step pb s e).2 := by
  cases e with
  | orderBook i n ap av bp bv =>
    simp only [step, (book_position s i n ap av bp bv).1, (book_position s i n ap av bp bv).2,
      add_zero]
  | tradeTicks i n ap av bp bv => simp [step, TradeTicksMessageHandler, hedgeNet]
  | orderStatus id f r fees =>
    simp only [step, orderStatus_position, orderStatus_cmds, hedgeNet, add_zero]
  | orderFilled id p v =>
    simp only [step] at h1 h2 ⊢
    rcases fill_position pb s id p v with h | ⟨h, h0⟩
    · rw [h, toI64_of_mem _ h1 h2]
    · rw [h, h0, add_zero]
  | hedgeFilled id p v => simp [step, HedgeFilledMessageHandler, hedgeNet]
  | error id msg =>
    simp only [step, error_cmds, hedgeNet, add_zero]
    unfold ErrorMessageHandler
    split
    · exact orderStatus_position s id 0 0 0
    · rfl

theorem run_position (pb : PriceBounds) (s : State) (evs : List Event)
    (h : positionFits pb s evs = true) :
    (run pb s evs).1.mPosition = s.mPosition + hedgeNet (run pb s evs).2 := by
  induction evs generalizing s with
  | nil => simp [run, hedgeNet]
  | cons e es ih =>
    simp only [positionFits, Bool.and_eq_true, decide_eq_true_eq] at h
    have h1 := step_position pb s e h.1.1 h.1.2
    have h2 := ih (step pb s e).1 h.2
    simp only [run, hedgeNet_append]
    rw [h2, h1]
    omega

/-- C17. In every state reached from the initial state by a finite sequence
of messages during which the position, computed over exact integers, stays
in the signed 64-bit range, the position equals the total volume of the hedge
SELL orders sent so far minus the total volume of the hedge BUY orders sent
so far. -/
theorem position_is_net_hedge (pb : PriceBounds) (asks bids : LastPrices) (evs : List Event)
    (h : positionFits pb (initialState asks bids) evs = true) :
    (run pb (initialState asks bids) evs).1.mPosition
      = (hedgeVolume Side.SELL (run pb (initialState asks bids) evs).2 : Int)
        - (hedgeVolume Side.BUY (run pb (initialState asks bids) evs).2 : Int) := by
  rw [← hedgeNet_eq_volumes, run_position pb _ evs h]
  simp [initialState]

/-- C17, at a concrete run: after a bid is filled for 10, the position is 10,
the hedge SELL volume is 10 and the hedge BUY volume is 0. -/
theorem position_is_net_hedge_witness :
    (run demoBounds (initialState flatState.mLastAskPrices
        flatState.mLastBidPrices) fillSession).1.mPosition = 10
    ∧ hedgeVolume Side.SELL (run demoBounds (initialState flatState.mLastAskPrices
        flatState.mLastBidPrices) fillSession).2 = 10
    ∧ hedgeVolume Side.BUY (run demoBounds (initialState flatState.mLastAskPrices
        flatState.mLastBidPrices) fillSession).2 = 0 := by
  have h := position_is_net_hedge demoBounds flatState.mLastAskPrices
    flatState.mLastBidPrices fillSession (by decide)
  have hs : hedgeVolume Side.SELL (run demoBounds (initialState flatState.mLastAskPrices
      flatState.mLastBidPrices) fillSession).2 = 10 := by decide
  have hb : hedgeVolume Side.BUY (run demoBounds (initialState flatState.mLastAskPrices
      flatState.mLastBidPrices) fillSession).2 = 0 := by decide
  rw [hs, hb] at h
  exact ⟨by rw [h]; rfl, hs, hb⟩

/-! ## Runs: resting ask prices stay clear of the wrap -/

theorem goodPrice_iff (x : Nat) : goodPrice x = true ↔ x % 100 = 0 ∧ x ≤ 4294967296 := by
  simp [goodPrice]

theorem goodTable_get (t : LastPrices) (h : goodTable t = true) (i j : Nat) :
    goodPrice (t.get i j) = true := by
  simp only [goodTable, Bool.and_eq_true] at h
  unfold LastPrices.get
  split <;> split <;> simp [h]

theorem goodTable_set (t : LastPrices) (h : goodTable t = true) (i j v : Nat)
    (hv : goodPrice v = true) : goodTable (t.set i j v) = true := by
  simp only [goodTable, Bool.and_eq_true] at h
  unfold LastPrices.set
  split <;> split <;> simp [goodTable, h, hv]

theorem mem_mapAssign (m : OrderMap) (k v : Nat) (e : Nat × Nat) (he : e ∈ mapAssign m k v) :
    e = (k, v) ∨ e ∈ m := by
  induction m with
  | nil =>
    simp only [mapAssign, List.mem_singleton] at he
    exact Or.inl he
  | cons a rest ih =>
    unfold mapAssign at he
    split at he
    · rcases List.mem_cons.1 he with h | h
      · exact Or.inl h
      · exact Or.inr (List.mem_cons_of_mem _ h)
    · split at he
      · rcases List.mem_cons.1 he with h | h
        · exact Or.inl h
        · exact Or.inr h
      · rcases List.mem_cons.1 he with h | h
        · exact Or.inr (h ▸ List.mem_cons_self _ _)
        · rcases ih h with h' | h'
          · exact Or.inl h'
          · exact Or.inr (List.mem_cons_of_mem _ h')

/-- With good prices in the snapshot, an ask the quoting decision places is
priced at 200 or more, below `2 ^ 64`. -/
theorem createAsk_price (s : State) (ha : goodTable s.mLastAskPrices = true)
    (hb : goodTable s.mLastBidPrices = true) :
    createAsk s = (s, [])
    ∨ ∃ price, 200 ≤ price ∧ price < U64
        ∧ createAsk s
          = ({ s with mNextMessageId := add64 s.mNextMessageId 1,
                      mAsks := mapAssign s.mAsks (add64 s.mNextMessageId 1) price },
             [Command.SendInsertOrder (add64 s.mNextMessageId 1) Side.SELL price 10
               Lifespan.GOOD_FOR_DAY]) := by
  have g1 := (goodPrice_iff _).1 (goodTable_get _ ha ETF 0)
  have g2 := (goodPrice_iff _).1 (goodTable_get _ hb ETF 0)
  have g3 := (goodPrice_iff _).1 (goodTable_get _ hb FUTURE 0)
  have e1 : add64 (s.mLastAskPrices.get ETF 0) 100 = s.mLastAskPrices.get ETF 0 + 100 :=
    add64_of_lt _ _ (by unfold U64; omega)
  have e2 : add64 (s.mLastBidPrices.get FUTURE 0) 100 = s.mLastBidPrices.get FUTURE 0 + 100 :=
    add64_of_lt _ _ (by unfold U64; omega)
  unfold createAsk
  by_cases hc1 : s.mAsks.length < MAX_ORDERS ∧ s.mPosition > -POSITION_LIMIT
  · rw [if_pos hc1]
    by_cases hc2 : s.mLastAskPrices.get FUTURE 0 <
          sub64 (s.mLastAskPrices.get ETF 0) (MIN_PROFITABILITY * TICK_SIZE_IN_CENTS)
        ∧ s.mLastAskPrices.get ETF 0 > MIN_PROFITABILITY * TICK_SIZE_IN_CENTS
    · rw [if_pos hc2]
      right
      refine ⟨_, ?_, ?_, rfl⟩
      · simp only [MIN_PROFITABILITY, TICK_SIZE_IN_CENTS, Nat.reduceMul] at hc2 ⊢
        rw [e1]
        split <;> omega
      · simp only [TICK_SIZE_IN_CENTS, U64]
        rw [e1]
        split <;> omega
    · rw [if_neg hc2]
      by_cases hc3 : s.mPosition > LONG_UNWIND_LEVEL ∧ s.mLastBidPrices.get FUTURE 0 ≠ 0
      · rw [if_pos hc3]
        right
        refine ⟨_, ?_, ?_, rfl⟩
        · simp only [TICK_SIZE_IN_CENTS]
          rw [e2]
          omega
        · simp only [TICK_SIZE_IN_CENTS, U64]
          rw [e2]
          omega
      · rw [if_neg hc3]
        exact Or.inl rfl
  · rw [if_neg hc1]
    exact Or.inl rfl

theorem storePrices_good (s : State) (inst : Instrument) (ap bp : Nat → Nat)
    (ha : goodTable s.mLastAskPrices = true) (hb : goodTable s.mLastBidPrices = true)
    (h : goodPrice (ap 0) = true ∧ goodPrice (ap 1) = true
      ∧ goodPrice (bp 0) = true ∧ goodPrice (bp 1) = true) :
    goodTable (storePrices s inst ap bp).mLastAskPrices = true
      ∧ goodTable (storePrices s inst ap bp).mLastBidPrices = true := by
  unfold storePrices
  exact ⟨goodTable_set _ (goodTable_set _ ha _ _ _ h.1) _ _ _ h.2.1,
    goodTable_set _ (goodTable_set _ hb _ _ _ h.2.2.1) _ _ _ h.2.2.2⟩

theorem orderStatus_asks (s : State) (id fv rv : Nat) (fees : Int) :
    (∀ e ∈ (OrderStatusMessageHandler s id fv rv fees).1.mAsks, e ∈ s.mAsks)
      ∧ (OrderStatusMessageHandler s id fv rv fees).1.mLastAskPrices = s.mLastAskPrices
      ∧ (OrderStatusMessageHandler s id fv rv fees).1.mLastBidPrices = s.mLastBidPrices := by
  unfold OrderStatusMessageHandler
  split
  · exact ⟨fun e he => he, rfl, rfl⟩
  · split
    · exact ⟨fun e he => he, rfl, rfl⟩
    · exact ⟨fun e he => ((mem_mapErase_iff _ _ _).1 he).1, rfl, rfl⟩

theorem fill_prices (pb : PriceBounds) (s : State) (id price V : Nat) :
    (OrderFilledMessageHandler pb s id price V).1.mLastAskPrices = s.mLastAskPrices
      ∧ (OrderFilledMessageHandler pb s id price V).1.mLastBidPrices = s.mLastBidPrices := by
  unfold OrderFilledMessageHandler
  split
  · dsimp only
    split <;> exact ⟨rfl, rfl⟩
  · split
    · dsimp only
      split <;> exact ⟨rfl, rfl⟩
    · exact ⟨rfl, rfl⟩

/-- One message with good prices keeps the snapshot good and the resting ask
prices at 200 or more. -/
theorem step_asks_ok (pb : PriceBounds) (s : State) (e : Event)
    (ha : goodTable s.mLastAskPrices = true) (hb : goodTable s.mLastBidPrices = true)
    (hok : AskPricesOk s) (he : goodEvent e = true) :
    goodTable (step pb s e).1.mLastAskPrices = true
      ∧ goodTable (step pb s e).1.mLastBidPrices = true
      ∧ AskPricesOk (step pb s e).1 := by
  cases e with
  | orderBook i n ap av bp bv =>
    simp only [goodEvent, Bool.and_eq_true] at he
    obtain ⟨ga, gb⟩ := storePrices_good s i ap bp ha hb ⟨he.1.1.1, he.1.1.2, he.1.2, he.2⟩
    simp only [step, OrderBookMessageHandler]
    have hf := createBid_frame (cancelSweep (storePrices s i ap bp)).1
    have ga1 : goodTable (createBid (cancelSweep (storePrices s i ap bp)).1).1.mLastAskPrices
        = true := by
      rw [hf.2.2.1]
      exact ga
    have gb1 : goodTable (createBid (cancelSweep (storePrices s i ap bp)).1).1.mLastBidPrices
        = true := by
      rw [hf.2.2.2.1]
      exact gb
    have hok1 : AskPricesOk (createBid (cancelSweep (storePrices s i ap bp)).1).1 := by
      unfold AskPricesOk
      rw [hf.1]
      exact hok
    rcases createAsk_price _ ga1 gb1 with h | ⟨p, hp1, hp2, h⟩
    · rw [h]
      exact ⟨ga1, gb1, hok1⟩
    · rw [h]
      refine ⟨ga1, gb1, ?_⟩
      intro x hx
      rcases mem_mapAssign _ _ _ x hx with hx | hx
      · rw [hx]
        exact ⟨hp1, hp2⟩
      · exact hok1 x hx
  | tradeTicks i n ap av bp bv => exact ⟨ha, hb, hok⟩
  | orderStatus id f r fees =>
    simp only [step]
    obtain ⟨h1, h2, h3⟩ := orderStatus_asks s id f r fees
    rw [h2, h3]
    exact ⟨ha, hb, fun x hx => hok x (h1 x hx)⟩
  | orderFilled id p v =>
    simp only [step]
    rw [(fill_prices pb s id p v).1, (fill_prices pb s id p v).2]
    refine ⟨ha, hb, ?_⟩
    unfold AskPricesOk
    rw [(fill_tables pb s id p v).2]
    exact hok
  | hedgeFilled id p v => exact ⟨ha, hb, hok⟩
  | error id msg =>
    simp only [step]
    unfold ErrorMessageHandler
    split
    · obtain ⟨h1, h2, h3⟩ := orderStatus_asks s id 0 0 0
      rw [h2, h3]
      exact ⟨ha, hb, fun x hx => hok x (h1 x hx)⟩
    · exact ⟨ha, hb, hok⟩

theorem run_asks_ok (pb : PriceBounds) (s : State) (evs : List Event)
    (ha : goodTable s.mLastAskPrices = true) (hb : goodTable s.mLastBidPrices = true)
    (hok : AskPricesOk s) (he : ∀ e ∈ evs, goodEvent e = true) :
    AskPricesOk (run pb s evs).1 := by
  induction evs generalizing s with
  | nil => exact hok
  | cons e es ih =>
    obtain ⟨h1, h2, h3⟩ := step_asks_ok pb s e ha hb hok (he e (List.mem_cons_self _ _))
    exact ih (step pb s e).1 h1 h2 h3 (fun e' he' => he e' (List.mem_cons_of_mem _ he'))

/-- C20. When every price a book update delivers, at the two levels the
handler reads, is a multiple of 100 and at most `2 ^ 32`, and the snapshot of
the initial state holds such prices too (all zero, for one), then in every
state reached from the initial state every price `p` stored in `mAsks` is at
least 200: the unsigned 64-bit difference `p - 200` of the ask cancel loop
does not wrap, and its comparison with any future best ask agrees with the
exact comparison of that ask plus 200 with `p`. -/
theorem ask_margin_never_wraps (pb : PriceBounds) (asks bids : LastPrices)
    (evs : List Event) (ha : goodTable asks = true) (hb : goodTable bids = true)
    (he : ∀ e ∈ evs, goodEvent e = true) :
    ∀ k p, (k, p) ∈ (run pb (initialState asks bids) evs).1.mAsks →
      200 ≤ p ∧ sub64 p 200 + 200 = p
        ∧ ∀ futureAsk0 : Nat, (futureAsk0 ≥ sub64 p 200 ↔ futureAsk0 + 200 ≥ p) := by
  intro k p hkp
  have h0 : AskPricesOk (initialState asks bids) := by
    intro e hx
    simp [initialState] at hx
  have h := run_asks_ok pb (initialState asks bids) evs ha hb h0 he (k, p) hkp
  have hs : sub64 p 200 = p - 200 := by
    unfold sub64
    have h1 := h.1
    have h2 := h.2
    simp only [U64] at h1 h2 ⊢
    omega
  refine ⟨h.1, ?_, ?_⟩
  · rw [hs]
    have := h.1
    simp only at this
    omega
  · intro fa
    rw [hs]
    have := h.1
    simp only at this
    omega

/-- C20, at a concrete run: the ask placed at 10600 is priced above 200, and
its margin `10600 - 200` does not wrap. -/
theorem ask_margin_never_wraps_witness :
    (1, 10600) ∈ (run demoBounds (initialState noPrices noPrices) askSession).1.mAsks
    ∧ 200 ≤ 10600 ∧ sub64 10600 200 + 200 = 10600 := by
  have h := ask_margin_never_wraps demoBounds noPrices noPrices askSession (by decide)
    (by decide) (by decide) 1 10600 (by decide)
  exact ⟨by decide, h.1, h.2.1⟩

/-! ## Runs: splitting a run -/

theorem run_append (pb : PriceBounds) (s : State) (a b : List Event) :
    run pb s (a ++ b)
      = ((run pb (run pb s a).1 b).1, (run pb s a).2 ++ (run pb (run pb s a).1 b).2) := by
  induction a generalizing s with
  | nil => simp [run]
  | cons e es ih =>
    rw [List.cons_append]
    simp only [run]
    rw [ih]
    simp only [List.append_assoc]

theorem noWrap_append (pb : PriceBounds) (s : State) (a b : List Event) :
    noWrap pb s (a ++ b) = (noWrap pb s a && noWrap pb (run pb s a).1 b) := by
  induction a generalizing s with
  | nil => simp [noWrap, run]
  | cons e es ih =>
    rw [List.cons_append]
    simp only [noWrap, run]
    rw [ih]
    simp only [Bool.and_assoc]

/-! ## Runs: cancelled ids are old ids -/

theorem step_cancelledOld (pb : PriceBounds) (s : State) (e : Event)
    (hf : IdsFresh s) (hc : CancelledOld s)
    (hw : s.mNextMessageId + idsUsed (step pb s e).2 < U64) :
    CancelledOld (step pb s e).1 := by
  intro x hx
  have hn := (step_ids pb s e hw).2
  by_cases hxs : x ∈ s.mCanceledIds
  · have := hc x hxs
    omega
  · have ht := (step_cancelled_new pb s e x hx hxs).1
    have : x ≤ s.mNextMessageId := by
      rcases ht with h | h
      · exact hf.1 x h
      · exact hf.2.1 x h
    omega

theorem run_cancelledOld (pb : PriceBounds) (s : State) (evs : List Event)
    (hf : IdsFresh s) (hc : CancelledOld s) (hw : noWrap pb s evs = true) :
    IdsFresh (run pb s evs).1 ∧ CancelledOld (run pb s evs).1 := by
  induction evs generalizing s with
  | nil => exact ⟨hf, hc⟩
  | cons e es ih =>
    simp only [noWrap, Bool.and_eq_true, decide_eq_true_eq] at hw
    exact ih (step pb s e).1 (step_fresh pb s e hf hw.1).1
      (step_cancelledOld pb s e hf hc hw.1) hw.2

/-! ## Quoting a bid: the entry in 64-bit terms -/

theorem mem_mapAssign_self (m : OrderMap) (k v : Nat) : (k, v) ∈ mapAssign m k v := by
  induction m with
  | nil => simp [mapAssign]
  | cons e rest ih =>
    unfold mapAssign
    split
    · exact List.mem_cons_self _ _
    · split
      · exact List.mem_cons_self _ _
      · exact List.mem_cons_of_mem _ ih

/-- The arbitrage entry of the bid quoting decision, with the sums the source
computes: the bid goes one tick above the ETF best bid when the ETF best ask
is zero or not below that price. -/
theorem createBid_entry (s : State) (h1 : s.mBids.length < 2) (h2 : s.mPosition < 70)
    (h3 : s.mLastBidPrices.get FUTURE 0 > add64 (s.mLastBidPrices.get ETF 0) 200)
    (h4 : s.mLastBidPrices.get ETF 0 > 200)
    (h5 : s.mLastAskPrices.get ETF 0 = 0
      ∨ s.mLastAskPrices.get ETF 0 ≥ add64 (s.mLastBidPrices.get ETF 0) 100) :
    createBid s
      = ({ s with mNextMessageId := add64 s.mNextMessageId 1,
                  mBids := mapAssign s.mBids (add64 s.mNextMessageId 1)
                    (add64 (s.mLastBidPrices.get ETF 0) 100) },
         [Command.SendInsertOrder (add64 s.mNextMessageId 1) Side.BUY
           (add64 (s.mLastBidPrices.get ETF 0) 100) 10 Lifespan.GOOD_FOR_DAY]) := by
  have hc1 : s.mBids.length < MAX_ORDERS ∧ s.mPosition < POSITION_LIMIT := ⟨h1, h2⟩
  have hc2 : s.mLastBidPrices.get FUTURE 0
        > add64 (s.mLastBidPrices.get ETF 0) (MIN_PROFITABILITY * TICK_SIZE_IN_CENTS)
      ∧ s.mLastBidPrices.get ETF 0 > MIN_PROFITABILITY * TICK_SIZE_IN_CENTS := ⟨h3, h4⟩
  have hcap : ¬ (add64 (s.mLastBidPrices.get ETF 0) 100 > s.mLastAskPrices.get ETF 0
      ∧ s.mLastAskPrices.get ETF 0 ≠ 0) := by
    rintro ⟨ha, hb⟩
    rcases h5 with h | h
    · exact hb h
    · omega
  unfold createBid
  rw [if_pos hc1, if_pos hc2]
  simp only [TICK_SIZE_IN_CENTS, ORDER_VOLUME, if_neg hcap]

/-! ## Entry and hold thresholds of a bid -/

/-- In a state whose resting and cancelled ids are all at most the id
counter, a book update that meets the arbitrage entry with the future best bid
at most three ticks above the ETF best bid places a bid under a new id, and
the next book update that leaves the future best bid where it is cancels
that bid. -/
theorem entry_then_cancel (s : State) (hf : IdsFresh s) (hc : CancelledOld s)
    (i1 : Instrument) (n1 : Nat) (ap1 av1 bp1 bv1 : Nat → Nat)
    (i2 : Instrument) (n2 : Nat) (ap2 av2 bp2 bv2 : Nat → Nat) (b : Nat)
    (hw : s.mNextMessageId + idsUsed (OrderBookMessageHandler s i1 n1 ap1 av1 bp1 bv1).2 < U64)
    (hsize : s.mBids.length < 2) (hpos : s.mPosition < 70)
    (hb : (storePrices s i1 ap1 bp1).etfBid 0 = b) (hfloor : b > 200)
    (hlo : add64 b 200 < (storePrices s i1 ap1 bp1).futureBid 0)
    (hhi : (storePrices s i1 ap1 bp1).futureBid 0 ≤ add64 b 300)
    (hask : (storePrices s i1 ap1 bp1).etfAsk 0 = 0
      ∨ (storePrices s i1 ap1 bp1).etfAsk 0 ≥ add64 b 100)
    (hsame : (storePrices (OrderBookMessageHandler s i1 n1 ap1 av1 bp1 bv1).1
        i2 ap2 bp2).futureBid 0 = (storePrices s i1 ap1 bp1).futureBid 0) :
    inserts Side.BUY (OrderBookMessageHandler s i1 n1 ap1 av1 bp1 bv1).2
        = [Command.SendInsertOrder (s.mNextMessageId + 1) Side.BUY (add64 b 100) 10
            Lifespan.GOOD_FOR_DAY]
      ∧ (s.mNextMessageId + 1)
        ∈ cancelIds (OrderBookMessageHandler
            (OrderBookMessageHandler s i1 n1 ap1 av1 bp1 bv1).1 i2 n2 ap2 av2 bp2 bv2).2 := by
  simp only [State.etfBid, State.futureBid, State.etfAsk] at hb hlo hhi hask hsame
  have hentry := createBid_entry (cancelSweep (storePrices s i1 ap1 bp1)).1 hsize hpos
    (by rw [← hb] at hlo; exact hlo) (by rw [← hb] at hfloor; exact hfloor)
    (by rw [← hb] at hask; exact hask)
  have hn0 : (cancelSweep (storePrices s i1 ap1 bp1)).1.mNextMessageId = s.mNextMessageId := rfl
  have hB0 : (cancelSweep (storePrices s i1 ap1 bp1)).1.mBids = s.mBids := rfl
  have hP0 : (cancelSweep (storePrices s i1 ap1 bp1)).1.mLastBidPrices
      = (storePrices s i1 ap1 bp1).mLastBidPrices := rfl
  rw [hn0, hB0, hP0, hb] at hentry
  have hused : 1 ≤ idsUsed (OrderBookMessageHandler s i1 n1 ap1 av1 bp1 bv1).2 := by
    unfold OrderBookMessageHandler
    simp only [idsUsed_append, hentry, idsUsed]
    omega
  have hid : add64 s.mNextMessageId 1 = s.mNextMessageId + 1 := add64_one _ (by omega)
  rw [hid] at hentry
  have hins : inserts Side.BUY (OrderBookMessageHandler s i1 n1 ap1 av1 bp1 bv1).2
      = [Command.SendInsertOrder (s.mNextMessageId + 1) Side.BUY (add64 b 100) 10
          Lifespan.GOOD_FOR_DAY] := by
    rw [inserts_buy_book, hentry]
    rfl
  have hbids : (OrderBookMessageHandler s i1 n1 ap1 av1 bp1 bv1).1.mBids
      = mapAssign s.mBids (s.mNextMessageId + 1) (add64 b 100) := by
    rw [book_mBids, hentry]
  have hcanc : s.mNextMessageId + 1
      ∉ (OrderBookMessageHandler s i1 n1 ap1 av1 bp1 bv1).1.mCanceledIds := by
    rw [(book_cancel s i1 n1 ap1 av1 bp1 bv1).2]
    intro hin
    rcases cancelSweep_result _ _ hin with h | h
    · have := hc _ h
      omega
    · rcases (cancelSweep_out _ _ h).2.2 with h' | h'
      · have := hf.1 _ h'
        omega
      · have := hf.2.1 _ h'
        omega
  refine ⟨hins, ?_⟩
  rw [(book_cancel _ i2 n2 ap2 av2 bp2 bv2).1, cancelIds_cancelSweep]
  apply List.mem_append_left
  have hm : (s.mNextMessageId + 1, add64 b 100)
      ∈ (storePrices (OrderBookMessageHandler s i1 n1 ap1 av1 bp1 bv1).1 i2 ap2 bp2).mBids := by
    show _ ∈ (OrderBookMessageHandler s i1 n1 ap1 av1 bp1 bv1).1.mBids
    rw [hbids]
    exact mem_mapAssign_self _ _ _
  have ht : bidTest (storePrices (OrderBookMessageHandler s i1 n1 ap1 av1 bp1 bv1).1
      i2 ap2 bp2).mLastBidPrices (add64 b 100) = true := by
    simp only [bidTest, MIN_PROFITABILITY, TICK_SIZE_IN_CENTS, Nat.reduceMul, Bool.or_eq_true,
      decide_eq_true_eq]
    left
    rw [hsame]
    have e : add64 (add64 b 100) 200 = add64 b 300 := by
      unfold add64 U64
      omega
    rw [e]
    exact hhi
  exact sweepLoop_hit _ _ _ _ _ hm ht hcanc

/-- C19, amended. Every sum below is the unsigned 64-bit sum, the exact one
reduced modulo `2 ^ 64`. From a state reached from the initial state, with
fewer than two bids resting and the position below 70, take a book update
that does not wrap the 64-bit id counter (nor did the messages before it) and
after which the ETF best bid is `b > 200`, the future best bid is above
`b + 200` and at most `b + 300`, and the ETF best ask is zero or at least
`b + 100`. That update places a bid at `b + 100` under the next id, and a
book update that follows immediately and leaves the future best bid unchanged
sends a cancel for that bid. -/
theorem bid_entry_weaker_than_hold (pb : PriceBounds) (asks bids : LastPrices)
    (evs : List Event)
    (i1 : Instrument) (n1 : Nat) (ap1 av1 bp1 bv1 : Nat → Nat)
    (i2 : Instrument) (n2 : Nat) (ap2 av2 bp2 bv2 : Nat → Nat) (b : Nat)
    (hw : noWrap pb (initialState asks bids)
      (evs ++ [Event.orderBook i1 n1 ap1 av1 bp1 bv1]) = true)
    (hsize : (run pb (initialState asks bids) evs).1.mBids.length < 2)
    (hpos : (run pb (initialState asks bids) evs).1.mPosition < 70)
    (hb : (storePrices (run pb (initialState asks bids) evs).1 i1 ap1 bp1).etfBid 0 = b)
    (hfloor : b > 200)
    (hlo : add64 b 200
      < (storePrices (run pb (initialState asks bids) evs).1 i1 ap1 bp1).futureBid 0)
    (hhi : (storePrices (run pb (initialState asks bids) evs).1 i1 ap1 bp1).futureBid 0
      ≤ add64 b 300)
    (hask : (storePrices (run pb (initialState asks bids) evs).1 i1 ap1 bp1).etfAsk 0 = 0
      ∨ (storePrices (run pb (initialState asks bids) evs).1 i1 ap1 bp1).etfAsk 0
        ≥ add64 b 100)
    (hsame : (storePrices (OrderBookMessageHandler (run pb (initialState asks bids) evs).1
          i1 n1 ap1 av1 bp1 bv1).1 i2 ap2 bp2).futureBid 0
      = (storePrices (run pb (initialState asks bids) evs).1 i1 ap1 bp1).futureBid 0) :
    inserts Side.BUY (OrderBookMessageHandler (run pb (initialState asks bids) evs).1
          i1 n1 ap1 av1 bp1 bv1).2
        = [Command.SendInsertOrder ((run pb (initialState asks bids) evs).1.mNextMessageId + 1)
            Side.BUY (add64 b 100) 10 Lifespan.GOOD_FOR_DAY]
      ∧ ((run pb (initialState asks bids) evs).1.mNextMessageId + 1)
        ∈ cancelIds (OrderBookMessageHandler
            (OrderBookMessageHandler (run pb (initialState asks bids) evs).1
              i1 n1 ap1 av1 bp1 bv1).1 i2 n2 ap2 av2 bp2 bv2).2 := by
  rw [noWrap_append, Bool.and_eq_true] at hw
  have h0 : IdsFresh (initialState asks bids) := by
    simp [IdsFresh, initialState, mapKeys]
  have h1 : CancelledOld (initialState asks bids) := by
    simp [CancelledOld, initialState]
  obtain ⟨hf, hc⟩ := run_cancelledOld pb (initialState asks bids) evs h0 h1 hw.1
  have hw1 : (run pb (initialState asks bids) evs).1.mNextMessageId
      + idsUsed (OrderBookMessageHandler (run pb (initialState asks bids) evs).1
          i1 n1 ap1 av1 bp1 bv1).2 < U64 := by
    have := hw.2
    simp only [noWrap, step, Bool.and_true, decide_eq_true_eq] at this
    exact this
  exact entry_then_cancel _ hf hc i1 n1 ap1 av1 bp1 bv1 i2 n2 ap2 av2 bp2 bv2 b hw1 hsize hpos
    hb hfloor hlo hhi hask hsame

/-- C19 amended, at the input of the claim: with the future best bid at
10200, an ETF update with best bid 9900 and best ask 10000 places bid 1 at
10000, and the same ETF update delivered again cancels bid 1. -/
theorem bid_entry_weaker_than_hold_witness :
    inserts Side.BUY (OrderBookMessageHandler
        (run demoBounds (initialState noPrices noPrices) [futureBook]).1 Instrument.ETF 1
        (book2 10000 10100) (book2 5 5) (book2 9900 9800) (book2 5 5)).2
      = [Command.SendInsertOrder 1 Side.BUY 10000 10 Lifespan.GOOD_FOR_DAY]
    ∧ 1 ∈ cancelIds (OrderBookMessageHandler
        (OrderBookMessageHandler
          (run demoBounds (initialState noPrices noPrices) [futureBook]).1 Instrument.ETF 1
          (book2 10000 10100) (book2 5 5) (book2 9900 9800) (book2 5 5)).1 Instrument.ETF 2
        (book2 10000 10100) (book2 5 5) (book2 9900 9800) (book2 5 5)).2 :=
  bid_entry_weaker_than_hold demoBounds noPrices noPrices [futureBook]
    Instrument.ETF 1 (book2 10000 10100) (book2 5 5) (book2 9900 9800) (book2 5 5)
    Instrument.ETF 2 (book2 10000 10100) (book2 5 5) (book2 9900 9800) (book2 5 5) 9900
    (by decide) (by decide) (by decide) (by decide) (by decide) (by decide) (by decide)
    (by decide) (by decide)

/-! ## The id counter after `2 ^ 64` hedges -/

/-- A fill of volume zero for a resting bid that is already cancelled only
advances the id counter. -/
theorem fill_zero_state (pb : PriceBounds) (s : State) (id p : Nat)
    (hb : id ∈ mapKeys s.mBids) (hc : id ∈ s.mCanceledIds)
    (hp1 : -I64 ≤ s.mPosition) (hp2 : s.mPosition < I64) :
    (OrderFilledMessageHandler pb s id p 0).1
      = { s with mNextMessageId := add64 s.mNextMessageId 1 } := by
  unfold OrderFilledMessageHandler
  rw [if_pos ((mapCount_ne_zero_iff _ _).2 hb)]
  dsimp only
  rw [if_neg (fun h => h hc)]
  have : toI64 (s.mPosition + ((0 : Nat) : Int)) = s.mPosition := by
    rw [Nat.cast_zero, add_zero]
    exact toI64_of_mem _ hp1 hp2
  simp only [this]

theorem run_zero_fills (pb : PriceBounds) (id p M : Nat) (s : State)
    (hb : id ∈ mapKeys s.mBids) (hc : id ∈ s.mCanceledIds)
    (hp1 : -I64 ≤ s.mPosition) (hp2 : s.mPosition < I64) (hn : s.mNextMessageId < U64) :
    (run pb s (List.replicate M (Event.orderFilled id p 0))).1
      = { s with mNextMessageId := (s.mNextMessageId + M) % U64 } := by
  induction M generalizing s with
  | zero =>
    simp only [List.replicate, run, Nat.add_zero]
    rw [Nat.mod_eq_of_lt hn]
  | succ M ih =>
    simp only [List.replicate, run, step]
    rw [fill_zero_state pb s id p hb hc hp1 hp2]
    have hlt : add64 s.mNextMessageId 1 < U64 := Nat.mod_lt _ (by decide)
    have h := ih { s with mNextMessageId := add64 s.mNextMessageId 1 } hb hc hp1 hp2 hlt
    rw [h]
    have e : (add64 s.mNextMessageId 1 + M) % U64 = (s.mNextMessageId + (M + 1)) % U64 := by
      unfold add64 U64
      omega
    simp only [e]

theorem run_chain (pb : PriceBounds) (s t u : State) (a b : List Event)
    (h1 : (run pb s a).1 = t) (h2 : (run pb t b).1 = u) : (run pb s (a ++ b)).1 = u := by
  rw [run_append]
  simp only
  rw [h1, h2]

/-- The run of `wrapSession` from the initial state ends in `wrapEnd`: the
first three messages lead to `wrapStart`, the fills of volume zero bring the
id counter from 2 to 0, and the terminal status removes the bid. -/
theorem run_wrapSession :
    (run demoBounds (initialState noPrices noPrices) wrapSession).1 = wrapEnd :=
  run_chain demoBounds (initialState noPrices noPrices)
    { wrapStart with mNextMessageId := 0 } wrapEnd
    ([futureBook,
      Event.orderBook Instrument.ETF 1 (book2 10000 10100) (book2 5 5) (book2 9900 9800)
        (book2 5 5),
      Event.orderFilled 1 10000 0]
      ++ List.replicate 18446744073709551614 (Event.orderFilled 1 10000 0))
    [Event.orderStatus 1 0 0 0]
    (run_chain demoBounds (initialState noPrices noPrices) wrapStart
      { wrapStart with mNextMessageId := 0 }
      [futureBook,
       Event.orderBook Instrument.ETF 1 (book2 10000 10100) (book2 5 5) (book2 9900 9800)
        (book2 5 5),
       Event.orderFilled 1 10000 0]
      (List.replicate 18446744073709551614 (Event.orderFilled 1 10000 0))
      (by decide)
      ((run_zero_fills demoBounds 1 10000 18446744073709551614 wrapStart (by decide)
        (by decide) (by decide) (by decide) (by decide)).trans (by decide)))
    (by decide)

/-- Why the amended C19 asks that the id counter has not wrapped. The state
`wrapEnd` is reached from the initial state by `wrapSession`, in which
`2 ^ 64 - 1` hedges bring the id counter round to zero while id 1 stays in
the cancelled set. It has no bid resting and position 0. An ETF update with
best bid 9900 and best ask 10000, the future best bid being 10200, meets
every price condition and places a bid at 10000; the bid gets id 1 again. The
same ETF update delivered once more leaves the prices unchanged and sends no
cancel for id 1, which the cancel loop skips as already cancelled. -/
theorem bid_entry_after_id_wrap :
    (run demoBounds (initialState noPrices noPrices) wrapSession).1 = wrapEnd
    ∧ wrapEnd.mBids.length < 2 ∧ wrapEnd.mPosition < 70
    ∧ (storePrices wrapEnd Instrument.ETF (book2 10000 10100) (book2 9900 9800)).etfBid 0 = 9900
    ∧ 9900 > 200
    ∧ 9900 + 200
      < (storePrices wrapEnd Instrument.ETF (book2 10000 10100) (book2 9900 9800)).futureBid 0
    ∧ (storePrices wrapEnd Instrument.ETF (book2 10000 10100) (book2 9900 9800)).futureBid 0
      ≤ 9900 + 300
    ∧ (storePrices wrapEnd Instrument.ETF (book2 10000 10100) (book2 9900 9800)).etfAsk 0
      ≥ 9900 + 100
    ∧ inserts Side.BUY (OrderBookMessageHandler wrapEnd Instrument.ETF 1
          (book2 10000 10100) (book2 5 5) (book2 9900 9800) (book2 5 5)).2
        = [Command.SendInsertOrder 1 Side.BUY 10000 10 Lifespan.GOOD_FOR_DAY]
    ∧ (storePrices (OrderBookMessageHandler wrapEnd Instrument.ETF 1
          (book2 10000 10100) (book2 5 5) (book2 9900 9800) (book2 5 5)).1 Instrument.ETF
          (book2 10000 10100) (book2 9900 9800)).mLastBidPrices
        = (OrderBookMessageHandler wrapEnd Instrument.ETF 1
          (book2 10000 10100) (book2 5 5) (book2 9900 9800) (book2 5 5)).1.mLastBidPrices
    ∧ (storePrices (OrderBookMessageHandler wrapEnd Instrument.ETF 1
          (book2 10000 10100) (book2 5 5) (book2 9900 9800) (book2 5 5)).1 Instrument.ETF
          (book2 10000 10100) (book2 9900 9800)).mLastAskPrices
        = (OrderBookMessageHandler wrapEnd Instrument.ETF 1
          (book2 10000 10100) (book2 5 5) (book2 9900 9800) (book2 5 5)).1.mLastAskPrices
    ∧ 1 ∉ cancelIds (OrderBookMessageHandler
          (OrderBookMessageHandler wrapEnd Instrument.ETF 1
            (book2 10000 10100) (book2 5 5) (book2 9900 9800) (book2 5 5)).1 Instrument.ETF 2
          (book2 10000 10100) (book2 5 5) (book2 9900 9800) (book2 5 5)).2 :=
  ⟨run_wrapSession, by decide⟩

/-! ## The claims at the edge of the 64-bit range -/

/-- C1, refuted as stated. The position is a signed 64-bit integer and the
volume an unsigned one. On the resting bid 1, a fill of volume `2 ^ 64 - 1`
from position 0 sends its hedge SELL and leaves the position at -1, not at
`2 ^ 64 - 1`; a fill of volume 1 from position `2 ^ 63 - 1` leaves it at
`-2 ^ 63`, not at `2 ^ 63`. On the resting ask 2, a fill of volume
`2 ^ 64 - 1` from position 0 sends its hedge BUY and leaves the position at
1, not at `-(2 ^ 64 - 1)`. -/
theorem fill_position_wraps_counterexample :
    (1 ∈ mapKeys restingState.mBids
      ∧ hedges (OrderFilledMessageHandler demoBounds restingState 1 9800
            18446744073709551615).2
          = [Command.SendHedgeOrder 3 Side.SELL 100 18446744073709551615]
      ∧ (OrderFilledMessageHandler demoBounds restingState 1 9800
            18446744073709551615).1.mPosition = -1
      ∧ (OrderFilledMessageHandler demoBounds restingState 1 9800
            18446744073709551615).1.mPosition
          ≠ restingState.mPosition + ((18446744073709551615 : Nat) : Int))
    ∧ (1 ∈ mapKeys fullLongState.mBids
      ∧ (OrderFilledMessageHandler demoBounds fullLongState 1 9800 1).1.mPosition
          = -9223372036854775808
      ∧ (OrderFilledMessageHandler demoBounds fullLongState 1 9800 1).1.mPosition
          ≠ fullLongState.mPosition + ((1 : Nat) : Int))
    ∧ (2 ∈ mapKeys restingState.mAsks ∧ 2 ∉ mapKeys restingState.mBids
      ∧ (OrderFilledMessageHandler demoBounds restingState 2 10400
            18446744073709551615).1.mPosition = 1
      ∧ (OrderFilledMessageHandler demoBounds restingState 2 10400
            18446744073709551615).1.mPosition
          ≠ restingState.mPosition - ((18446744073709551615 : Nat) : Int)) := by
  decide

/-- C8, refuted as stated. First, nothing rests, the position is 0 and the
future best bid is 500; an ETF update brings a best bid of `2 ^ 64 - 100`.
The arbitrage entry trigger of the claim, future best bid above ETF best bid
plus 200, does not hold over the integers, and the position is not below
-42, yet the update sends a BUY insert, at price 0: the source compares with
the wrapped sum 100. Second, nothing rests, the position is -45 and a future
update brings a best ask of `2 ^ 64 - 1`; the trigger does not hold and the
update sends its BUY insert at price 99, not at `2 ^ 64 + 99`. -/
theorem bid_unwind_wraps_counterexample :
    (lowFutureState.mBids.length < 2 ∧ lowFutureState.mPosition ≥ -42
      ∧ ¬ ((storePrices lowFutureState Instrument.ETF (book2 0 0)
              (book2 18446744073709551516 0)).futureBid 0
            > (storePrices lowFutureState Instrument.ETF (book2 0 0)
              (book2 18446744073709551516 0)).etfBid 0 + 200
          ∧ (storePrices lowFutureState Instrument.ETF (book2 0 0)
              (book2 18446744073709551516 0)).etfBid 0 > 200)
      ∧ inserts Side.BUY (OrderBookMessageHandler lowFutureState Instrument.ETF 1
            (book2 0 0) (book2 0 0) (book2 18446744073709551516 0) (book2 5 0)).2
          = [Command.SendInsertOrder 1 Side.BUY 0 10 Lifespan.GOOD_FOR_DAY])
    ∧ (shortState.mBids.length < 2 ∧ shortState.mPosition < -42
      ∧ (storePrices shortState Instrument.FUTURE (book2 18446744073709551615 0)
            (book2 0 0)).futureAsk 0 ≠ 0
      ∧ ¬ ((storePrices shortState Instrument.FUTURE (book2 18446744073709551615 0)
              (book2 0 0)).futureBid 0
            > (storePrices shortState Instrument.FUTURE (book2 18446744073709551615 0)
              (book2 0 0)).etfBid 0 + 200
          ∧ (storePrices shortState Instrument.FUTURE (book2 18446744073709551615 0)
              (book2 0 0)).etfBid 0 > 200)
      ∧ inserts Side.BUY (OrderBookMessageHandler shortState Instrument.FUTURE 1
            (book2 18446744073709551615 0) (book2 5 0) (book2 0 0) (book2 0 0)).2
          = [Command.SendInsertOrder 8 Side.BUY 99 10 Lifespan.GOOD_FOR_DAY]
      ∧ 99 ≠ (storePrices shortState Instrument.FUTURE (book2 18446744073709551615 0)
            (book2 0 0)).futureAsk 0 + 100) := by
  decide

/-- C9, refuted as stated. The state `hugeBidState` is reached from the
initial state by two book updates and rests bid 1 at `p = 2 ^ 64 - 100`, not
cancelled. A future update then brings a best bid of 150, which is at most
`p + 200` over the integers, yet the update sends no cancel for bid 1 and
does not add it to the cancelled set: the source compares 150 with the wrapped
sum 100, and the ETF second-best bid, 0, is not above `p`. -/
theorem bid_cancel_wraps_counterexample :
    (run demoBounds (initialState noPrices noPrices) hugeBidSession).1 = hugeBidState
    ∧ (1, 18446744073709551516) ∈ hugeBidState.mBids ∧ 1 ∉ hugeBidState.mCanceledIds
    ∧ (storePrices hugeBidState Instrument.FUTURE (book2 0 0) (book2 150 0)).futureBid 0
        ≤ 18446744073709551516 + 200
    ∧ (cancelIds (OrderBookMessageHandler hugeBidState Instrument.FUTURE 2
          (book2 0 0) (book2 0 0) (book2 150 0) (book2 5 0)).2).count 1 = 0
    ∧ 1 ∉ (OrderBookMessageHandler hugeBidState Instrument.FUTURE 2
          (book2 0 0) (book2 0 0) (book2 150 0) (book2 5 0)).1.mCanceledIds := by
  decide

/-- C19, refuted as stated. After a future update with a best bid of
`2 ^ 64 - 10` nothing rests, the position is 0 and the id counter is 0. An
ETF update brings a best bid of `b = 2 ^ 64 - 250` and a best ask of 0: over
the integers `b + 200` is below the future best bid, which is at most
`b + 300`, and the update places bid 1 at `b + 100`. The same ETF update
delivered again leaves the prices unchanged and sends no cancel for bid 1:
the source compares the future best bid with the wrapped sum 50. -/
theorem bid_entry_hold_wraps_counterexample :
    (run demoBounds (initialState noPrices noPrices) [hugeFutureBook]).1.mBids.length < 2
    ∧ (run demoBounds (initialState noPrices noPrices) [hugeFutureBook]).1.mPosition < 70
    ∧ (storePrices (run demoBounds (initialState noPrices noPrices) [hugeFutureBook]).1
          Instrument.ETF (book2 0 0) (book2 18446744073709551366 0)).etfBid 0
        = 18446744073709551366
    ∧ 18446744073709551366 > 200
    ∧ 18446744073709551366 + 200
        < (storePrices (run demoBounds (initialState noPrices noPrices) [hugeFutureBook]).1
          Instrument.ETF (book2 0 0) (book2 18446744073709551366 0)).futureBid 0
    ∧ (storePrices (run demoBounds (initialState noPrices noPrices) [hugeFutureBook]).1
          Instrument.ETF (book2 0 0) (book2 18446744073709551366 0)).futureBid 0
        ≤ 18446744073709551366 + 300
    ∧ (storePrices (run demoBounds (initialState noPrices noPrices) [hugeFutureBook]).1
          Instrument.ETF (book2 0 0) (book2 18446744073709551366 0)).etfAsk 0 = 0
    ∧ inserts Side.BUY (OrderBookMessageHandler
          (run demoBounds (initialState noPrices noPrices) [hugeFutureBook]).1
          Instrument.ETF 2 (book2 0 0) (book2 0 0) (book2 18446744073709551366 0)
          (book2 5 0)).2
        = [Command.SendInsertOrder 1 Side.BUY (18446744073709551366 + 100) 10
            Lifespan.GOOD_FOR_DAY]
    ∧ (storePrices (OrderBookMessageHandler
          (run demoBounds (initialState noPrices noPrices) [hugeFutureBook]).1
          Instrument.ETF 2 (book2 0 0) (book2 0 0) (book2 18446744073709551366 0)
          (book2 5 0)).1 Instrument.ETF (book2 0 0) (book2 18446744073709551366 0))
        = (OrderBookMessageHandler
          (run demoBounds (initialState noPrices noPrices) [hugeFutureBook]).1
          Instrument.ETF 2 (book2 0 0) (book2 0 0) (book2 18446744073709551366 0)
          (book2 5 0)).1
    ∧ 1 ∉ cancelIds (OrderBookMessageHandler
          (OrderBookMessageHandler
            (run demoBounds (initialState noPrices noPrices) [hugeFutureBook]).1
            Instrument.ETF 2 (book2 0 0) (book2 0 0) (book2 18446744073709551366 0)
            (book2 5 0)).1
          Instrument.ETF 3 (book2 0 0) (book2 0 0) (book2 18446744073709551366 0)
          (book2 5 0)).2 := by
  decide

end AutoTrader
